import Mathlib

/-!
Verification of the bolt-rs serialization core: a shallow embedding of the
Bolt value codec (src/bolt-proto/src/value.rs), the message codec and chunked
framer (src/bolt-proto/src/message.rs), and the client handshake
(src/rust-bolt/src/client.rs).

Bytes are modelled as natural numbers (every byte produced by an encoder is
below 256), byte buffers as lists.  The shared Arc-Mutex read cursor of the
source is modelled by threading the remaining input through each decoder.
A read past the end of the buffer panics in the source (the bytes crate) and
is caught by the catch_unwind wrapper at the codec boundary; here such a read
yields the error DErr.panicked directly.

The per-value submodules of bolt-proto (integer.rs, string.rs, list.rs,
map.rs, byte_array.rs, node.rs, ..., serialization.rs, error.rs) are not part
of the visible source; their encoders and field readers are modelled from the
specification (sections 4.2, 4.3 and 6.2: marker table, smallest-width
selection, big-endian lengths and payloads).
-/

/-- Error kinds of the decoders.  The source distinguishes the caught-panic
error (DeserializeError "Panicked during deserialization" for values,
DeserializationError::Panicked for messages), an invalid-marker error, an
invalid-signature error, and field-conversion failures.  Modelled from the
spec: the error taxonomy of section 7 additionally names UnexpectedEof for a
cursor advanced past the buffer end (error.rs is not part of the visible
source); it is included here so that statements about that kind can be made,
but no decode path of the visible source constructs it — a read past the end
of the buffer panics inside the bytes crate and the catch_unwind wrapper
turns the panic into the Panicked error. -/
inductive DErr where
  | panicked
  | invalidMarker (b : Nat)
  | invalidSignature (b : Nat)
  | typeError
  | unexpectedEof

abbrev DRes (α : Type) : Type := Except DErr α

/-- Big-endian bytes of n, w bytes wide (low w*8 bits of n). -/
def beBytes : Nat → Nat → List Nat
  | 0, _ => []
  | w+1, n => beBytes w (n / 256) ++ [n % 256]

/-- Read exactly k bytes from the front of the buffer; reading past the end
of the buffer is a panic in the source. -/
def readN (k : Nat) (l : List Nat) : Option (List Nat × List Nat) :=
  if k ≤ l.length then some (l.take k, l.drop k) else none

/-- Value of a big-endian byte list. -/
def beVal (l : List Nat) : Nat := l.foldl (fun a b => a * 256 + b) 0

/-- Read a w-byte big-endian unsigned integer. -/
def readBE (w : Nat) (l : List Nat) : Option (Nat × List Nat) :=
  match readN w l with
  | some (pre, rest) => some (beVal pre, rest)
  | none => none

/-- Read a single byte. -/
def readByte : List Nat → Option (Nat × List Nat)
  | [] => none
  | b :: t => some (b, t)

/-- Unsigned w-byte value of the signed integer n (two's complement). -/
def toU (w : Nat) (n : Int) : Nat := (n % (2 ^ (8 * w))).toNat

/-- Signed interpretation of a w-byte unsigned value (two's complement),
as performed by the get_i8 / get_i16 / get_i32 / get_i64 reads. -/
def fromSigned (w : Nat) (m : Nat) : Int :=
  if m < 2 ^ (8 * w - 1) then (m : Int) else (m : Int) - 2 ^ (8 * w)

/-- The value schema of bolt-proto (src/bolt-proto/src/value.rs, enum Value).
Floats are carried as their raw IEEE-754 bit pattern (8 bytes on the wire);
strings as their UTF-8 byte sequences; the inner Map type of the source is a
HashMap from Value keys to Value entries, modelled as an association list in
encoding order; node, relationship and unbound-relationship properties are
String-keyed maps; Path carries its nodes, its unbound relationships and its
sequence, matching section 3.1 of the specification. -/
inductive Value where
  | boolean (b : Bool)
  | integer (n : Int)
  | float (bits : Nat)
  | bytes (bs : List Nat)
  | list (vs : List Value)
  | map (es : List (Value × Value))
  | null
  | string (s : List Nat)
  | node (id : Int) (labels : List (List Nat)) (props : List (List Nat × Value))
  | relationship (id : Int) (startId : Int) (endId : Int) (relType : List Nat)
      (props : List (List Nat × Value))
  | path (nodes : List (Int × List (List Nat) × List (List Nat × Value)))
      (rels : List (Int × List Nat × List (List Nat × Value)))
      (seq : List Int)
  | unboundRelationship (id : Int) (relType : List Nat) (props : List (List Nat × Value))
  | date (days : Int)
  | time (nanos : Int) (offsetSeconds : Int)

/-- Modelled from the spec: integer encoding of the missing integer.rs,
section 4.2: the smallest of tiny int, Int8 (0xC8), Int16 (0xC9), Int32
(0xCA), Int64 (0xCB) that fits.  Values outside the i64 range are not
representable in the source and have no encoding. -/
def encInt (n : Int) : Option (List Nat) :=
  if -16 ≤ n ∧ n ≤ 127 then some [toU 1 n]
  else if -128 ≤ n ∧ n ≤ 127 then some [0xC8, toU 1 n]
  else if -(2^15) ≤ n ∧ n < 2^15 then some (0xC9 :: beBytes 2 (toU 2 n))
  else if -(2^31) ≤ n ∧ n < 2^31 then some (0xCA :: beBytes 4 (toU 4 n))
  else if -(2^63) ≤ n ∧ n < 2^63 then some (0xCB :: beBytes 8 (toU 8 n))
  else none

/-- Modelled from the spec: string marker and length, section 4.2 (tiny
string 0x80 + L, then 0xD0/0xD1/0xD2 with u8/u16/u32 length). -/
def strHeader (len : Nat) : Option (List Nat) :=
  if len ≤ 15 then some [0x80 + len]
  else if len ≤ 255 then some [0xD0, len]
  else if len ≤ 65535 then some (0xD1 :: beBytes 2 len)
  else if len < 2^32 then some (0xD2 :: beBytes 4 len)
  else none

/-- Modelled from the spec: list marker and count, section 4.2 (tiny list
0x90 + N, then 0xD4/0xD5/0xD6 with u8/u16/u32 count). -/
def listHeader (n : Nat) : Option (List Nat) :=
  if n ≤ 15 then some [0x90 + n]
  else if n ≤ 255 then some [0xD4, n]
  else if n ≤ 65535 then some (0xD5 :: beBytes 2 n)
  else if n < 2^32 then some (0xD6 :: beBytes 4 n)
  else none

/-- Modelled from the spec: map marker and entry count, section 4.2 (tiny map
0xA0 + N, then 0xD8/0xD9/0xDA with u8/u16/u32 count). -/
def mapHeader (n : Nat) : Option (List Nat) :=
  if n ≤ 15 then some [0xA0 + n]
  else if n ≤ 255 then some [0xD8, n]
  else if n ≤ 65535 then some (0xD9 :: beBytes 2 n)
  else if n < 2^32 then some (0xDA :: beBytes 4 n)
  else none

/-- Modelled from the spec: byte-array encoding of the missing
byte_array.rs, section 4.2 (0xCC, 0xCD, 0xCE with u8, u16, u32 length). -/
def encBytesV (bs : List Nat) : Option (List Nat) :=
  if bs.length ≤ 255 then some (0xCC :: bs.length :: bs)
  else if bs.length ≤ 65535 then some (0xCD :: beBytes 2 bs.length ++ bs)
  else if bs.length < 2^32 then some (0xCE :: beBytes 4 bs.length ++ bs)
  else none

/-- Float encoding: marker 0xC1 then the eight IEEE-754 bytes, big-endian.
Bit patterns outside 64 bits are not representable in the source. -/
def encFloatV (bits : Nat) : Option (List Nat) :=
  if bits < 2^64 then some (0xC1 :: beBytes 8 bits) else none

/-- Encoding of a string: header then UTF-8 payload bytes. -/
def encStr (s : List Nat) : Option (List Nat) :=
  match strHeader s.length with
  | some h => some (h ++ s)
  | none => none

def encStrs : List (List Nat) → Option (List Nat)
  | [] => some []
  | s :: t =>
    match encStr s, encStrs t with
    | some b, some bt => some (b ++ bt)
    | _, _ => none

/-- Encoding of a list of strings as a list value (node labels). -/
def encStrListV (labels : List (List Nat)) : Option (List Nat) :=
  match listHeader labels.length, encStrs labels with
  | some h, some body => some (h ++ body)
  | _, _ => none

def encInts : List Int → Option (List Nat)
  | [] => some []
  | n :: t =>
    match encInt n, encInts t with
    | some b, some bt => some (b ++ bt)
    | _, _ => none

/-- Encoding of a list of integers as a list value (path sequence). -/
def encIntListV (seq : List Int) : Option (List Nat) :=
  match listHeader seq.length, encInts seq with
  | some h, some body => some (h ++ body)
  | _, _ => none

mutual

/-- Modelled from the spec: the TryInto Bytes encoding of Value
(src/bolt-proto/src/value.rs impl TryInto of Bytes delegates to the missing
per-value submodules; markers and layouts are from sections 4.2 and 6.2).
Node is the structure 0xB3 0x4E with fields id, labels, properties;
Relationship 0xB5 0x52; UnboundRelationship 0xB3 0x72; Path 0xB3 0x50 with a
node list, an unbound-relationship list and a sequence list; Date 0xB1 0x44
with the day count; Time 0xB2 0x54 with nanoseconds and offset seconds. -/
def encodeV : Value → Option (List Nat)
  | .null => some [0xC0]
  | .boolean false => some [0xC2]
  | .boolean true => some [0xC3]
  | .integer n => encInt n
  | .float bits => encFloatV bits
  | .bytes bs => encBytesV bs
  | .string s => encStr s
  | .list vs =>
    match listHeader vs.length, encodeVL vs with
    | some h, some body => some (h ++ body)
    | _, _ => none
  | .map es =>
    match mapHeader es.length, encodeEs es with
    | some h, some body => some (h ++ body)
    | _, _ => none
  | .node id labels props =>
    match encInt id, encStrListV labels, mapHeader props.length, encProps props with
    | some i, some l, some mh, some p => some ([0xB3, 0x4E] ++ i ++ l ++ (mh ++ p))
    | _, _, _, _ => none
  | .relationship id sid eid t props =>
    match encInt id, encInt sid, encInt eid, encStr t,
        mapHeader props.length, encProps props with
    | some i, some s, some e, some tb, some mh, some p =>
        some ([0xB5, 0x52] ++ i ++ s ++ e ++ tb ++ (mh ++ p))
    | _, _, _, _, _, _ => none
  | .unboundRelationship id t props =>
    match encInt id, encStr t, mapHeader props.length, encProps props with
    | some i, some tb, some mh, some p => some ([0xB3, 0x72] ++ i ++ tb ++ (mh ++ p))
    | _, _, _, _ => none
  | .path ns rs seq =>
    match listHeader ns.length, encNodes ns, listHeader rs.length, encURels rs,
        encIntListV seq with
    | some nh, some a, some rh, some b, some c =>
        some ([0xB3, 0x50] ++ (nh ++ a) ++ (rh ++ b) ++ c)
    | _, _, _, _, _ => none
  | .date days => match encInt days with
    | some d => some ([0xB1, 0x44] ++ d)
    | none => none
  | .time nanos offs =>
    match encInt nanos, encInt offs with
    | some a, some b => some ([0xB2, 0x54] ++ a ++ b)
    | _, _ => none
termination_by structural x => x

def encodeVL : List Value → Option (List Nat)
  | [] => some []
  | v :: t =>
    match encodeV v, encodeVL t with
    | some b, some bt => some (b ++ bt)
    | _, _ => none
termination_by structural x => x

def encodeEs : List (Value × Value) → Option (List Nat)
  | [] => some []
  | (k, v) :: t =>
    match encodeV k, encodeV v, encodeEs t with
    | some bk, some bv, some bt => some (bk ++ bv ++ bt)
    | _, _, _ => none
termination_by structural x => x

def encProps : List (List Nat × Value) → Option (List Nat)
  | [] => some []
  | (k, v) :: t =>
    match encStr k, encodeV v, encProps t with
    | some bk, some bv, some bt => some (bk ++ bv ++ bt)
    | _, _, _ => none
termination_by structural x => x

def encNodes : List (Int × List (List Nat) × List (List Nat × Value)) → Option (List Nat)
  | [] => some []
  | (id, labels, props) :: t =>
    match encInt id, encStrListV labels, mapHeader props.length, encProps props,
        encNodes t with
    | some i, some l, some mh, some p, some bt =>
        some (([0xB3, 0x4E] ++ i ++ l ++ (mh ++ p)) ++ bt)
    | _, _, _, _, _ => none
termination_by structural x => x

def encURels : List (Int × List Nat × List (List Nat × Value)) → Option (List Nat)
  | [] => some []
  | (id, t, props) :: rest =>
    match encInt id, encStr t, mapHeader props.length, encProps props, encURels rest with
    | some i, some tb, some mh, some p, some bt =>
        some (([0xB3, 0x72] ++ i ++ tb ++ (mh ++ p)) ++ bt)
    | _, _, _, _, _ => none
termination_by structural x => x

end

/-- Encoding of a String-keyed property map as a map value. -/
def encPropsV (props : List (List Nat × Value)) : Option (List Nat) :=
  match mapHeader props.length, encProps props with
  | some h, some body => some (h ++ body)
  | _, _ => none

mutual

/-- Whether hashing the value succeeds (src/bolt-proto/src/value.rs impl Hash
for Value): Float, Bytes, Map, Node, Relationship, UnboundRelationship and
Path panic; Boolean, Integer, Null, String, Date and Time hash their payload;
a List hashes its elements, so it panics as soon as one element does. -/
def hashable : Value → Bool
  | .float _ => false
  | .bytes _ => false
  | .map _ => false
  | .node _ _ _ => false
  | .relationship _ _ _ _ _ => false
  | .unboundRelationship _ _ _ => false
  | .path _ _ _ => false
  | .boolean _ => true
  | .integer _ => true
  | .list vs => hashableL vs
  | .null => true
  | .string _ => true
  | .date _ => true
  | .time _ _ => true
termination_by structural x => x

def hashableL : List Value → Bool
  | [] => true
  | v :: t => hashable v && hashableL t
termination_by structural x => x

end

mutual

/-- Every map key reachable inside the value hashes without panicking.  The
map decoder inserts each decoded key into a HashMap, which hashes it; a value
violating this cannot be rebuilt by the decoder (and cannot be constructed in
the source without panicking first). -/
def keysOK : Value → Bool
  | .list vs => keysOKL vs
  | .map es => keysOKEs es
  | .node _ _ props => keysOKPs props
  | .relationship _ _ _ _ props => keysOKPs props
  | .unboundRelationship _ _ props => keysOKPs props
  | .path ns rs _ => keysOKNs ns && keysOKRs rs
  | _ => true
termination_by structural x => x

def keysOKL : List Value → Bool
  | [] => true
  | v :: t => keysOK v && keysOKL t
termination_by structural x => x

def keysOKEs : List (Value × Value) → Bool
  | [] => true
  | (k, v) :: t => hashable k && keysOK v && keysOKEs t
termination_by structural x => x

def keysOKPs : List (List Nat × Value) → Bool
  | [] => true
  | (_, v) :: t => keysOK v && keysOKPs t
termination_by structural x => x

def keysOKNs : List (Int × List (List Nat) × List (List Nat × Value)) → Bool
  | [] => true
  | (_, _, props) :: t => keysOKPs props && keysOKNs t
termination_by structural x => x

def keysOKRs : List (Int × List Nat × List (List Nat × Value)) → Bool
  | [] => true
  | (_, _, props) :: t => keysOKPs props && keysOKRs t
termination_by structural x => x

end

/-- Decode n consecutive values using the supplied single-value decoder
(the loop of the missing list.rs deserializer). -/
def decSeq (dec : List Nat → DRes (Value × List Nat)) :
    Nat → List Nat → DRes (List Value × List Nat)
  | 0, input => .ok ([], input)
  | n+1, input =>
    match dec input with
    | .error e => .error e
    | .ok (v, r) =>
      match decSeq dec n r with
      | .error e => .error e
      | .ok (vs, r') => .ok (v :: vs, r')

/-- Decode n key-value pairs (the loop of the missing map.rs deserializer).
After each pair is decoded, the source inserts the key into a HashMap, which
hashes it; an unhashable key panics there, caught at the codec boundary. -/
def decEntries (dec : List Nat → DRes (Value × List Nat)) :
    Nat → List Nat → DRes (List (Value × Value) × List Nat)
  | 0, input => .ok ([], input)
  | n+1, input =>
    match dec input with
    | .error e => .error e
    | .ok (k, r) =>
      match dec r with
      | .error e => .error e
      | .ok (v, r') =>
        if hashable k then
          match decEntries dec n r' with
          | .error e => .error e
          | .ok (es, r'') => .ok ((k, v) :: es, r'')
        else .error .panicked

/-- Conversion of a decoded list value into a Vec of Strings (node labels);
a non-string element is a conversion error. -/
def valsToStrs : List Value → Option (List (List Nat))
  | [] => some []
  | .string s :: t => (valsToStrs t).map (fun r => s :: r)
  | _ => none

/-- Conversion of a decoded list value into a Vec of i64 (path sequence). -/
def valsToInts : List Value → Option (List Int)
  | [] => some []
  | .integer n :: t => (valsToInts t).map (fun r => n :: r)
  | _ => none

/-- Conversion of a decoded list value into a Vec of Nodes (path nodes). -/
def valsToNodes : List Value → Option (List (Int × List (List Nat) × List (List Nat × Value)))
  | [] => some []
  | .node id l p :: t => (valsToNodes t).map (fun r => (id, l, p) :: r)
  | _ => none

/-- Conversion of a decoded list value into a Vec of UnboundRelationships. -/
def valsToURels : List Value → Option (List (Int × List Nat × List (List Nat × Value)))
  | [] => some []
  | .unboundRelationship id ty p :: t => (valsToURels t).map (fun r => (id, ty, p) :: r)
  | _ => none

/-- Conversion of a decoded map value into a String-keyed HashMap (node,
relationship and unbound-relationship properties). -/
def entriesToProps : List (Value × Value) → Option (List (List Nat × Value))
  | [] => some []
  | (.string s, v) :: t => (entriesToProps t).map (fun r => (s, v) :: r)
  | _ => none

/-- Dispatch on the signature byte of a value structure
(src/bolt-proto/src/value.rs, fn deserialize_structure): Node 0x4E,
Relationship 0x52, Path 0x50, UnboundRelationship 0x72, Date 0x44, Time 0x54,
anything else an invalid-signature error.  Each branch reads the fixed number
of fields as values and converts them to the field types; the field count in
the structure marker is not consulted. -/
def decodeStructBody (dec : List Nat → DRes (Value × List Nat)) (sig : Nat)
    (input : List Nat) : DRes (Value × List Nat) :=
  if sig = 0x4E then
    match dec input with
    | .error e => .error e
    | .ok (.integer id, r) =>
      match dec r with
      | .error e => .error e
      | .ok (.list lvs, r') =>
        match valsToStrs lvs with
        | none => .error .typeError
        | some labels =>
          match dec r' with
          | .error e => .error e
          | .ok (.map es, r'') =>
            match entriesToProps es with
            | none => .error .typeError
            | some props => .ok (.node id labels props, r'')
          | .ok _ => .error .typeError
      | .ok _ => .error .typeError
    | .ok _ => .error .typeError
  else if sig = 0x52 then
    match dec input with
    | .error e => .error e
    | .ok (.integer id, r1) =>
      match dec r1 with
      | .error e => .error e
      | .ok (.integer sid, r2) =>
        match dec r2 with
        | .error e => .error e
        | .ok (.integer eid, r3) =>
          match dec r3 with
          | .error e => .error e
          | .ok (.string t, r4) =>
            match dec r4 with
            | .error e => .error e
            | .ok (.map es, r5) =>
              match entriesToProps es with
              | none => .error .typeError
              | some props => .ok (.relationship id sid eid t props, r5)
            | .ok _ => .error .typeError
          | .ok _ => .error .typeError
        | .ok _ => .error .typeError
      | .ok _ => .error .typeError
    | .ok _ => .error .typeError
  else if sig = 0x50 then
    match dec input with
    | .error e => .error e
    | .ok (.list nvs, r1) =>
      match valsToNodes nvs with
      | none => .error .typeError
      | some ns =>
        match dec r1 with
        | .error e => .error e
        | .ok (.list rvs, r2) =>
          match valsToURels rvs with
          | none => .error .typeError
          | some rs =>
            match dec r2 with
            | .error e => .error e
            | .ok (.list svs, r3) =>
              match valsToInts svs with
              | none => .error .typeError
              | some seq => .ok (.path ns rs seq, r3)
            | .ok _ => .error .typeError
        | .ok _ => .error .typeError
    | .ok _ => .error .typeError
  else if sig = 0x72 then
    match dec input with
    | .error e => .error e
    | .ok (.integer id, r1) =>
      match dec r1 with
      | .error e => .error e
      | .ok (.string t, r2) =>
        match dec r2 with
        | .error e => .error e
        | .ok (.map es, r3) =>
          match entriesToProps es with
          | none => .error .typeError
          | some props => .ok (.unboundRelationship id t props, r3)
        | .ok _ => .error .typeError
      | .ok _ => .error .typeError
    | .ok _ => .error .typeError
  else if sig = 0x44 then
    match dec input with
    | .error e => .error e
    | .ok (.integer days, r) => .ok (.date days, r)
    | .ok _ => .error .typeError
  else if sig = 0x54 then
    match dec input with
    | .error e => .error e
    | .ok (.integer nanos, r1) =>
      match dec r1 with
      | .error e => .error e
      | .ok (.integer offs, r2) => .ok (.time nanos offs, r2)
      | .ok _ => .error .typeError
    | .ok _ => .error .typeError
  else .error (.invalidSignature sig)

/-- The marker dispatch of Value decoding (src/bolt-proto/src/value.rs,
impl TryFrom for Value), with the branches in source order: null 0xC0, false
0xC2, true 0xC3, tiny int (marker in -16..=127 as an i8), the four sized
integers, float, the three byte-array forms, tiny string then sized strings,
tiny list then sized lists, tiny map then sized maps, tiny structure then the
two sized structure forms, otherwise an invalid-marker error.  The fuel
argument bounds the nesting depth; the public entry point passes more fuel
than any input can consume, so fuel exhaustion is unreachable (every nesting
level consumes at least one byte of input first). -/
def decodeVStep (dec : List Nat → DRes (Value × List Nat)) (input : List Nat) :
    DRes (Value × List Nat) :=
    match readByte input with
    | none => .error .panicked
    | some (marker, r) =>
      if marker = 0xC0 then .ok (.null, r)
      else if marker = 0xC2 then .ok (.boolean false, r)
      else if marker = 0xC3 then .ok (.boolean true, r)
      else if marker ≤ 0x7F ∨ (0xF0 ≤ marker ∧ marker ≤ 0xFF) then
        .ok (.integer (fromSigned 1 marker), r)
      else if marker = 0xC8 then
        match readBE 1 r with
        | none => .error .panicked
        | some (m, r') => .ok (.integer (fromSigned 1 m), r')
      else if marker = 0xC9 then
        match readBE 2 r with
        | none => .error .panicked
        | some (m, r') => .ok (.integer (fromSigned 2 m), r')
      else if marker = 0xCA then
        match readBE 4 r with
        | none => .error .panicked
        | some (m, r') => .ok (.integer (fromSigned 4 m), r')
      else if marker = 0xCB then
        match readBE 8 r with
        | none => .error .panicked
        | some (m, r') => .ok (.integer (fromSigned 8 m), r')
      else if marker = 0xC1 then
        match readBE 8 r with
        | none => .error .panicked
        | some (m, r') => .ok (.float m, r')
      else if marker = 0xCC then
        match readBE 1 r with
        | none => .error .panicked
        | some (len, r') =>
          match readN len r' with
          | none => .error .panicked
          | some (bs, r'') => .ok (.bytes bs, r'')
      else if marker = 0xCD then
        match readBE 2 r with
        | none => .error .panicked
        | some (len, r') =>
          match readN len r' with
          | none => .error .panicked
          | some (bs, r'') => .ok (.bytes bs, r'')
      else if marker = 0xCE then
        match readBE 4 r with
        | none => .error .panicked
        | some (len, r') =>
          match readN len r' with
          | none => .error .panicked
          | some (bs, r'') => .ok (.bytes bs, r'')
      else if 0x80 ≤ marker ∧ marker ≤ 0x8F then
        match readN (marker - 0x80) r with
        | none => .error .panicked
        | some (s, r') => .ok (.string s, r')
      else if marker = 0xD0 then
        match readBE 1 r with
        | none => .error .panicked
        | some (len, r') =>
          match readN len r' with
          | none => .error .panicked
          | some (s, r'') => .ok (.string s, r'')
      else if marker = 0xD1 then
        match readBE 2 r with
        | none => .error .panicked
        | some (len, r') =>
          match readN len r' with
          | none => .error .panicked
          | some (s, r'') => .ok (.string s, r'')
      else if marker = 0xD2 then
        match readBE 4 r with
        | none => .error .panicked
        | some (len, r') =>
          match readN len r' with
          | none => .error .panicked
          | some (s, r'') => .ok (.string s, r'')
      else if 0x90 ≤ marker ∧ marker ≤ 0x9F then
        match decSeq dec (marker - 0x90) r with
        | .error e => .error e
        | .ok (vs, r') => .ok (.list vs, r')
      else if marker = 0xD4 then
        match readBE 1 r with
        | none => .error .panicked
        | some (n, r') =>
          match decSeq dec n r' with
          | .error e => .error e
          | .ok (vs, r'') => .ok (.list vs, r'')
      else if marker = 0xD5 then
        match readBE 2 r with
        | none => .error .panicked
        | some (n, r') =>
          match decSeq dec n r' with
          | .error e => .error e
          | .ok (vs, r'') => .ok (.list vs, r'')
      else if marker = 0xD6 then
        match readBE 4 r with
        | none => .error .panicked
        | some (n, r') =>
          match decSeq dec n r' with
          | .error e => .error e
          | .ok (vs, r'') => .ok (.list vs, r'')
      else if 0xA0 ≤ marker ∧ marker ≤ 0xAF then
        match decEntries dec (marker - 0xA0) r with
        | .error e => .error e
        | .ok (es, r') => .ok (.map es, r')
      else if marker = 0xD8 then
        match readBE 1 r with
        | none => .error .panicked
        | some (n, r') =>
          match decEntries dec n r' with
          | .error e => .error e
          | .ok (es, r'') => .ok (.map es, r'')
      else if marker = 0xD9 then
        match readBE 2 r with
        | none => .error .panicked
        | some (n, r') =>
          match decEntries dec n r' with
          | .error e => .error e
          | .ok (es, r'') => .ok (.map es, r'')
      else if marker = 0xDA then
        match readBE 4 r with
        | none => .error .panicked
        | some (n, r') =>
          match decEntries dec n r' with
          | .error e => .error e
          | .ok (es, r'') => .ok (.map es, r'')
      else if 0xB0 ≤ marker ∧ marker ≤ 0xBF then
        match readByte r with
        | none => .error .panicked
        | some (sig, r') => decodeStructBody dec sig r'
      else if marker = 0xDC then
        match readBE 1 r with
        | none => .error .panicked
        | some (_, r') =>
          match readByte r' with
          | none => .error .panicked
          | some (sig, r'') => decodeStructBody dec sig r''
      else if marker = 0xDD then
        match readBE 2 r with
        | none => .error .panicked
        | some (_, r') =>
          match readByte r' with
          | none => .error .panicked
          | some (sig, r'') => decodeStructBody dec sig r''
      else .error (.invalidMarker marker)

/-- Fuel-indexed decoder: one decodeVStep per nesting level. -/
def decodeV : Nat → List Nat → DRes (Value × List Nat)
  | 0, _ => .error .panicked
  | fuel+1, input => decodeVStep (decodeV fuel) input
termination_by structural x => x

/-- The public Value decoder (impl TryFrom of Arc Mutex Bytes for Value),
returning the decoded value and the unconsumed remainder of the buffer. -/
def decodeValueFull (input : List Nat) : DRes (Value × List Nat) :=
  decodeV (input.length + 1) input

/-- Value decoding as observed by callers (the remainder stays in the
shared buffer and is not part of the result). -/
def decodeValue (input : List Nat) : DRes Value :=
  match decodeValueFull input with
  | .ok (v, _) => .ok v
  | .error e => .error e

mutual

/-- A hashable value contains no map anywhere, so all its keys are fine. -/
def hashable_keysOK : ∀ v, hashable v = true → keysOK v = true
  | .boolean _, _ => rfl
  | .integer _, _ => rfl
  | .null, _ => rfl
  | .string _, _ => rfl
  | .date _, _ => rfl
  | .time _ _, _ => rfl
  | .float _, h => nomatch h
  | .bytes _, h => nomatch h
  | .map _, h => nomatch h
  | .node _ _ _, h => nomatch h
  | .relationship _ _ _ _ _, h => nomatch h
  | .unboundRelationship _ _ _, h => nomatch h
  | .path _ _ _, h => nomatch h
  | .list vs, h => hashableL_keysOKL vs h
termination_by structural v => v

def hashableL_keysOKL : ∀ vs, hashableL vs = true → keysOKL vs = true
  | [], _ => rfl
  | v :: t, h => by
    have hv : hashable v = true := by
      have := h; simp [hashableL, Bool.and_eq_true] at this; exact this.1
    have ht : hashableL t = true := by
      have := h; simp [hashableL, Bool.and_eq_true] at this; exact this.2
    simp [keysOKL, Bool.and_eq_true]
    exact ⟨hashable_keysOK v hv, hashableL_keysOKL t ht⟩
termination_by structural vs => vs

end

/-- View of a node tuple as a Value (the elements of the node list that a
path encodes). -/
def nodeify (t : Int × List (List Nat) × List (List Nat × Value)) : Value :=
  .node t.1 t.2.1 t.2.2

/-- View of an unbound-relationship tuple as a Value. -/
def urelify (t : Int × List Nat × List (List Nat × Value)) : Value :=
  .unboundRelationship t.1 t.2.1 t.2.2

/-- Encoding of a list of node structures as defined for paths. -/
def encNodeListV (ns : List (Int × List (List Nat) × List (List Nat × Value))) :
    Option (List Nat) :=
  match listHeader ns.length, encNodes ns with
  | some h, some body => some (h ++ body)
  | _, _ => none

/-- Encoding of a list of unbound-relationship structures for paths. -/
def encURelListV (rs : List (Int × List Nat × List (List Nat × Value))) :
    Option (List Nat) :=
  match listHeader rs.length, encURels rs with
  | some h, some body => some (h ++ body)
  | _, _ => none

/-- NaN test on an IEEE-754 64-bit pattern: exponent bits all ones and a
nonzero mantissa. -/
def isNaNBits (b : Nat) : Bool := (b / 2^52) % 2^11 == 2047 && !(b % 2^52 == 0)

mutual

/-- The value lies in the schema of section 3 of the specification: every
map key (at any nesting depth) is a String. -/
def strKeys : Value → Bool
  | .list vs => strKeysL vs
  | .map es => strKeysEs es
  | .node _ _ props => strKeysPs props
  | .relationship _ _ _ _ props => strKeysPs props
  | .unboundRelationship _ _ props => strKeysPs props
  | .path ns rs _ => strKeysNs ns && strKeysRs rs
  | _ => true
termination_by structural x => x

def strKeysL : List Value → Bool
  | [] => true
  | v :: t => strKeys v && strKeysL t
termination_by structural x => x

def strKeysEs : List (Value × Value) → Bool
  | [] => true
  | (.string _, v) :: t => strKeys v && strKeysEs t
  | _ => false
termination_by structural x => x

def strKeysPs : List (List Nat × Value) → Bool
  | [] => true
  | (_, v) :: t => strKeys v && strKeysPs t
termination_by structural x => x

def strKeysNs : List (Int × List (List Nat) × List (List Nat × Value)) → Bool
  | [] => true
  | (_, _, props) :: t => strKeysPs props && strKeysNs t
termination_by structural x => x

def strKeysRs : List (Int × List Nat × List (List Nat × Value)) → Bool
  | [] => true
  | (_, _, props) :: t => strKeysPs props && strKeysRs t
termination_by structural x => x

end

mutual

/-- No float anywhere in the value is a NaN. -/
def nanFree : Value → Bool
  | .float bits => !(isNaNBits bits)
  | .list vs => nanFreeL vs
  | .map es => nanFreeEs es
  | .node _ _ props => nanFreePs props
  | .relationship _ _ _ _ props => nanFreePs props
  | .unboundRelationship _ _ props => nanFreePs props
  | .path ns rs _ => nanFreeNs ns && nanFreeRs rs
  | _ => true
termination_by structural x => x

def nanFreeL : List Value → Bool
  | [] => true
  | v :: t => nanFree v && nanFreeL t
termination_by structural x => x

def nanFreeEs : List (Value × Value) → Bool
  | [] => true
  | (k, v) :: t => nanFree k && nanFree v && nanFreeEs t
termination_by structural x => x

def nanFreePs : List (List Nat × Value) → Bool
  | [] => true
  | (_, v) :: t => nanFree v && nanFreePs t
termination_by structural x => x

def nanFreeNs : List (Int × List (List Nat) × List (List Nat × Value)) → Bool
  | [] => true
  | (_, _, props) :: t => nanFreePs props && nanFreeNs t
termination_by structural x => x

def nanFreeRs : List (Int × List Nat × List (List Nat × Value)) → Bool
  | [] => true
  | (_, _, props) :: t => nanFreePs props && nanFreeRs t
termination_by structural x => x

end

mutual

/-- Schema values (String map keys everywhere) have hashable keys. -/
def strKeys_keysOK : ∀ v, strKeys v = true → keysOK v = true
  | .boolean _, _ => rfl
  | .integer _, _ => rfl
  | .null, _ => rfl
  | .string _, _ => rfl
  | .date _, _ => rfl
  | .time _ _, _ => rfl
  | .float _, _ => rfl
  | .bytes _, _ => rfl
  | .list vs, h => strKeysL_keysOKL vs h
  | .map es, h => strKeysEs_keysOKEs es h
  | .node _ _ props, h => strKeysPs_keysOKPs props h
  | .relationship _ _ _ _ props, h => strKeysPs_keysOKPs props h
  | .unboundRelationship _ _ props, h => strKeysPs_keysOKPs props h
  | .path ns rs _, h => by
    have hs : strKeysNs ns = true ∧ strKeysRs rs = true := by
      have := h; simp [strKeys, Bool.and_eq_true] at this; exact this
    simp [keysOK, Bool.and_eq_true]
    exact ⟨strKeysNs_keysOKNs ns hs.1, strKeysRs_keysOKRs rs hs.2⟩
termination_by structural v => v

def strKeysL_keysOKL : ∀ vs, strKeysL vs = true → keysOKL vs = true
  | [], _ => rfl
  | v :: t, h => by
    have hs : strKeys v = true ∧ strKeysL t = true := by
      have := h; simp [strKeysL, Bool.and_eq_true] at this; exact this
    simp [keysOKL, Bool.and_eq_true]
    exact ⟨strKeys_keysOK v hs.1, strKeysL_keysOKL t hs.2⟩
termination_by structural vs => vs

def strKeysEs_keysOKEs : ∀ es, strKeysEs es = true → keysOKEs es = true
  | [], _ => rfl
  | (.string s, v) :: t, h => by
    have hs : strKeys v = true ∧ strKeysEs t = true := by
      have := h; simp [strKeysEs, Bool.and_eq_true] at this; exact this
    simp [keysOKEs, hashable, Bool.and_eq_true]
    exact ⟨strKeys_keysOK v hs.1, strKeysEs_keysOKEs t hs.2⟩
  | (.boolean _, _) :: _, h => nomatch h
  | (.integer _, _) :: _, h => nomatch h
  | (.float _, _) :: _, h => nomatch h
  | (.bytes _, _) :: _, h => nomatch h
  | (.list _, _) :: _, h => nomatch h
  | (.map _, _) :: _, h => nomatch h
  | (.null, _) :: _, h => nomatch h
  | (.node _ _ _, _) :: _, h => nomatch h
  | (.relationship _ _ _ _ _, _) :: _, h => nomatch h
  | (.path _ _ _, _) :: _, h => nomatch h
  | (.unboundRelationship _ _ _, _) :: _, h => nomatch h
  | (.date _, _) :: _, h => nomatch h
  | (.time _ _, _) :: _, h => nomatch h
termination_by structural es => es

def strKeysPs_keysOKPs : ∀ props, strKeysPs props = true → keysOKPs props = true
  | [], _ => rfl
  | (_, v) :: t, h => by
    have hs : strKeys v = true ∧ strKeysPs t = true := by
      have := h; simp [strKeysPs, Bool.and_eq_true] at this; exact this
    simp [keysOKPs, Bool.and_eq_true]
    exact ⟨strKeys_keysOK v hs.1, strKeysPs_keysOKPs t hs.2⟩
termination_by structural props => props

def strKeysNs_keysOKNs : ∀ ns, strKeysNs ns = true → keysOKNs ns = true
  | [], _ => rfl
  | (_, _, props) :: t, h => by
    have hs : strKeysPs props = true ∧ strKeysNs t = true := by
      have := h; simp [strKeysNs, Bool.and_eq_true] at this; exact this
    simp [keysOKNs, Bool.and_eq_true]
    exact ⟨strKeysPs_keysOKPs props hs.1, strKeysNs_keysOKNs t hs.2⟩
termination_by structural ns => ns

def strKeysRs_keysOKRs : ∀ rs, strKeysRs rs = true → keysOKRs rs = true
  | [], _ => rfl
  | (_, _, props) :: t, h => by
    have hs : strKeysPs props = true ∧ strKeysRs t = true := by
      have := h; simp [strKeysRs, Bool.and_eq_true] at this; exact this
    simp [keysOKRs, Bool.and_eq_true]
    exact ⟨strKeysPs_keysOKPs props hs.1, strKeysRs_keysOKRs t hs.2⟩
termination_by structural rs => rs

end

/-- The message schema (src/bolt-proto/src/message.rs, enum Message).
String fields are UTF-8 byte sequences; metadata, parameter and auth maps
are String-keyed maps in the source (HashMap from String), modelled as
association lists in encoding order. -/
inductive Message where
  | init (clientName : List Nat) (auth : List (List Nat × Value))
  | run (statement : List Nat) (params : List (List Nat × Value))
  | discardAll
  | pullAll
  | ackFailure
  | reset
  | record (fields : List Value)
  | success (metadata : List (List Nat × Value))
  | failure (metadata : List (List Nat × Value))
  | ignored
  | hello (metadata : List (List Nat × Value))
  | goodbye
  | runWithMetadata (statement : List Nat) (params : List (List Nat × Value))
      (metadata : List (List Nat × Value))
  | begin (metadata : List (List Nat × Value))
  | commit
  | rollback
  | discard (metadata : List (List Nat × Value))
  | pull (metadata : List (List Nat × Value))

/-- Modelled from the spec: the TryInto Bytes encoding of each message
variant (a tiny structure marker carrying the field count, the signature
byte of section 4.3, then the encoded fields). -/
def encodeMessage : Message → Option (List Nat)
  | .init name auth =>
    match encStr name, encPropsV auth with
    | some nb, some ab => some ([0xB2, 0x01] ++ nb ++ ab)
    | _, _ => none
  | .run stmt params =>
    match encStr stmt, encPropsV params with
    | some sb, some pb => some ([0xB2, 0x10] ++ sb ++ pb)
    | _, _ => none
  | .discardAll => some [0xB0, 0x2F]
  | .pullAll => some [0xB0, 0x3F]
  | .ackFailure => some [0xB0, 0x0E]
  | .reset => some [0xB0, 0x0F]
  | .record fields =>
    match encodeV (.list fields) with
    | some fb => some ([0xB1, 0x71] ++ fb)
    | none => none
  | .success md =>
    match encPropsV md with
    | some mb => some ([0xB1, 0x70] ++ mb)
    | none => none
  | .failure md =>
    match encPropsV md with
    | some mb => some ([0xB1, 0x7F] ++ mb)
    | none => none
  | .ignored => some [0xB0, 0x7E]
  | .hello md =>
    match encPropsV md with
    | some mb => some ([0xB1, 0x01] ++ mb)
    | none => none
  | .goodbye => some [0xB0, 0x02]
  | .runWithMetadata stmt params md =>
    match encStr stmt, encPropsV params, encPropsV md with
    | some sb, some pb, some mb => some ([0xB3, 0x10] ++ sb ++ pb ++ mb)
    | _, _, _ => none
  | .begin md =>
    match encPropsV md with
    | some mb => some ([0xB1, 0x11] ++ mb)
    | none => none
  | .commit => some [0xB0, 0x12]
  | .rollback => some [0xB0, 0x13]
  | .discard md =>
    match encPropsV md with
    | some mb => some ([0xB1, 0x2F] ++ mb)
    | none => none
  | .pull md =>
    match encPropsV md with
    | some mb => some ([0xB1, 0x3F] ++ mb)
    | none => none

/-- Modelled from the spec: get_info_from_bytes of the missing
serialization.rs reads the structure marker (with its size byte or bytes for
the 0xDC and 0xDD forms) and the signature byte, and rejects a non-structure
marker. -/
def getInfo (input : List Nat) : DRes (Nat × Nat × List Nat) :=
  match readByte input with
  | none => .error .panicked
  | some (marker, r) =>
    if 0xB0 ≤ marker ∧ marker ≤ 0xBF then
      match readByte r with
      | none => .error .panicked
      | some (sig, r') => .ok (marker, sig, r')
    else if marker = 0xDC then
      match readBE 1 r with
      | none => .error .panicked
      | some (_, r') =>
        match readByte r' with
        | none => .error .panicked
        | some (sig, r'') => .ok (marker, sig, r'')
    else if marker = 0xDD then
      match readBE 2 r with
      | none => .error .panicked
      | some (_, r') =>
        match readByte r' with
        | none => .error .panicked
        | some (sig, r'') => .ok (marker, sig, r'')
    else .error (.invalidMarker marker)

/-- One field read through Value::try_from on the shared buffer. -/
def decodeField (input : List Nat) : DRes (Value × List Nat) :=
  decodeV (input.length + 1) input

/-- A field expected to convert into a String. -/
def fieldString (input : List Nat) : DRes (List Nat × List Nat) :=
  match decodeField input with
  | .error e => .error e
  | .ok (.string s, r) => .ok (s, r)
  | .ok _ => .error .typeError

/-- A field expected to convert into a String-keyed HashMap. -/
def fieldMap (input : List Nat) : DRes (List (List Nat × Value) × List Nat) :=
  match decodeField input with
  | .error e => .error e
  | .ok (.map es, r) =>
    (match entriesToProps es with
    | some ps => .ok (ps, r)
    | none => .error .typeError)
  | .ok _ => .error .typeError

/-- A field expected to convert into a Vec of Values. -/
def fieldList (input : List Nat) : DRes (List Value × List Nat) :=
  match decodeField input with
  | .error e => .error e
  | .ok (.list vs, r) => .ok (vs, r)
  | .ok _ => .error .typeError

/-- Message decoding (src/bolt-proto/src/message.rs, impl TryFrom for
Message): read marker and signature, then dispatch on the signature in
source order.  For the four shared signatures the marker byte is compared
against the first variant's marker constant and anything else falls into the
second variant's parser; an unknown signature byte is
DeserializationError::InvalidSignatureByte. -/
def decodeMessage (input : List Nat) : DRes Message :=
  match getInfo input with
  | .error e => .error e
  | .ok (marker, sig, r) =>
    if sig = 0x01 then
      if marker = 0xB2 then
        match fieldString r with
        | .error e => .error e
        | .ok (name, r1) =>
          match fieldMap r1 with
          | .error e => .error e
          | .ok (auth, _) => .ok (.init name auth)
      else
        match fieldMap r with
        | .error e => .error e
        | .ok (md, _) => .ok (.hello md)
    else if sig = 0x10 then
      if marker = 0xB2 then
        match fieldString r with
        | .error e => .error e
        | .ok (stmt, r1) =>
          match fieldMap r1 with
          | .error e => .error e
          | .ok (params, _) => .ok (.run stmt params)
      else
        match fieldString r with
        | .error e => .error e
        | .ok (stmt, r1) =>
          match fieldMap r1 with
          | .error e => .error e
          | .ok (params, r2) =>
            match fieldMap r2 with
            | .error e => .error e
            | .ok (md, _) => .ok (.runWithMetadata stmt params md)
    else if sig = 0x2F then
      if marker = 0xB0 then .ok .discardAll
      else
        match fieldMap r with
        | .error e => .error e
        | .ok (md, _) => .ok (.discard md)
    else if sig = 0x3F then
      if marker = 0xB0 then .ok .pullAll
      else
        match fieldMap r with
        | .error e => .error e
        | .ok (md, _) => .ok (.pull md)
    else if sig = 0x0E then .ok .ackFailure
    else if sig = 0x0F then .ok .reset
    else if sig = 0x71 then
      match fieldList r with
      | .error e => .error e
      | .ok (fields, _) => .ok (.record fields)
    else if sig = 0x70 then
      match fieldMap r with
      | .error e => .error e
      | .ok (md, _) => .ok (.success md)
    else if sig = 0x7F then
      match fieldMap r with
      | .error e => .error e
      | .ok (md, _) => .ok (.failure md)
    else if sig = 0x7E then .ok .ignored
    else if sig = 0x02 then .ok .goodbye
    else if sig = 0x11 then
      match fieldMap r with
      | .error e => .error e
      | .ok (md, _) => .ok (.begin md)
    else if sig = 0x12 then .ok .commit
    else if sig = 0x13 then .ok .rollback
    else .error (.invalidSignature sig)

/-- Every map value inside the message decodes without a hash panic (true
of every message the source can build without panicking first). -/
def msgOK : Message → Bool
  | .init _ auth => keysOKPs auth
  | .run _ params => keysOKPs params
  | .record fields => keysOKL fields
  | .success md => keysOKPs md
  | .failure md => keysOKPs md
  | .hello md => keysOKPs md
  | .runWithMetadata _ params md => keysOKPs params && keysOKPs md
  | .begin md => keysOKPs md
  | .discard md => keysOKPs md
  | .pull md => keysOKPs md
  | _ => true

/-- The default maximum chunk size of the official driver minus the two
header bytes (src/bolt-proto/src/message.rs, const CHUNK_SIZE). -/
def CHUNK_SIZE : Nat := 16383 - 2

/-- Consecutive chunks of at most s bytes (the chunks iterator of the Rust
slice; an empty input yields no chunks).  The first argument bounds the
recursion; callers pass the input length. -/
def chunksOfAux (s : Nat) : Nat → List Nat → List (List Nat)
  | 0, _ => []
  | _, [] => []
  | b+1, x :: xs => (x :: xs).take s :: chunksOfAux s b ((x :: xs).drop s)

def chunksOf (s : Nat) (l : List Nat) : List (List Nat) :=
  chunksOfAux s l.length l

/-- Chunked framing of a message (impl TryInto of Vec Bytes for Message):
each chunk of the encoding is emitted as a big-endian u16 length followed by
the chunk bytes, and the terminator 00 00 ends the message. -/
def messageChunks (m : Message) : Option (List (List Nat)) :=
  match encodeMessage m with
  | none => none
  | some B =>
    some ((chunksOf CHUNK_SIZE B).map (fun c => beBytes 2 c.length ++ c) ++ [[0, 0]])

/-- The chunk-reassembly loop of Message::from_stream
(src/bolt-proto/src/message.rs): read a u16 chunk length; zero ends the
message; otherwise read exactly that many bytes, append them to the
accumulator and repeat.  A stream that ends mid-message is an I/O error
(none).  The first argument bounds the iteration count; every iteration
consumes at least three bytes of the stream, so the callers' bound of the
stream length plus one is never the limiting factor. -/
def readMessageBody : Nat → List Nat → List Nat → Option (List Nat × List Nat)
  | 0, _, _ => none
  | fuel+1, acc, stream =>
    match readBE 2 stream with
    | none => none
    | some (len, r) =>
      if len = 0 then some (acc, r)
      else
        match readN len r with
        | none => none
        | some (chunk, r') => readMessageBody fuel (acc ++ chunk) r'

/-- Message::from_stream: reassemble the chunked body, then decode it as a
message.  The outer Option is the I/O layer (none models a stream error
from read_u16 or read_exact). -/
def fromStream (stream : List Nat) : Option (DRes Message) :=
  match readMessageBody (stream.length + 1) [] stream with
  | none => none
  | some (body, _) => some (decodeMessage body)

/-- The four-byte handshake preamble written by Client::handshake
(src/rust-bolt/src/client.rs, const PREAMBLE). -/
def PREAMBLE : List Nat := [0x60, 0x60, 0xB0, 0x17]

/-- The four proposed versions, highest preference first
(src/rust-bolt/src/client.rs, const SUPPORTED_VERSIONS). -/
def SUPPORTED_VERSIONS : List Nat := [1, 0, 0, 0]

/-- The bytes the client writes during the handshake: the preamble followed
by the four versions as big-endian u32 values. -/
def handshakeWritten : List Nat :=
  PREAMBLE ++ (SUPPORTED_VERSIONS.map (beBytes 4)).flatten

/-- The client side of the handshake after the write: Client::handshake ends
with Ok(self.stream.read_u32().await?), returning the four reply bytes read
big-endian as the result, with no inspection of the value.  none models an
I/O error on the reply read. -/
def handshake (reply : List Nat) : Option Nat :=
  match readBE 4 reply with
  | none => none
  | some (v, _) => some v

/-- Structure-valued results of the value decoder. -/
def structValue : Value → Bool
  | .node _ _ _ => true
  | .relationship _ _ _ _ _ => true
  | .path _ _ _ => true
  | .unboundRelationship _ _ _ => true
  | .date _ => true
  | .time _ _ => true
  | _ => false

theorem beBytes_length (w n : Nat) : (beBytes w n).length = w := by
  induction w generalizing n with
  | zero => rfl
  | succ w ih => simp [beBytes, ih]

theorem beVal_aux (w n a : Nat) :
    List.foldl (fun x b => x * 256 + b) a (beBytes w n) = a * 256 ^ w + n % 256 ^ w := by
  induction w generalizing n a with
  | zero => simp [beBytes, Nat.mod_one]
  | succ w ih =>
    have hkey : n % 256 ^ (w + 1) = n % 256 + 256 * (n / 256 % 256 ^ w) := by
      have : (256 : Nat) ^ (w + 1) = 256 * 256 ^ w := by ring
      rw [this, Nat.mod_mul]
    simp only [beBytes, List.foldl_append, List.foldl_cons, List.foldl_nil, ih]
    rw [hkey]; ring

theorem beVal_beBytes (w n : Nat) : beVal (beBytes w n) = n % 256 ^ w := by
  simpa using beVal_aux w n 0

theorem readN_append (k : Nat) (l r : List Nat) (h : l.length = k) :
    readN k (l ++ r) = some (l, r) := by
  subst h
  simp [readN, List.take_append_eq_append_take, List.drop_append_eq_append_drop]

theorem readN_short (k : Nat) (l : List Nat) (h : l.length < k) : readN k l = none := by
  simp [readN]; omega

theorem readBE_append (w n : Nat) (r : List Nat) :
    readBE w (beBytes w n ++ r) = some (n % 256 ^ w, r) := by
  rw [readBE, readN_append w _ _ (beBytes_length w n)]
  simp [beVal_beBytes]

theorem readBE_short (w : Nat) (l : List Nat) (h : l.length < w) : readBE w l = none := by
  rw [readBE, readN_short w l h]

theorem readBE_one (x : Nat) (r : List Nat) : readBE 1 (x :: r) = some (x, r) := by
  simp [readBE, readN, beVal]

theorem toU_lt (w : Nat) (n : Int) : toU w n < 2 ^ (8 * w) := by
  have hpos : (0 : Int) < 2 ^ (8 * w) := by positivity
  have h1 : 0 ≤ n % 2 ^ (8 * w) := Int.emod_nonneg n (by omega)
  have h2 : n % 2 ^ (8 * w) < 2 ^ (8 * w) := Int.emod_lt_of_pos n hpos
  have hcast : ((2 ^ (8 * w) : Nat) : Int) = 2 ^ (8 * w) := by push_cast; rfl
  unfold toU; omega

theorem fromSigned_toU (w : Nat) (n : Int) (hw : 1 ≤ w)
    (h1 : -(2 ^ (8 * w - 1)) ≤ n) (h2 : n < 2 ^ (8 * w - 1)) :
    fromSigned w (toU w n) = n := by
  have hsplit : (2 : Int) ^ (8 * w) = 2 ^ (8 * w - 1) * 2 := by
    have h8 : 8 * w - 1 + 1 = 8 * w := by omega
    conv_lhs => rw [← h8]
    rw [pow_succ]
  have hcast : ((2 ^ (8 * w) : Nat) : Int) = 2 ^ (8 * w) := by push_cast; rfl
  have hcast2 : ((2 ^ (8 * w - 1) : Nat) : Int) = 2 ^ (8 * w - 1) := by push_cast; rfl
  rcases le_or_lt 0 n with hn | hn
  · have hmod : n % 2 ^ (8 * w) = n := Int.emod_eq_of_lt hn (by omega)
    have htu : toU w n = n.toNat := by rw [toU, hmod]
    rw [fromSigned, htu]
    have : n.toNat < 2 ^ (8 * w - 1) := by omega
    rw [if_pos this]; omega
  · have hmod : n % 2 ^ (8 * w) = n + 2 ^ (8 * w) := by
      have hrw : (n + 2 ^ (8 * w)) % 2 ^ (8 * w) = n % 2 ^ (8 * w) := by
        simp
      have : (n + 2 ^ (8 * w)) % 2 ^ (8 * w) = n + 2 ^ (8 * w) :=
        Int.emod_eq_of_lt (by omega) (by omega)
      omega
    have htu : toU w n = (n + 2 ^ (8 * w)).toNat := by rw [toU, hmod]
    rw [fromSigned, htu]
    have : ¬ (n + 2 ^ (8 * w)).toNat < 2 ^ (8 * w - 1) := by omega
    rw [if_neg this]; omega

theorem decodeV_succ (f : Nat) (input : List Nat) :
    decodeV (f+1) input = decodeVStep (decodeV f) input := rfl

theorem encInt_pos (n : Int) (bs : List Nat) (h : encInt n = some bs) : 1 ≤ bs.length := by
  unfold encInt at h
  split_ifs at h <;> simp_all [beBytes_length] <;> (subst h; simp [beBytes_length])

theorem strHeader_pos (n : Nat) (h : List Nat) (hh : strHeader n = some h) : 1 ≤ h.length := by
  unfold strHeader at hh
  split_ifs at hh <;> simp_all [beBytes_length] <;> (subst hh; simp [beBytes_length])

theorem listHeader_pos (n : Nat) (h : List Nat) (hh : listHeader n = some h) :
    1 ≤ h.length := by
  unfold listHeader at hh
  split_ifs at hh <;> simp_all [beBytes_length] <;> (subst hh; simp [beBytes_length])

theorem mapHeader_pos (n : Nat) (h : List Nat) (hh : mapHeader n = some h) :
    1 ≤ h.length := by
  unfold mapHeader at hh
  split_ifs at hh <;> simp_all [beBytes_length] <;> (subst hh; simp [beBytes_length])

theorem encStr_pos (s : List Nat) (bs : List Nat) (h : encStr s = some bs) :
    1 ≤ bs.length := by
  unfold encStr at h
  cases hh : strHeader s.length with
  | none => rw [hh] at h; cases h
  | some hd =>
    rw [hh] at h
    injection h with h
    subst h
    have := strHeader_pos _ _ hh
    simp [List.length_append]; omega

theorem encodeV_pos (v : Value) (bs : List Nat) (h : encodeV v = some bs) :
    1 ≤ bs.length := by
  cases v with
  | boolean b =>
    cases b <;> (simp only [encodeV, Option.some.injEq] at h; subst h; simp)
  | null => simp only [encodeV, Option.some.injEq] at h; subst h; simp
  | integer n => simp only [encodeV] at h; exact encInt_pos n bs h
  | float bits =>
    simp only [encodeV, encFloatV] at h
    split_ifs at h <;> (injection h with h; subst h; simp)
  | bytes l =>
    simp only [encodeV, encBytesV] at h
    split_ifs at h <;> (injection h with h; subst h; simp)
  | string s => simp only [encodeV] at h; exact encStr_pos s bs h
  | list vs =>
    simp only [encodeV] at h
    split at h
    next hh _ =>
      injection h with h; subst h
      have := listHeader_pos _ _ hh
      simp [List.length_append]; omega
    next => cases h
  | map es =>
    simp only [encodeV] at h
    split at h
    next hh _ =>
      injection h with h; subst h
      have := mapHeader_pos _ _ hh
      simp [List.length_append]; omega
    next => cases h
  | node id labels props =>
    simp only [encodeV] at h
    split at h
    next => injection h with h; subst h; simp
    next => cases h
  | relationship a b c d e =>
    simp only [encodeV] at h
    split at h
    next => injection h with h; subst h; simp
    next => cases h
  | unboundRelationship a b c =>
    simp only [encodeV] at h
    split at h
    next => injection h with h; subst h; simp
    next => cases h
  | path ns rs seq =>
    simp only [encodeV] at h
    split at h
    next => injection h with h; subst h; simp
    next => cases h
  | date days =>
    simp only [encodeV] at h
    split at h
    next => injection h with h; subst h; simp
    next => cases h
  | time nanos offs =>
    simp only [encodeV] at h
    split at h
    next => injection h with h; subst h; simp
    next => cases h

theorem decodeVStep_null (dec : List Nat → DRes (Value × List Nat)) (r : List Nat) :
    decodeVStep dec (0xC0 :: r) = .ok (.null, r) := rfl

theorem decodeVStep_false (dec : List Nat → DRes (Value × List Nat)) (r : List Nat) :
    decodeVStep dec (0xC2 :: r) = .ok (.boolean false, r) := rfl

theorem decodeVStep_true (dec : List Nat → DRes (Value × List Nat)) (r : List Nat) :
    decodeVStep dec (0xC3 :: r) = .ok (.boolean true, r) := rfl

theorem decodeVStep_nil (dec : List Nat → DRes (Value × List Nat)) :
    decodeVStep dec [] = .error .panicked := rfl

theorem decodeVStep_tinyInt (dec : List Nat → DRes (Value × List Nat)) (b : Nat)
    (hb : b ≤ 0x7F ∨ (0xF0 ≤ b ∧ b ≤ 0xFF)) (r : List Nat) :
    decodeVStep dec (b :: r) = .ok (.integer (fromSigned 1 b), r) := by
  simp only [decodeVStep, readByte]
  rw [if_neg (by omega), if_neg (by omega), if_neg (by omega), if_pos hb]

theorem decodeVStep_c8 (dec : List Nat → DRes (Value × List Nat)) (r : List Nat) :
    decodeVStep dec (0xC8 :: r) =
      (match readBE 1 r with
      | none => .error .panicked
      | some (m, r') => .ok (.integer (fromSigned 1 m), r')) := rfl

theorem decodeVStep_c9 (dec : List Nat → DRes (Value × List Nat)) (r : List Nat) :
    decodeVStep dec (0xC9 :: r) =
      (match readBE 2 r with
      | none => .error .panicked
      | some (m, r') => .ok (.integer (fromSigned 2 m), r')) := rfl

theorem decodeVStep_ca (dec : List Nat → DRes (Value × List Nat)) (r : List Nat) :
    decodeVStep dec (0xCA :: r) =
      (match readBE 4 r with
      | none => .error .panicked
      | some (m, r') => .ok (.integer (fromSigned 4 m), r')) := rfl

theorem decodeVStep_cb (dec : List Nat → DRes (Value × List Nat)) (r : List Nat) :
    decodeVStep dec (0xCB :: r) =
      (match readBE 8 r with
      | none => .error .panicked
      | some (m, r') => .ok (.integer (fromSigned 8 m), r')) := rfl

theorem decodeVStep_c1 (dec : List Nat → DRes (Value × List Nat)) (r : List Nat) :
    decodeVStep dec (0xC1 :: r) =
      (match readBE 8 r with
      | none => .error .panicked
      | some (m, r') => .ok (.float m, r')) := rfl

theorem decodeVStep_cc (dec : List Nat → DRes (Value × List Nat)) (r : List Nat) :
    decodeVStep dec (0xCC :: r) =
      (match readBE 1 r with
      | none => .error .panicked
      | some (len, r') =>
        match readN len r' with
        | none => .error .panicked
        | some (bs, r'') => .ok (.bytes bs, r'')) := rfl

theorem decodeVStep_cd (dec : List Nat → DRes (Value × List Nat)) (r : List Nat) :
    decodeVStep dec (0xCD :: r) =
      (match readBE 2 r with
      | none => .error .panicked
      | some (len, r') =>
        match readN len r' with
        | none => .error .panicked
        | some (bs, r'') => .ok (.bytes bs, r'')) := rfl

theorem decodeVStep_ce (dec : List Nat → DRes (Value × List Nat)) (r : List Nat) :
    decodeVStep dec (0xCE :: r) =
      (match readBE 4 r with
      | none => .error .panicked
      | some (len, r') =>
        match readN len r' with
        | none => .error .panicked
        | some (bs, r'') => .ok (.bytes bs, r'')) := rfl

theorem decodeVStep_tinyStr (dec : List Nat → DRes (Value × List Nat)) (L : Nat)
    (hL : L ≤ 15) (r : List Nat) :
    decodeVStep dec ((0x80 + L) :: r) =
      (match readN L r with
      | none => .error .panicked
      | some (s, r') => .ok (.string s, r')) := by
  simp only [decodeVStep, readByte]
  repeat rw [if_neg (by omega)]
  rw [if_pos (by omega : 0x80 ≤ 0x80 + L ∧ 0x80 + L ≤ 0x8F)]
  have hsub : 0x80 + L - 0x80 = L := by omega
  rw [hsub]

theorem decodeVStep_d0 (dec : List Nat → DRes (Value × List Nat)) (r : List Nat) :
    decodeVStep dec (0xD0 :: r) =
      (match readBE 1 r with
      | none => .error .panicked
      | some (len, r') =>
        match readN len r' with
        | none => .error .panicked
        | some (s, r'') => .ok (.string s, r'')) := rfl

theorem decodeVStep_d1 (dec : List Nat → DRes (Value × List Nat)) (r : List Nat) :
    decodeVStep dec (0xD1 :: r) =
      (match readBE 2 r with
      | none => .error .panicked
      | some (len, r') =>
        match readN len r' with
        | none => .error .panicked
        | some (s, r'') => .ok (.string s, r'')) := rfl

theorem decodeVStep_d2 (dec : List Nat → DRes (Value × List Nat)) (r : List Nat) :
    decodeVStep dec (0xD2 :: r) =
      (match readBE 4 r with
      | none => .error .panicked
      | some (len, r') =>
        match readN len r' with
        | none => .error .panicked
        | some (s, r'') => .ok (.string s, r'')) := rfl

theorem decodeVStep_tinyList (dec : List Nat → DRes (Value × List Nat)) (L : Nat)
    (hL : L ≤ 15) (r : List Nat) :
    decodeVStep dec ((0x90 + L) :: r) =
      (match decSeq dec L r with
      | .error e => .error e
      | .ok (vs, r') => .ok (.list vs, r')) := by
  simp only [decodeVStep, readByte]
  repeat rw [if_neg (by omega)]
  rw [if_pos (by omega : 0x90 ≤ 0x90 + L ∧ 0x90 + L ≤ 0x9F)]
  have hsub : 0x90 + L - 0x90 = L := by omega
  rw [hsub]

theorem decodeVStep_d4 (dec : List Nat → DRes (Value × List Nat)) (r : List Nat) :
    decodeVStep dec (0xD4 :: r) =
      (match readBE 1 r with
      | none => .error .panicked
      | some (n, r') =>
        match decSeq dec n r' with
        | .error e => .error e
        | .ok (vs, r'') => .ok (.list vs, r'')) := rfl

theorem decodeVStep_d5 (dec : List Nat → DRes (Value × List Nat)) (r : List Nat) :
    decodeVStep dec (0xD5 :: r) =
      (match readBE 2 r with
      | none => .error .panicked
      | some (n, r') =>
        match decSeq dec n r' with
        | .error e => .error e
        | .ok (vs, r'') => .ok (.list vs, r'')) := rfl

theorem decodeVStep_d6 (dec : List Nat → DRes (Value × List Nat)) (r : List Nat) :
    decodeVStep dec (0xD6 :: r) =
      (match readBE 4 r with
      | none => .error .panicked
      | some (n, r') =>
        match decSeq dec n r' with
        | .error e => .error e
        | .ok (vs, r'') => .ok (.list vs, r'')) := rfl

theorem decodeVStep_tinyMap (dec : List Nat → DRes (Value × List Nat)) (L : Nat)
    (hL : L ≤ 15) (r : List Nat) :
    decodeVStep dec ((0xA0 + L) :: r) =
      (match decEntries dec L r with
      | .error e => .error e
      | .ok (es, r') => .ok (.map es, r')) := by
  simp only [decodeVStep, readByte]
  repeat rw [if_neg (by omega)]
  rw [if_pos (by omega : 0xA0 ≤ 0xA0 + L ∧ 0xA0 + L ≤ 0xAF)]
  have hsub : 0xA0 + L - 0xA0 = L := by omega
  rw [hsub]

theorem decodeVStep_d8 (dec : List Nat → DRes (Value × List Nat)) (r : List Nat) :
    decodeVStep dec (0xD8 :: r) =
      (match readBE 1 r with
      | none => .error .panicked
      | some (n, r') =>
        match decEntries dec n r' with
        | .error e => .error e
        | .ok (es, r'') => .ok (.map es, r'')) := rfl

theorem decodeVStep_d9 (dec : List Nat → DRes (Value × List Nat)) (r : List Nat) :
    decodeVStep dec (0xD9 :: r) =
      (match readBE 2 r with
      | none => .error .panicked
      | some (n, r') =>
        match decEntries dec n r' with
        | .error e => .error e
        | .ok (es, r'') => .ok (.map es, r'')) := rfl

theorem decodeVStep_da (dec : List Nat → DRes (Value × List Nat)) (r : List Nat) :
    decodeVStep dec (0xDA :: r) =
      (match readBE 4 r with
      | none => .error .panicked
      | some (n, r') =>
        match decEntries dec n r' with
        | .error e => .error e
        | .ok (es, r'') => .ok (.map es, r'')) := rfl

theorem decodeVStep_tinyStruct (dec : List Nat → DRes (Value × List Nat)) (m : Nat)
    (hm : 0xB0 ≤ m ∧ m ≤ 0xBF) (r : List Nat) :
    decodeVStep dec (m :: r) =
      (match readByte r with
      | none => .error .panicked
      | some (sig, r') => decodeStructBody dec sig r') := by
  simp only [decodeVStep, readByte]
  repeat rw [if_neg (by omega)]
  rw [if_pos hm]

theorem toU1_eq (n : Int) : toU 1 n = (n % 256).toNat := by norm_num [toU]

theorem toU2_eq (n : Int) : toU 2 n = (n % 65536).toNat := by norm_num [toU]

theorem toU4_eq (n : Int) : toU 4 n = (n % 4294967296).toNat := by norm_num [toU]

theorem toU8_eq (n : Int) : toU 8 n = (n % 18446744073709551616).toNat := by
  norm_num [toU]

theorem fromSigned_toU1 (n : Int) (ha : -128 ≤ n) (hb : n < 128) :
    fromSigned 1 (toU 1 n) = n :=
  fromSigned_toU 1 n (by norm_num) (by norm_num; omega) (by norm_num; omega)

theorem fromSigned_toU2 (n : Int) (ha : -32768 ≤ n) (hb : n < 32768) :
    fromSigned 2 (toU 2 n) = n :=
  fromSigned_toU 2 n (by norm_num) (by norm_num; omega) (by norm_num; omega)

theorem fromSigned_toU4 (n : Int) (ha : -2147483648 ≤ n) (hb : n < 2147483648) :
    fromSigned 4 (toU 4 n) = n :=
  fromSigned_toU 4 n (by norm_num) (by norm_num; omega) (by norm_num; omega)

theorem fromSigned_toU8 (n : Int) (ha : -9223372036854775808 ≤ n)
    (hb : n < 9223372036854775808) : fromSigned 8 (toU 8 n) = n :=
  fromSigned_toU 8 n (by norm_num) (by norm_num; omega) (by norm_num; omega)

/-- Round trip of the integer forms: any byte sequence produced by the
integer encoder decodes back to the same integer, at any decoder level. -/
theorem encInt_rt (n : Int) (i : List Nat) (h : encInt n = some i)
    (dec : List Nat → DRes (Value × List Nat)) (rest : List Nat) :
    decodeVStep dec (i ++ rest) = .ok (.integer n, rest) := by
  unfold encInt at h
  split_ifs at h with h1 h2 h3 h4 h5
  · injection h with h; subst h
    show decodeVStep dec (toU 1 n :: rest) = _
    rw [decodeVStep_tinyInt dec _ (by rw [toU1_eq]; omega),
      fromSigned_toU1 n (by omega) (by omega)]
  · injection h with h; subst h
    show decodeVStep dec (0xC8 :: (toU 1 n :: rest)) = _
    rw [decodeVStep_c8]
    simp only [readBE_one]
    rw [fromSigned_toU1 n (by omega) (by omega)]
  · injection h with h; subst h
    show decodeVStep dec (0xC9 :: (beBytes 2 (toU 2 n) ++ rest)) = _
    rw [decodeVStep_c9]
    simp only [readBE_append]
    have hlt : toU 2 n < 256 ^ 2 := by
      have := toU_lt 2 n; norm_num at this ⊢; omega
    rw [Nat.mod_eq_of_lt hlt, fromSigned_toU2 n (by omega) (by omega)]
  · injection h with h; subst h
    show decodeVStep dec (0xCA :: (beBytes 4 (toU 4 n) ++ rest)) = _
    rw [decodeVStep_ca]
    simp only [readBE_append]
    have hlt : toU 4 n < 256 ^ 4 := by
      have := toU_lt 4 n; norm_num at this ⊢; omega
    rw [Nat.mod_eq_of_lt hlt, fromSigned_toU4 n (by omega) (by omega)]
  · injection h with h; subst h
    show decodeVStep dec (0xCB :: (beBytes 8 (toU 8 n) ++ rest)) = _
    rw [decodeVStep_cb]
    simp only [readBE_append]
    have hlt : toU 8 n < 256 ^ 8 := by
      have := toU_lt 8 n; norm_num at this ⊢; omega
    rw [Nat.mod_eq_of_lt hlt, fromSigned_toU8 n (by omega) (by omega)]

/-- Round trip of the string forms at any decoder level. -/
theorem encStr_rt (s bs : List Nat) (h : encStr s = some bs)
    (dec : List Nat → DRes (Value × List Nat)) (rest : List Nat) :
    decodeVStep dec (bs ++ rest) = .ok (.string s, rest) := by
  unfold encStr at h
  cases hh : strHeader s.length with
  | none => rw [hh] at h; cases h
  | some hd =>
    rw [hh] at h
    injection h with h
    subst h
    unfold strHeader at hh
    split_ifs at hh with h1 h2 h3 h4
    · injection hh with hh; subst hh
      show decodeVStep dec ((0x80 + s.length) :: (s ++ rest)) = _
      rw [decodeVStep_tinyStr dec s.length h1]
      simp only [readN_append s.length s rest rfl]
    · injection hh with hh; subst hh
      show decodeVStep dec (0xD0 :: (s.length :: (s ++ rest))) = _
      rw [decodeVStep_d0]
      simp only [readBE_one, readN_append s.length s rest rfl]
    · injection hh with hh; subst hh
      show decodeVStep dec (0xD1 :: (beBytes 2 s.length ++ (s ++ rest))) = _
      rw [decodeVStep_d1]
      simp only [readBE_append]
      have hlt : s.length % 256 ^ 2 = s.length := Nat.mod_eq_of_lt (by norm_num; omega)
      simp only [hlt, readN_append s.length s rest rfl]
    · injection hh with hh; subst hh
      show decodeVStep dec (0xD2 :: (beBytes 4 s.length ++ (s ++ rest))) = _
      rw [decodeVStep_d2]
      simp only [readBE_append]
      have hlt : s.length % 256 ^ 4 = s.length := Nat.mod_eq_of_lt (by norm_num; omega)
      simp only [hlt, readN_append s.length s rest rfl]

/-- Round trip of the byte-array forms at any decoder level. -/
theorem encBytes_rt (l bs : List Nat) (h : encBytesV l = some bs)
    (dec : List Nat → DRes (Value × List Nat)) (rest : List Nat) :
    decodeVStep dec (bs ++ rest) = .ok (.bytes l, rest) := by
  unfold encBytesV at h
  split_ifs at h with h1 h2 h3
  · injection h with h; subst h
    show decodeVStep dec (0xCC :: (l.length :: (l ++ rest))) = _
    rw [decodeVStep_cc]
    simp only [readBE_one, readN_append l.length l rest rfl]
  · injection h with h; subst h
    show decodeVStep dec (0xCD :: (beBytes 2 l.length ++ (l ++ rest))) = _
    rw [decodeVStep_cd]
    simp only [readBE_append]
    have hlt : l.length % 256 ^ 2 = l.length := Nat.mod_eq_of_lt (by norm_num; omega)
    simp only [hlt, readN_append l.length l rest rfl]
  · injection h with h; subst h
    show decodeVStep dec (0xCE :: (beBytes 4 l.length ++ (l ++ rest))) = _
    rw [decodeVStep_ce]
    simp only [readBE_append]
    have hlt : l.length % 256 ^ 4 = l.length := Nat.mod_eq_of_lt (by norm_num; omega)
    simp only [hlt, readN_append l.length l rest rfl]

/-- Round trip of the float form at any decoder level. -/
theorem encFloat_rt (bits : Nat) (bs : List Nat) (h : encFloatV bits = some bs)
    (dec : List Nat → DRes (Value × List Nat)) (rest : List Nat) :
    decodeVStep dec (bs ++ rest) = .ok (.float bits, rest) := by
  unfold encFloatV at h
  split_ifs at h with h1
  injection h with h; subst h
  show decodeVStep dec (0xC1 :: (beBytes 8 bits ++ rest)) = _
  rw [decodeVStep_c1]
  simp only [readBE_append]
  have hlt : bits % 256 ^ 8 = bits := Nat.mod_eq_of_lt (by norm_num; omega)
  simp only [hlt]

theorem encProps_bridge (props : List (List Nat × Value)) :
    encodeEs (props.map (fun p => (Value.string p.1, p.2))) = encProps props := by
  induction props with
  | nil => rfl
  | cons e t ih =>
    obtain ⟨k, v⟩ := e
    simp only [List.map_cons, encodeEs, encProps, encodeV, ih]

theorem keysOKEs_mapped (props : List (List Nat × Value)) :
    keysOKEs (props.map (fun p => (Value.string p.1, p.2))) = keysOKPs props := by
  induction props with
  | nil => rfl
  | cons e t ih =>
    obtain ⟨k, v⟩ := e
    simp only [List.map_cons, keysOKEs, keysOKPs, hashable, ih, Bool.true_and]

theorem entriesToProps_mapped (props : List (List Nat × Value)) :
    entriesToProps (props.map (fun p => (Value.string p.1, p.2))) = some props := by
  induction props with
  | nil => rfl
  | cons e t ih =>
    obtain ⟨k, v⟩ := e
    simp only [List.map_cons, entriesToProps, ih]
    rfl

theorem encPropsV_bridge (props : List (List Nat × Value)) :
    encodeV (.map (props.map (fun p => (Value.string p.1, p.2)))) = encPropsV props := by
  simp only [encodeV, encPropsV, List.length_map, encProps_bridge]

theorem encStrs_bridge (labels : List (List Nat)) :
    encodeVL (labels.map Value.string) = encStrs labels := by
  induction labels with
  | nil => rfl
  | cons s t ih => simp only [List.map_cons, encodeVL, encStrs, encodeV, ih]

theorem keysOKL_strings (labels : List (List Nat)) :
    keysOKL (labels.map Value.string) = true := by
  induction labels with
  | nil => rfl
  | cons s t ih => simp only [List.map_cons, keysOKL, keysOK, ih, Bool.and_self]

theorem valsToStrs_mapped (labels : List (List Nat)) :
    valsToStrs (labels.map Value.string) = some labels := by
  induction labels with
  | nil => rfl
  | cons s t ih =>
    simp only [List.map_cons, valsToStrs, ih]
    rfl

theorem encStrListV_bridge (labels : List (List Nat)) :
    encodeV (.list (labels.map Value.string)) = encStrListV labels := by
  simp only [encodeV, encStrListV, List.length_map, encStrs_bridge]

theorem encInts_bridge (seq : List Int) :
    encodeVL (seq.map Value.integer) = encInts seq := by
  induction seq with
  | nil => rfl
  | cons n t ih => simp only [List.map_cons, encodeVL, encInts, encodeV, ih]

theorem keysOKL_ints (seq : List Int) : keysOKL (seq.map Value.integer) = true := by
  induction seq with
  | nil => rfl
  | cons n t ih => simp only [List.map_cons, keysOKL, keysOK, ih, Bool.and_self]

theorem valsToInts_mapped (seq : List Int) :
    valsToInts (seq.map Value.integer) = some seq := by
  induction seq with
  | nil => rfl
  | cons n t ih =>
    simp only [List.map_cons, valsToInts, ih]
    rfl

theorem encIntListV_bridge (seq : List Int) :
    encodeV (.list (seq.map Value.integer)) = encIntListV seq := by
  simp only [encodeV, encIntListV, List.length_map, encInts_bridge]

theorem encNodes_bridge (ns : List (Int × List (List Nat) × List (List Nat × Value))) :
    encodeVL (ns.map nodeify) = encNodes ns := by
  induction ns with
  | nil => rfl
  | cons e t ih =>
    obtain ⟨id, labels, props⟩ := e
    simp only [List.map_cons, encodeVL, encNodes, encodeV, nodeify, ih]
    cases encInt id <;> cases encStrListV labels <;> cases mapHeader props.length <;>
      cases encProps props <;> cases encNodes t <;> rfl

theorem keysOKL_nodes (ns : List (Int × List (List Nat) × List (List Nat × Value))) :
    keysOKL (ns.map nodeify) = keysOKNs ns := by
  induction ns with
  | nil => rfl
  | cons e t ih =>
    obtain ⟨id, labels, props⟩ := e
    simp only [List.map_cons, keysOKL, keysOKNs, keysOK, nodeify, ih]

theorem valsToNodes_mapped (ns : List (Int × List (List Nat) × List (List Nat × Value))) :
    valsToNodes (ns.map nodeify) = some ns := by
  induction ns with
  | nil => rfl
  | cons e t ih =>
    obtain ⟨id, labels, props⟩ := e
    simp only [List.map_cons, valsToNodes, nodeify, ih]
    rfl

theorem encNodeListV_bridge (ns : List (Int × List (List Nat) × List (List Nat × Value))) :
    encodeV (.list (ns.map nodeify)) = encNodeListV ns := by
  simp only [encodeV, encNodeListV, List.length_map, encNodes_bridge]

theorem encURels_bridge (rs : List (Int × List Nat × List (List Nat × Value))) :
    encodeVL (rs.map urelify) = encURels rs := by
  induction rs with
  | nil => rfl
  | cons e t ih =>
    obtain ⟨id, ty, props⟩ := e
    simp only [List.map_cons, encodeVL, encURels, encodeV, urelify, ih]
    cases encInt id <;> cases encStr ty <;> cases mapHeader props.length <;>
      cases encProps props <;> cases encURels t <;> rfl

theorem keysOKL_urels (rs : List (Int × List Nat × List (List Nat × Value))) :
    keysOKL (rs.map urelify) = keysOKRs rs := by
  induction rs with
  | nil => rfl
  | cons e t ih =>
    obtain ⟨id, ty, props⟩ := e
    simp only [List.map_cons, keysOKL, keysOKRs, keysOK, urelify, ih]

theorem valsToURels_mapped (rs : List (Int × List Nat × List (List Nat × Value))) :
    valsToURels (rs.map urelify) = some rs := by
  induction rs with
  | nil => rfl
  | cons e t ih =>
    obtain ⟨id, ty, props⟩ := e
    simp only [List.map_cons, valsToURels, urelify, ih]
    rfl

theorem encURelListV_bridge (rs : List (Int × List Nat × List (List Nat × Value))) :
    encodeV (.list (rs.map urelify)) = encURelListV rs := by
  simp only [encodeV, encURelListV, List.length_map, encURels_bridge]

/-- Round trip of a sequence of encoded values through the element loop,
assuming the single-value round trip at fuel f. -/
theorem decSeq_rt (f : Nat)
    (hIH : ∀ v bs rest, encodeV v = some bs → bs.length < f →
      decodeV f (bs ++ rest) = (if keysOK v then .ok (v, rest) else .error .panicked)) :
    ∀ vs parts rest, encodeVL vs = some parts → parts.length < f →
      decSeq (decodeV f) vs.length (parts ++ rest) =
        (if keysOKL vs then .ok (vs, rest) else .error .panicked) := by
  intro vs
  induction vs with
  | nil =>
    intro parts rest he _
    simp only [encodeVL, Option.some.injEq] at he
    subst he
    simp [decSeq, keysOKL]
  | cons v t ih =>
    intro parts rest he hlen
    simp only [encodeVL] at he
    cases h1 : encodeV v with
    | none => rw [h1] at he; cases he
    | some b =>
      cases h2 : encodeVL t with
      | none => rw [h1, h2] at he; cases he
      | some bt =>
        rw [h1, h2] at he
        injection he with he
        subst he
        have hlb : b.length < f ∧ bt.length < f := by
          rw [List.length_append] at hlen
          omega
        show decSeq (decodeV f) (t.length + 1) ((b ++ bt) ++ rest) = _
        cases hk : keysOK v <;> cases hkt : keysOKL t <;>
          simp [decSeq, keysOKL, hk, hkt, List.append_assoc,
            hIH v b (bt ++ rest) h1 hlb.1, ih bt rest h2 hlb.2]

/-- Round trip of a sequence of encoded map entries through the entry loop,
assuming the single-value round trip at fuel f.  An entry whose key is not
hashable panics at the HashMap insert; a key or an entry value that contains
an unhashable map key deeper inside panics while being decoded. -/
theorem decEntries_rt (f : Nat)
    (hIH : ∀ v bs rest, encodeV v = some bs → bs.length < f →
      decodeV f (bs ++ rest) = (if keysOK v then .ok (v, rest) else .error .panicked)) :
    ∀ es parts rest, encodeEs es = some parts → parts.length < f →
      decEntries (decodeV f) es.length (parts ++ rest) =
        (if keysOKEs es then .ok (es, rest) else .error .panicked) := by
  intro es
  induction es with
  | nil =>
    intro parts rest he _
    simp only [encodeEs, Option.some.injEq] at he
    subst he
    simp [decEntries, keysOKEs]
  | cons e t ih =>
    obtain ⟨k, v⟩ := e
    intro parts rest he hlen
    simp only [encodeEs] at he
    cases h1 : encodeV k with
    | none => rw [h1] at he; cases he
    | some bk =>
      cases h2 : encodeV v with
      | none => rw [h1, h2] at he; cases he
      | some bv =>
        cases h3 : encodeEs t with
        | none => rw [h1, h2, h3] at he; cases he
        | some bt =>
          rw [h1, h2, h3] at he
          injection he with he
          subst he
          have hlb : bk.length < f ∧ bv.length < f ∧ bt.length < f := by
            simp only [List.length_append] at hlen
            omega
          show decEntries (decodeV f) (t.length + 1) ((bk ++ bv ++ bt) ++ rest) = _
          cases hkk : keysOK k <;> cases hhk : hashable k <;> cases hkv : keysOK v <;>
              cases hkt : keysOKEs t <;>
            (simp [decEntries, keysOKEs, hkk, hhk, hkv, hkt, List.append_assoc,
              hIH k bk (bv ++ (bt ++ rest)) h1 hlb.1,
              hIH v bv (bt ++ rest) h2 hlb.2.1, ih bt rest h3 hlb.2.2]
             try exact absurd (hashable_keysOK k hhk) (by simp [hkk]))

theorem decodeStructBody_node (dec : List Nat → DRes (Value × List Nat))
    (input : List Nat) :
    decodeStructBody dec 0x4E input =
      (match dec input with
      | .error e => .error e
      | .ok (.integer id, r) =>
        match dec r with
        | .error e => .error e
        | .ok (.list lvs, r') =>
          match valsToStrs lvs with
          | none => .error .typeError
          | some labels =>
            match dec r' with
            | .error e => .error e
            | .ok (.map es, r'') =>
              match entriesToProps es with
              | none => .error .typeError
              | some props => .ok (.node id labels props, r'')
            | .ok _ => .error .typeError
        | .ok _ => .error .typeError
      | .ok _ => .error .typeError) := rfl

theorem decodeStructBody_rel (dec : List Nat → DRes (Value × List Nat))
    (input : List Nat) :
    decodeStructBody dec 0x52 input =
      (match dec input with
      | .error e => .error e
      | .ok (.integer id, r1) =>
        match dec r1 with
        | .error e => .error e
        | .ok (.integer sid, r2) =>
          match dec r2 with
          | .error e => .error e
          | .ok (.integer eid, r3) =>
            match dec r3 with
            | .error e => .error e
            | .ok (.string t, r4) =>
              match dec r4 with
              | .error e => .error e
              | .ok (.map es, r5) =>
                match entriesToProps es with
                | none => .error .typeError
                | some props => .ok (.relationship id sid eid t props, r5)
              | .ok _ => .error .typeError
            | .ok _ => .error .typeError
          | .ok _ => .error .typeError
        | .ok _ => .error .typeError
      | .ok _ => .error .typeError) := rfl

theorem decodeStructBody_path (dec : List Nat → DRes (Value × List Nat))
    (input : List Nat) :
    decodeStructBody dec 0x50 input =
      (match dec input with
      | .error e => .error e
      | .ok (.list nvs, r1) =>
        match valsToNodes nvs with
        | none => .error .typeError
        | some ns =>
          match dec r1 with
          | .error e => .error e
          | .ok (.list rvs, r2) =>
            match valsToURels rvs with
            | none => .error .typeError
            | some rs =>
              match dec r2 with
              | .error e => .error e
              | .ok (.list svs, r3) =>
                match valsToInts svs with
                | none => .error .typeError
                | some seq => .ok (.path ns rs seq, r3)
              | .ok _ => .error .typeError
          | .ok _ => .error .typeError
      | .ok _ => .error .typeError) := rfl

theorem decodeStructBody_urel (dec : List Nat → DRes (Value × List Nat))
    (input : List Nat) :
    decodeStructBody dec 0x72 input =
      (match dec input with
      | .error e => .error e
      | .ok (.integer id, r1) =>
        match dec r1 with
        | .error e => .error e
        | .ok (.string t, r2) =>
          match dec r2 with
          | .error e => .error e
          | .ok (.map es, r3) =>
            match entriesToProps es with
            | none => .error .typeError
            | some props => .ok (.unboundRelationship id t props, r3)
          | .ok _ => .error .typeError
        | .ok _ => .error .typeError
      | .ok _ => .error .typeError) := rfl

theorem decodeStructBody_date (dec : List Nat → DRes (Value × List Nat))
    (input : List Nat) :
    decodeStructBody dec 0x44 input =
      (match dec input with
      | .error e => .error e
      | .ok (.integer days, r) => .ok (.date days, r)
      | .ok _ => .error .typeError) := rfl

theorem decodeStructBody_time (dec : List Nat → DRes (Value × List Nat))
    (input : List Nat) :
    decodeStructBody dec 0x54 input =
      (match dec input with
      | .error e => .error e
      | .ok (.integer nanos, r1) =>
        match dec r1 with
        | .error e => .error e
        | .ok (.integer offs, r2) => .ok (.time nanos offs, r2)
        | .ok _ => .error .typeError
      | .ok _ => .error .typeError) := rfl

/-- Master round-trip invariant: decoding any encoder output (followed by
arbitrary further bytes) with enough fuel returns the encoded value and the
remainder, or panics at a HashMap insert if the value has unhashable map
keys (such a value cannot be built by the source without panicking).  One
unit of fuel covers one nesting level, and every level consumes at least one
byte of input, so fuel exceeding the byte count is enough. -/
theorem rt_main (f : Nat) :
    ∀ v bs rest, encodeV v = some bs → bs.length < f →
      decodeV f (bs ++ rest) = (if keysOK v then .ok (v, rest) else .error .panicked) := by
  induction f with
  | zero => intro v bs rest _ hlen; omega
  | succ f ih =>
    intro v bs rest he hlen
    rw [decodeV_succ]
    cases v with
    | null =>
      simp only [encodeV, Option.some.injEq] at he
      subst he
      show decodeVStep (decodeV f) (0xC0 :: rest) = _
      rw [decodeVStep_null]
      simp [keysOK]
    | boolean b =>
      cases b with
      | false =>
        simp only [encodeV, Option.some.injEq] at he
        subst he
        show decodeVStep (decodeV f) (0xC2 :: rest) = _
        rw [decodeVStep_false]
        simp [keysOK]
      | true =>
        simp only [encodeV, Option.some.injEq] at he
        subst he
        show decodeVStep (decodeV f) (0xC3 :: rest) = _
        rw [decodeVStep_true]
        simp [keysOK]
    | integer n =>
      simp only [encodeV] at he
      rw [encInt_rt n bs he (decodeV f) rest]
      simp [keysOK]
    | float bits =>
      simp only [encodeV] at he
      rw [encFloat_rt bits bs he (decodeV f) rest]
      simp [keysOK]
    | bytes l =>
      simp only [encodeV] at he
      rw [encBytes_rt l bs he (decodeV f) rest]
      simp [keysOK]
    | string s =>
      simp only [encodeV] at he
      rw [encStr_rt s bs he (decodeV f) rest]
      simp [keysOK]
    | list vs =>
      simp only [encodeV] at he
      obtain ⟨hd, body, hh, hb, hbs⟩ :
          ∃ hd body, listHeader vs.length = some hd ∧ encodeVL vs = some body ∧
            bs = hd ++ body := by
        cases hh : listHeader vs.length <;> cases hb : encodeVL vs <;>
          rw [hh, hb] at he <;> cases he <;> exact ⟨_, _, rfl, rfl, rfl⟩
      subst hbs
      have hlb : body.length < f := by
        have hp := listHeader_pos _ _ hh
        rw [List.length_append] at hlen
        omega
      unfold listHeader at hh
      split_ifs at hh with g1 g2 g3 g4
      · injection hh with hh; subst hh
        show decodeVStep (decodeV f) ((0x90 + vs.length) :: (body ++ rest)) = _
        rw [decodeVStep_tinyList _ _ g1, decSeq_rt f ih vs body rest hb hlb]
        cases hk : keysOKL vs <;> simp [keysOK, hk]
      · injection hh with hh; subst hh
        show decodeVStep (decodeV f) (0xD4 :: (vs.length :: (body ++ rest))) = _
        rw [decodeVStep_d4]
        simp only [readBE_one]
        rw [decSeq_rt f ih vs body rest hb hlb]
        cases hk : keysOKL vs <;> simp [keysOK, hk]
      · injection hh with hh; subst hh
        show decodeVStep (decodeV f)
          (0xD5 :: (beBytes 2 vs.length ++ (body ++ rest))) = _
        rw [decodeVStep_d5]
        simp only [readBE_append]
        have hm : vs.length % 256 ^ 2 = vs.length := Nat.mod_eq_of_lt (by norm_num; omega)
        rw [hm, decSeq_rt f ih vs body rest hb hlb]
        cases hk : keysOKL vs <;> simp [keysOK, hk]
      · injection hh with hh; subst hh
        show decodeVStep (decodeV f)
          (0xD6 :: (beBytes 4 vs.length ++ (body ++ rest))) = _
        rw [decodeVStep_d6]
        simp only [readBE_append]
        have hm : vs.length % 256 ^ 4 = vs.length := Nat.mod_eq_of_lt (by norm_num; omega)
        rw [hm, decSeq_rt f ih vs body rest hb hlb]
        cases hk : keysOKL vs <;> simp [keysOK, hk]
    | map es =>
      simp only [encodeV] at he
      obtain ⟨hd, body, hh, hb, hbs⟩ :
          ∃ hd body, mapHeader es.length = some hd ∧ encodeEs es = some body ∧
            bs = hd ++ body := by
        cases hh : mapHeader es.length <;> cases hb : encodeEs es <;>
          rw [hh, hb] at he <;> cases he <;> exact ⟨_, _, rfl, rfl, rfl⟩
      subst hbs
      have hlb : body.length < f := by
        have hp := mapHeader_pos _ _ hh
        rw [List.length_append] at hlen
        omega
      unfold mapHeader at hh
      split_ifs at hh with g1 g2 g3 g4
      · injection hh with hh; subst hh
        show decodeVStep (decodeV f) ((0xA0 + es.length) :: (body ++ rest)) = _
        rw [decodeVStep_tinyMap _ _ g1, decEntries_rt f ih es body rest hb hlb]
        cases hk : keysOKEs es <;> simp [keysOK, hk]
      · injection hh with hh; subst hh
        show decodeVStep (decodeV f) (0xD8 :: (es.length :: (body ++ rest))) = _
        rw [decodeVStep_d8]
        simp only [readBE_one]
        rw [decEntries_rt f ih es body rest hb hlb]
        cases hk : keysOKEs es <;> simp [keysOK, hk]
      · injection hh with hh; subst hh
        show decodeVStep (decodeV f)
          (0xD9 :: (beBytes 2 es.length ++ (body ++ rest))) = _
        rw [decodeVStep_d9]
        simp only [readBE_append]
        have hm : es.length % 256 ^ 2 = es.length := Nat.mod_eq_of_lt (by norm_num; omega)
        rw [hm, decEntries_rt f ih es body rest hb hlb]
        cases hk : keysOKEs es <;> simp [keysOK, hk]
      · injection hh with hh; subst hh
        show decodeVStep (decodeV f)
          (0xDA :: (beBytes 4 es.length ++ (body ++ rest))) = _
        rw [decodeVStep_da]
        simp only [readBE_append]
        have hm : es.length % 256 ^ 4 = es.length := Nat.mod_eq_of_lt (by norm_num; omega)
        rw [hm, decEntries_rt f ih es body rest hb hlb]
        cases hk : keysOKEs es <;> simp [keysOK, hk]
    | node id labels props =>
      simp only [encodeV] at he
      obtain ⟨i, l, mh, p, h1, h2, h3, h4, hbs⟩ :
          ∃ i l mh p, encInt id = some i ∧ encStrListV labels = some l ∧
            mapHeader props.length = some mh ∧ encProps props = some p ∧
            bs = [0xB3, 0x4E] ++ i ++ l ++ (mh ++ p) := by
        cases h1 : encInt id <;> cases h2 : encStrListV labels <;>
          cases h3 : mapHeader props.length <;> cases h4 : encProps props <;>
          rw [h1, h2, h3, h4] at he <;> cases he <;>
          exact ⟨_, _, _, _, rfl, rfl, rfl, rfl, rfl⟩
      subst hbs
      simp only [List.length_append, List.length_cons, List.length_nil] at hlen
      show decodeVStep (decodeV f)
        (0xB3 :: 0x4E :: (i ++ l ++ (mh ++ p) ++ rest)) = _
      rw [decodeVStep_tinyStruct _ 0xB3 (by norm_num)]
      simp only [readByte, decodeStructBody_node, List.append_assoc]
      have hd1 : decodeV f (i ++ (l ++ (mh ++ (p ++ rest)))) =
          .ok (.integer id, l ++ (mh ++ (p ++ rest))) := by
        have := ih (.integer id) i (l ++ (mh ++ (p ++ rest)))
          (by simp only [encodeV]; exact h1) (by omega)
        simpa [keysOK] using this
      simp only [hd1]
      have hd2 : decodeV f (l ++ (mh ++ (p ++ rest))) =
          .ok (.list (labels.map Value.string), mh ++ (p ++ rest)) := by
        have := ih (.list (labels.map Value.string)) l (mh ++ (p ++ rest))
          (by rw [encStrListV_bridge]; exact h2) (by omega)
        simpa [keysOK, keysOKL_strings] using this
      simp only [hd2]
      simp only [valsToStrs_mapped]
      have hd3 : decodeV f (mh ++ (p ++ rest)) =
          (if keysOKPs props then
            .ok (.map (props.map (fun q => (Value.string q.1, q.2))), rest)
          else .error .panicked) := by
        have hmp : encodeV (.map (props.map (fun q => (Value.string q.1, q.2)))) =
            some (mh ++ p) := by
          rw [encPropsV_bridge]
          simp [encPropsV, h3, h4]
        have := ih (.map (props.map (fun q => (Value.string q.1, q.2)))) (mh ++ p) rest
          hmp (by rw [List.length_append]; omega)
        rw [List.append_assoc] at this
        rw [this, keysOK, keysOKEs_mapped]
      simp only [hd3]
      cases hk : keysOKPs props with
      | false => simp [keysOK, hk]
      | true => simp [keysOK, hk, entriesToProps_mapped]
    | relationship id sid eid ty props =>
      simp only [encodeV] at he
      obtain ⟨i, s, e, tb, mh, p, h1, h2, h3, h4, h5, h6, hbs⟩ :
          ∃ i s e tb mh p, encInt id = some i ∧ encInt sid = some s ∧
            encInt eid = some e ∧ encStr ty = some tb ∧
            mapHeader props.length = some mh ∧ encProps props = some p ∧
            bs = [0xB5, 0x52] ++ i ++ s ++ e ++ tb ++ (mh ++ p) := by
        cases h1 : encInt id <;> cases h2 : encInt sid <;> cases h3 : encInt eid <;>
          cases h4 : encStr ty <;> cases h5 : mapHeader props.length <;>
          cases h6 : encProps props <;>
          rw [h1, h2, h3, h4, h5, h6] at he <;> cases he <;>
          exact ⟨_, _, _, _, _, _, rfl, rfl, rfl, rfl, rfl, rfl, rfl⟩
      subst hbs
      simp only [List.length_append, List.length_cons, List.length_nil] at hlen
      show decodeVStep (decodeV f)
        (0xB5 :: 0x52 :: (i ++ s ++ e ++ tb ++ (mh ++ p) ++ rest)) = _
      rw [decodeVStep_tinyStruct _ 0xB5 (by norm_num)]
      simp only [readByte, decodeStructBody_rel, List.append_assoc]
      have hd1 : decodeV f (i ++ (s ++ (e ++ (tb ++ (mh ++ (p ++ rest)))))) =
          .ok (.integer id, s ++ (e ++ (tb ++ (mh ++ (p ++ rest))))) := by
        have := ih (.integer id) i (s ++ (e ++ (tb ++ (mh ++ (p ++ rest)))))
          (by simp only [encodeV]; exact h1) (by omega)
        simpa [keysOK] using this
      simp only [hd1]
      have hd2 : decodeV f (s ++ (e ++ (tb ++ (mh ++ (p ++ rest))))) =
          .ok (.integer sid, e ++ (tb ++ (mh ++ (p ++ rest)))) := by
        have := ih (.integer sid) s (e ++ (tb ++ (mh ++ (p ++ rest))))
          (by simp only [encodeV]; exact h2) (by omega)
        simpa [keysOK] using this
      simp only [hd2]
      have hd3 : decodeV f (e ++ (tb ++ (mh ++ (p ++ rest)))) =
          .ok (.integer eid, tb ++ (mh ++ (p ++ rest))) := by
        have := ih (.integer eid) e (tb ++ (mh ++ (p ++ rest)))
          (by simp only [encodeV]; exact h3) (by omega)
        simpa [keysOK] using this
      simp only [hd3]
      have hd4 : decodeV f (tb ++ (mh ++ (p ++ rest))) =
          .ok (.string ty, mh ++ (p ++ rest)) := by
        have := ih (.string ty) tb (mh ++ (p ++ rest))
          (by simp only [encodeV]; exact h4) (by omega)
        simpa [keysOK] using this
      simp only [hd4]
      have hd5 : decodeV f (mh ++ (p ++ rest)) =
          (if keysOKPs props then
            .ok (.map (props.map (fun q => (Value.string q.1, q.2))), rest)
          else .error .panicked) := by
        have hmp : encodeV (.map (props.map (fun q => (Value.string q.1, q.2)))) =
            some (mh ++ p) := by
          rw [encPropsV_bridge]
          simp [encPropsV, h5, h6]
        have := ih (.map (props.map (fun q => (Value.string q.1, q.2)))) (mh ++ p) rest
          hmp (by rw [List.length_append]; omega)
        rw [List.append_assoc] at this
        rw [this, keysOK, keysOKEs_mapped]
      simp only [hd5]
      cases hk : keysOKPs props with
      | false => simp [keysOK, hk]
      | true => simp [keysOK, hk, entriesToProps_mapped]
    | unboundRelationship id ty props =>
      simp only [encodeV] at he
      obtain ⟨i, tb, mh, p, h1, h2, h3, h4, hbs⟩ :
          ∃ i tb mh p, encInt id = some i ∧ encStr ty = some tb ∧
            mapHeader props.length = some mh ∧ encProps props = some p ∧
            bs = [0xB3, 0x72] ++ i ++ tb ++ (mh ++ p) := by
        cases h1 : encInt id <;> cases h2 : encStr ty <;>
          cases h3 : mapHeader props.length <;> cases h4 : encProps props <;>
          rw [h1, h2, h3, h4] at he <;> cases he <;>
          exact ⟨_, _, _, _, rfl, rfl, rfl, rfl, rfl⟩
      subst hbs
      simp only [List.length_append, List.length_cons, List.length_nil] at hlen
      show decodeVStep (decodeV f)
        (0xB3 :: 0x72 :: (i ++ tb ++ (mh ++ p) ++ rest)) = _
      rw [decodeVStep_tinyStruct _ 0xB3 (by norm_num)]
      simp only [readByte, decodeStructBody_urel, List.append_assoc]
      have hd1 : decodeV f (i ++ (tb ++ (mh ++ (p ++ rest)))) =
          .ok (.integer id, tb ++ (mh ++ (p ++ rest))) := by
        have := ih (.integer id) i (tb ++ (mh ++ (p ++ rest)))
          (by simp only [encodeV]; exact h1) (by omega)
        simpa [keysOK] using this
      simp only [hd1]
      have hd2 : decodeV f (tb ++ (mh ++ (p ++ rest))) =
          .ok (.string ty, mh ++ (p ++ rest)) := by
        have := ih (.string ty) tb (mh ++ (p ++ rest))
          (by simp only [encodeV]; exact h2) (by omega)
        simpa [keysOK] using this
      simp only [hd2]
      have hd3 : decodeV f (mh ++ (p ++ rest)) =
          (if keysOKPs props then
            .ok (.map (props.map (fun q => (Value.string q.1, q.2))), rest)
          else .error .panicked) := by
        have hmp : encodeV (.map (props.map (fun q => (Value.string q.1, q.2)))) =
            some (mh ++ p) := by
          rw [encPropsV_bridge]
          simp [encPropsV, h3, h4]
        have := ih (.map (props.map (fun q => (Value.string q.1, q.2)))) (mh ++ p) rest
          hmp (by rw [List.length_append]; omega)
        rw [List.append_assoc] at this
        rw [this, keysOK, keysOKEs_mapped]
      simp only [hd3]
      cases hk : keysOKPs props with
      | false => simp [keysOK, hk]
      | true => simp [keysOK, hk, entriesToProps_mapped]
    | path ns rs seq =>
      simp only [encodeV] at he
      obtain ⟨nh, a, rh, b, c, h1, h2, h3, h4, h5, hbs⟩ :
          ∃ nh a rh b c, listHeader ns.length = some nh ∧ encNodes ns = some a ∧
            listHeader rs.length = some rh ∧ encURels rs = some b ∧
            encIntListV seq = some c ∧
            bs = [0xB3, 0x50] ++ (nh ++ a) ++ (rh ++ b) ++ c := by
        cases h1 : listHeader ns.length <;> cases h2 : encNodes ns <;>
          cases h3 : listHeader rs.length <;> cases h4 : encURels rs <;>
          cases h5 : encIntListV seq <;>
          rw [h1, h2, h3, h4, h5] at he <;> cases he <;>
          exact ⟨_, _, _, _, _, rfl, rfl, rfl, rfl, rfl, rfl⟩
      subst hbs
      simp only [List.length_append, List.length_cons, List.length_nil] at hlen
      show decodeVStep (decodeV f)
        (0xB3 :: 0x50 :: ((nh ++ a) ++ (rh ++ b) ++ c ++ rest)) = _
      rw [decodeVStep_tinyStruct _ 0xB3 (by norm_num)]
      simp only [readByte, decodeStructBody_path, List.append_assoc]
      have hd1 : decodeV f (nh ++ (a ++ (rh ++ (b ++ (c ++ rest))))) =
          (if keysOKNs ns then
            .ok (.list (ns.map nodeify), rh ++ (b ++ (c ++ rest)))
          else .error .panicked) := by
        have hnv : encodeV (.list (ns.map nodeify)) = some (nh ++ a) := by
          rw [encNodeListV_bridge]
          simp [encNodeListV, h1, h2]
        have := ih (.list (ns.map nodeify)) (nh ++ a) (rh ++ (b ++ (c ++ rest)))
          hnv (by rw [List.length_append]; omega)
        rw [List.append_assoc] at this
        rw [this, keysOK, keysOKL_nodes]
      have hd2 : decodeV f (rh ++ (b ++ (c ++ rest))) =
          (if keysOKRs rs then
            .ok (.list (rs.map urelify), c ++ rest)
          else .error .panicked) := by
        have hrv : encodeV (.list (rs.map urelify)) = some (rh ++ b) := by
          rw [encURelListV_bridge]
          simp [encURelListV, h3, h4]
        have := ih (.list (rs.map urelify)) (rh ++ b) (c ++ rest)
          hrv (by rw [List.length_append]; omega)
        rw [List.append_assoc] at this
        rw [this, keysOK, keysOKL_urels]
      have hd3 : decodeV f (c ++ rest) = .ok (.list (seq.map Value.integer), rest) := by
        have hsv : encodeV (.list (seq.map Value.integer)) = some c := by
          rw [encIntListV_bridge]; exact h5
        have := ih (.list (seq.map Value.integer)) c rest hsv (by omega)
        simpa [keysOK, keysOKL_ints] using this
      simp only [hd1]
      cases hk1 : keysOKNs ns <;> cases hk2 : keysOKRs rs <;>
        simp [keysOK, hk1, hk2, hd2, hd3, valsToNodes_mapped, valsToURels_mapped,
          valsToInts_mapped]
    | date days =>
      simp only [encodeV] at he
      obtain ⟨d, h1, hbs⟩ : ∃ d, encInt days = some d ∧ bs = [0xB1, 0x44] ++ d := by
        cases h1 : encInt days <;> rw [h1] at he <;> cases he <;> exact ⟨_, rfl, rfl⟩
      subst hbs
      simp only [List.length_append, List.length_cons, List.length_nil] at hlen
      show decodeVStep (decodeV f) (0xB1 :: 0x44 :: (d ++ rest)) = _
      rw [decodeVStep_tinyStruct _ 0xB1 (by norm_num)]
      simp only [readByte, decodeStructBody_date]
      have hd1 : decodeV f (d ++ rest) = .ok (.integer days, rest) := by
        have := ih (.integer days) d rest (by simp only [encodeV]; exact h1) (by omega)
        simpa [keysOK] using this
      simp only [hd1]
      simp [keysOK]
    | time nanos offs =>
      simp only [encodeV] at he
      obtain ⟨a, b, h1, h2, hbs⟩ :
          ∃ a b, encInt nanos = some a ∧ encInt offs = some b ∧
            bs = [0xB2, 0x54] ++ a ++ b := by
        cases h1 : encInt nanos <;> cases h2 : encInt offs <;>
          rw [h1, h2] at he <;> cases he <;> exact ⟨_, _, rfl, rfl, rfl⟩
      subst hbs
      simp only [List.length_append, List.length_cons, List.length_nil] at hlen
      show decodeVStep (decodeV f) (0xB2 :: 0x54 :: (a ++ b ++ rest)) = _
      rw [decodeVStep_tinyStruct _ 0xB2 (by norm_num)]
      simp only [readByte, decodeStructBody_time, List.append_assoc]
      have hd1 : decodeV f (a ++ (b ++ rest)) = .ok (.integer nanos, b ++ rest) := by
        have := ih (.integer nanos) a (b ++ rest)
          (by simp only [encodeV]; exact h1) (by omega)
        simpa [keysOK] using this
      simp only [hd1]
      have hd2 : decodeV f (b ++ rest) = .ok (.integer offs, rest) := by
        have := ih (.integer offs) b rest (by simp only [encodeV]; exact h2) (by omega)
        simpa [keysOK] using this
      simp only [hd2]
      simp [keysOK]

/-- Decoding an encoder output consumes exactly the encoding and returns the
value, for values whose map keys all hash (in particular for all schema
values). -/
theorem decodeValueFull_encodeV (v : Value) (bs : List Nat)
    (he : encodeV v = some bs) (hk : keysOK v = true) :
    decodeValueFull bs = .ok (v, []) := by
  unfold decodeValueFull
  have h := rt_main (bs.length + 1) v bs [] he (by omega)
  rw [List.append_nil] at h
  rw [h, hk]
  simp

theorem getInfo_tiny (m : Nat) (hm : 0xB0 ≤ m ∧ m ≤ 0xBF) (sig : Nat) (r : List Nat) :
    getInfo (m :: sig :: r) = .ok (m, sig, r) := by
  simp only [getInfo, readByte]
  rw [if_pos hm]

theorem decodeField_encodeV (v : Value) (bs rest : List Nat)
    (he : encodeV v = some bs) (hk : keysOK v = true) :
    decodeField (bs ++ rest) = .ok (v, rest) := by
  unfold decodeField
  have h := rt_main ((bs ++ rest).length + 1) v bs rest he
    (by simp only [List.length_append]; omega)
  rw [h, hk]
  simp

theorem fieldString_enc (s bs rest : List Nat) (he : encStr s = some bs) :
    fieldString (bs ++ rest) = .ok (s, rest) := by
  unfold fieldString
  rw [decodeField_encodeV (.string s) bs rest (by simp only [encodeV]; exact he) rfl]

theorem fieldMap_enc (props : List (List Nat × Value)) (bs rest : List Nat)
    (he : encPropsV props = some bs) (hk : keysOKPs props = true) :
    fieldMap (bs ++ rest) = .ok (props, rest) := by
  unfold fieldMap
  rw [decodeField_encodeV (.map (props.map (fun q => (Value.string q.1, q.2)))) bs rest
    (by rw [encPropsV_bridge]; exact he)
    (by rw [keysOK, keysOKEs_mapped]; exact hk)]
  simp [entriesToProps_mapped]

theorem fieldList_enc (vs : List Value) (bs rest : List Nat)
    (he : encodeV (.list vs) = some bs) (hk : keysOKL vs = true) :
    fieldList (bs ++ rest) = .ok (vs, rest) := by
  unfold fieldList
  rw [decodeField_encodeV (.list vs) bs rest he (by rw [keysOK]; exact hk)]

/-- Message round trip: decoding the encoding of any message yields the
message back, for messages whose metadata values have hashable map keys. -/
theorem decodeMessage_encodeMessage (m : Message) (B : List Nat)
    (he : encodeMessage m = some B) (hk : msgOK m = true) :
    decodeMessage B = .ok m := by
  cases m with
  | init name auth =>
    simp only [encodeMessage] at he
    obtain ⟨nb, ab, h1, h2, hbs⟩ :
        ∃ nb ab, encStr name = some nb ∧ encPropsV auth = some ab ∧
          B = [0xB2, 0x01] ++ nb ++ ab := by
      cases h1 : encStr name <;> cases h2 : encPropsV auth <;>
        rw [h1, h2] at he <;> cases he <;> exact ⟨_, _, rfl, rfl, rfl⟩
    subst hbs
    show decodeMessage (0xB2 :: 0x01 :: (nb ++ ab)) = _
    unfold decodeMessage
    rw [getInfo_tiny 0xB2 (by norm_num)]
    simp only [msgOK] at hk
    norm_num
    simp only [fieldString_enc name nb ab h1]
    have : fieldMap (ab ++ []) = .ok (auth, []) := fieldMap_enc auth ab [] h2 hk
    rw [List.append_nil] at this
    simp only [this]
  | run stmt params =>
    simp only [encodeMessage] at he
    obtain ⟨sb, pb, h1, h2, hbs⟩ :
        ∃ sb pb, encStr stmt = some sb ∧ encPropsV params = some pb ∧
          B = [0xB2, 0x10] ++ sb ++ pb := by
      cases h1 : encStr stmt <;> cases h2 : encPropsV params <;>
        rw [h1, h2] at he <;> cases he <;> exact ⟨_, _, rfl, rfl, rfl⟩
    subst hbs
    show decodeMessage (0xB2 :: 0x10 :: (sb ++ pb)) = _
    unfold decodeMessage
    rw [getInfo_tiny 0xB2 (by norm_num)]
    simp only [msgOK] at hk
    norm_num
    simp only [fieldString_enc stmt sb pb h1]
    have : fieldMap (pb ++ []) = .ok (params, []) := fieldMap_enc params pb [] h2 hk
    rw [List.append_nil] at this
    simp only [this]
  | discardAll => simp only [encodeMessage, Option.some.injEq] at he; subst he; rfl
  | pullAll => simp only [encodeMessage, Option.some.injEq] at he; subst he; rfl
  | ackFailure => simp only [encodeMessage, Option.some.injEq] at he; subst he; rfl
  | reset => simp only [encodeMessage, Option.some.injEq] at he; subst he; rfl
  | record fields =>
    simp only [encodeMessage] at he
    obtain ⟨fb, h1, hbs⟩ :
        ∃ fb, encodeV (.list fields) = some fb ∧ B = [0xB1, 0x71] ++ fb := by
      cases h1 : encodeV (.list fields) <;> rw [h1] at he <;> cases he <;>
        exact ⟨_, rfl, rfl⟩
    subst hbs
    show decodeMessage (0xB1 :: 0x71 :: fb) = _
    unfold decodeMessage
    rw [getInfo_tiny 0xB1 (by norm_num)]
    simp only [msgOK] at hk
    norm_num
    have : fieldList (fb ++ []) = .ok (fields, []) := fieldList_enc fields fb [] h1 hk
    rw [List.append_nil] at this
    simp only [this]
  | success md =>
    simp only [encodeMessage] at he
    obtain ⟨mb, h1, hbs⟩ :
        ∃ mb, encPropsV md = some mb ∧ B = [0xB1, 0x70] ++ mb := by
      cases h1 : encPropsV md <;> rw [h1] at he <;> cases he <;> exact ⟨_, rfl, rfl⟩
    subst hbs
    show decodeMessage (0xB1 :: 0x70 :: mb) = _
    unfold decodeMessage
    rw [getInfo_tiny 0xB1 (by norm_num)]
    simp only [msgOK] at hk
    norm_num
    have : fieldMap (mb ++ []) = .ok (md, []) := fieldMap_enc md mb [] h1 hk
    rw [List.append_nil] at this
    simp only [this]
  | failure md =>
    simp only [encodeMessage] at he
    obtain ⟨mb, h1, hbs⟩ :
        ∃ mb, encPropsV md = some mb ∧ B = [0xB1, 0x7F] ++ mb := by
      cases h1 : encPropsV md <;> rw [h1] at he <;> cases he <;> exact ⟨_, rfl, rfl⟩
    subst hbs
    show decodeMessage (0xB1 :: 0x7F :: mb) = _
    unfold decodeMessage
    rw [getInfo_tiny 0xB1 (by norm_num)]
    simp only [msgOK] at hk
    norm_num
    have : fieldMap (mb ++ []) = .ok (md, []) := fieldMap_enc md mb [] h1 hk
    rw [List.append_nil] at this
    simp only [this]
  | ignored => simp only [encodeMessage, Option.some.injEq] at he; subst he; rfl
  | hello md =>
    simp only [encodeMessage] at he
    obtain ⟨mb, h1, hbs⟩ :
        ∃ mb, encPropsV md = some mb ∧ B = [0xB1, 0x01] ++ mb := by
      cases h1 : encPropsV md <;> rw [h1] at he <;> cases he <;> exact ⟨_, rfl, rfl⟩
    subst hbs
    show decodeMessage (0xB1 :: 0x01 :: mb) = _
    unfold decodeMessage
    rw [getInfo_tiny 0xB1 (by norm_num)]
    simp only [msgOK] at hk
    norm_num
    have : fieldMap (mb ++ []) = .ok (md, []) := fieldMap_enc md mb [] h1 hk
    rw [List.append_nil] at this
    simp only [this]
  | goodbye => simp only [encodeMessage, Option.some.injEq] at he; subst he; rfl
  | runWithMetadata stmt params md =>
    simp only [encodeMessage] at he
    obtain ⟨sb, pb, mb, h1, h2, h3, hbs⟩ :
        ∃ sb pb mb, encStr stmt = some sb ∧ encPropsV params = some pb ∧
          encPropsV md = some mb ∧ B = [0xB3, 0x10] ++ sb ++ pb ++ mb := by
      cases h1 : encStr stmt <;> cases h2 : encPropsV params <;>
        cases h3 : encPropsV md <;> rw [h1, h2, h3] at he <;> cases he <;>
        exact ⟨_, _, _, rfl, rfl, rfl, rfl⟩
    subst hbs
    simp only [Bool.and_eq_true, msgOK] at hk
    show decodeMessage (0xB3 :: 0x10 :: (sb ++ pb ++ mb)) = _
    unfold decodeMessage
    rw [getInfo_tiny 0xB3 (by norm_num)]
    norm_num
    simp only [List.append_assoc, fieldString_enc stmt sb (pb ++ mb) h1,
      fieldMap_enc params pb mb h2 hk.1]
    have : fieldMap (mb ++ []) = .ok (md, []) := fieldMap_enc md mb [] h3 hk.2
    rw [List.append_nil] at this
    simp only [this]
  | begin md =>
    simp only [encodeMessage] at he
    obtain ⟨mb, h1, hbs⟩ :
        ∃ mb, encPropsV md = some mb ∧ B = [0xB1, 0x11] ++ mb := by
      cases h1 : encPropsV md <;> rw [h1] at he <;> cases he <;> exact ⟨_, rfl, rfl⟩
    subst hbs
    show decodeMessage (0xB1 :: 0x11 :: mb) = _
    unfold decodeMessage
    rw [getInfo_tiny 0xB1 (by norm_num)]
    simp only [msgOK] at hk
    norm_num
    have : fieldMap (mb ++ []) = .ok (md, []) := fieldMap_enc md mb [] h1 hk
    rw [List.append_nil] at this
    simp only [this]
  | commit => simp only [encodeMessage, Option.some.injEq] at he; subst he; rfl
  | rollback => simp only [encodeMessage, Option.some.injEq] at he; subst he; rfl
  | discard md =>
    simp only [encodeMessage] at he
    obtain ⟨mb, h1, hbs⟩ :
        ∃ mb, encPropsV md = some mb ∧ B = [0xB1, 0x2F] ++ mb := by
      cases h1 : encPropsV md <;> rw [h1] at he <;> cases he <;> exact ⟨_, rfl, rfl⟩
    subst hbs
    show decodeMessage (0xB1 :: 0x2F :: mb) = _
    unfold decodeMessage
    rw [getInfo_tiny 0xB1 (by norm_num)]
    simp only [msgOK] at hk
    norm_num
    have : fieldMap (mb ++ []) = .ok (md, []) := fieldMap_enc md mb [] h1 hk
    rw [List.append_nil] at this
    simp only [this]
  | pull md =>
    simp only [encodeMessage] at he
    obtain ⟨mb, h1, hbs⟩ :
        ∃ mb, encPropsV md = some mb ∧ B = [0xB1, 0x3F] ++ mb := by
      cases h1 : encPropsV md <;> rw [h1] at he <;> cases he <;> exact ⟨_, rfl, rfl⟩
    subst hbs
    show decodeMessage (0xB1 :: 0x3F :: mb) = _
    unfold decodeMessage
    rw [getInfo_tiny 0xB1 (by norm_num)]
    simp only [msgOK] at hk
    norm_num
    have : fieldMap (mb ++ []) = .ok (md, []) := fieldMap_enc md mb [] h1 hk
    rw [List.append_nil] at this
    simp only [this]

theorem chunksOfAux_join (s : Nat) (hs : 1 ≤ s) :
    ∀ b l, l.length ≤ b → (chunksOfAux s b l).flatten = l := by
  intro b
  induction b with
  | zero =>
    intro l hl
    cases l with
    | nil => rfl
    | cons x xs => simp at hl
  | succ b ih =>
    intro l hl
    cases l with
    | nil => rfl
    | cons x xs =>
      simp only [List.length_cons] at hl
      simp only [chunksOfAux, List.flatten_cons]
      rw [ih ((x :: xs).drop s)
        (by simp only [List.length_drop, List.length_cons]; omega)]
      exact List.take_append_drop s (x :: xs)

theorem chunksOfAux_count (s : Nat) (hs : 1 ≤ s) :
    ∀ b l, l.length ≤ b → (chunksOfAux s b l).length = (l.length + s - 1) / s := by
  intro b
  induction b with
  | zero =>
    intro l hl
    cases l with
    | nil =>
      show 0 = (0 + s - 1) / s
      rw [Nat.div_eq_of_lt (by omega)]
    | cons x xs => simp at hl
  | succ b ih =>
    intro l hl
    cases l with
    | nil =>
      show 0 = (0 + s - 1) / s
      rw [Nat.div_eq_of_lt (by omega)]
    | cons x xs =>
      simp only [List.length_cons] at hl
      simp only [chunksOfAux, List.length_cons]
      rw [ih ((x :: xs).drop s)
        (by simp only [List.length_drop, List.length_cons]; omega)]
      simp only [List.length_drop, List.length_cons]
      rcases le_or_lt (xs.length + 1) s with hle | hlt
      · have e1 : xs.length + 1 - s = 0 := by omega
        have e2 : (0 + s - 1) / s = 0 := Nat.div_eq_of_lt (by omega)
        have e3 : xs.length + 1 + s - 1 = xs.length + s := by omega
        have e4 : (xs.length + s) / s = xs.length / s + 1 := Nat.add_div_right _ (by omega)
        have e5 : xs.length / s = 0 := Nat.div_eq_of_lt (by omega)
        rw [e1, e2, e3, e4, e5]
      · have e1 : xs.length + 1 - s + s - 1 = xs.length - s + s := by omega
        have e2 : (xs.length - s + s) / s = (xs.length - s) / s + 1 :=
          Nat.add_div_right _ (by omega)
        have e3 : xs.length + 1 + s - 1 = xs.length + s := by omega
        have e4 : (xs.length + s) / s = xs.length / s + 1 := Nat.add_div_right _ (by omega)
        have e5 : xs.length / s = (xs.length - s) / s + 1 :=
          Nat.div_eq_sub_div (by omega) (by omega)
        rw [e1, e2, e3, e4, e5]

theorem chunksOfAux_sizes (s : Nat) (hs : 1 ≤ s) :
    ∀ b l, ∀ c ∈ chunksOfAux s b l, 1 ≤ c.length ∧ c.length ≤ s := by
  intro b
  induction b with
  | zero => intro l c hc; simp [chunksOfAux] at hc
  | succ b ih =>
    intro l c hc
    cases l with
    | nil => simp [chunksOfAux] at hc
    | cons x xs =>
      simp only [chunksOfAux, List.mem_cons] at hc
      rcases hc with hc | hc
      · subst hc
        refine ⟨?_, by simp [List.length_take]⟩
        simp [List.length_take]
        omega
      · exact ih _ c hc

theorem readMessageBody_frames (cs : List (List Nat)) :
    ∀ fuel acc extra, (∀ c ∈ cs, 1 ≤ c.length ∧ c.length ≤ 65535) →
      cs.length < fuel →
      readMessageBody fuel acc
        ((cs.map (fun c => beBytes 2 c.length ++ c)).flatten ++ ([0, 0] ++ extra)) =
        some (acc ++ cs.flatten, extra) := by
  induction cs with
  | nil =>
    intro fuel acc extra _ hfuel
    cases fuel with
    | zero => omega
    | succ fuel =>
      show readMessageBody (fuel + 1) acc (0 :: 0 :: extra) = _
      simp only [readMessageBody]
      have h2 : readBE 2 (0 :: 0 :: extra) = some (0, extra) := by
        have h0 : (0 : Nat) :: 0 :: extra = beBytes 2 0 ++ extra := rfl
        rw [h0, readBE_append]
        norm_num
      rw [h2]
      simp
  | cons c cs ih =>
    intro fuel acc extra hsz hfuel
    cases fuel with
    | zero => omega
    | succ fuel =>
      have hc := hsz c (by simp)
      simp only [List.map_cons, List.flatten_cons, List.append_assoc]
      have hm : c.length % 256 ^ 2 = c.length := Nat.mod_eq_of_lt (by norm_num; omega)
      have hne : ¬ (c.length = 0) := by omega
      simp only [readMessageBody, readBE_append, hm]
      rw [if_neg hne]
      simp only [readN_append c.length c
        ((List.map (fun d => beBytes 2 d.length ++ d) cs).flatten ++ ([0, 0] ++ extra)) rfl]
      rw [ih fuel (acc ++ c) extra (fun d hd => hsz d (by simp [hd]))
        (by simp at hfuel; omega)]
      simp [List.append_assoc]

theorem decodeStructBody_classify (dec : List Nat → DRes (Value × List Nat))
    (sig : Nat) (input : List Nat) (v : Value) (rest : List Nat)
    (h : decodeStructBody dec sig input = .ok (v, rest)) : structValue v = true := by
  revert h
  unfold decodeStructBody
  split_ifs <;> (repeat' split) <;> intro h <;> (try cases h) <;> rfl

/-- C1 (universal part): encode-then-decode is the identity on every value
of the supported schema (String map keys) with no NaN float anywhere
inside, and on every i64 integer in particular. -/
theorem c1_value_roundtrip :
    (∀ v bs, strKeys v = true → nanFree v = true → encodeV v = some bs →
      decodeValue bs = .ok v) ∧
    (∀ n : Int, -(2^63) ≤ n → n < 2^63 →
      ∃ i, encodeV (.integer n) = some i ∧ decodeValue i = .ok (.integer n)) := by
  constructor
  · intro v bs hs _ he
    unfold decodeValue
    rw [decodeValueFull_encodeV v bs he (strKeys_keysOK v hs)]
  · intro n h1 h2
    cases henc : encInt n with
    | none =>
      exfalso
      unfold encInt at henc
      split_ifs at henc with g1 g2 g3 g4 g5
      omega
    | some i =>
      refine ⟨i, by simp only [encodeV]; exact henc, ?_⟩
      unfold decodeValue
      rw [decodeValueFull_encodeV (.integer n) i (by simp only [encodeV]; exact henc) rfl]

theorem c1_value_roundtrip_witness :
    strKeys (.list [.integer 300, .string [0x61],
      .map [(.string [0x6B], .boolean true)]]) = true ∧
    nanFree (.list [.integer 300, .string [0x61],
      .map [(.string [0x6B], .boolean true)]]) = true ∧
    encodeV (.list [.integer 300, .string [0x61],
      .map [(.string [0x6B], .boolean true)]]) =
      some [0x93, 0xC9, 0x01, 0x2C, 0x81, 0x61, 0xA1, 0x81, 0x6B, 0xC3] ∧
    decodeValue [0x93, 0xC9, 0x01, 0x2C, 0x81, 0x61, 0xA1, 0x81, 0x6B, 0xC3] =
      .ok (.list [.integer 300, .string [0x61], .map [(.string [0x6B], .boolean true)]]) :=
  ⟨rfl, rfl, rfl, c1_value_roundtrip.1 _ _ rfl rfl rfl⟩

/-- C3: the integer encoder picks the smallest-width form (tiny int for
-16..=127, Int8 for -128..=-17, then the smallest of Int16, Int32, Int64
that fits), every form decodes back to the same integer, and the stated
boundary inputs take the stated forms. -/
theorem c3_integer_smallest_width :
    (∀ n : Int, -(2^63) ≤ n → n < 2^63 →
      ((-16 ≤ n ∧ n ≤ 127) → encInt n = some [toU 1 n]) ∧
      ((-128 ≤ n ∧ n < -16) → encInt n = some [0xC8, toU 1 n]) ∧
      (((-(2^15) ≤ n ∧ n < -128) ∨ (127 < n ∧ n < 2^15)) →
        encInt n = some (0xC9 :: beBytes 2 (toU 2 n))) ∧
      (((-(2^31) ≤ n ∧ n < -(2^15)) ∨ (2^15 ≤ n ∧ n < 2^31)) →
        encInt n = some (0xCA :: beBytes 4 (toU 4 n))) ∧
      ((n < -(2^31) ∨ 2^31 ≤ n) → encInt n = some (0xCB :: beBytes 8 (toU 8 n))) ∧
      (∀ i, encInt n = some i → decodeValue i = .ok (.integer n))) ∧
    (encInt (-17) = some [0xC8, 0xEF] ∧
     encInt (-16) = some [0xF0] ∧
     encInt 127 = some [0x7F] ∧
     encInt 128 = some [0xC9, 0x00, 0x80] ∧
     encInt (-32769) = some [0xCA, 0xFF, 0xFF, 0x7F, 0xFF] ∧
     encInt (2^31) = some [0xCB, 0x00, 0x00, 0x00, 0x00, 0x80, 0x00, 0x00, 0x00] ∧
     decodeValue [0xC8, 0xEF] = .ok (.integer (-17)) ∧
     decodeValue [0xF0] = .ok (.integer (-16)) ∧
     decodeValue [0x7F] = .ok (.integer 127) ∧
     decodeValue [0xC9, 0x00, 0x80] = .ok (.integer 128) ∧
     decodeValue [0xCA, 0xFF, 0xFF, 0x7F, 0xFF] = .ok (.integer (-32769)) ∧
     decodeValue [0xCB, 0x00, 0x00, 0x00, 0x00, 0x80, 0x00, 0x00, 0x00] =
       .ok (.integer (2^31))) := by
  constructor
  · intro n hlo hhi
    refine ⟨?_, ?_, ?_, ?_, ?_, ?_⟩
    · intro h
      unfold encInt
      rw [if_pos ⟨h.1, h.2⟩]
    · intro h
      unfold encInt
      rw [if_neg (by omega), if_pos ⟨h.1, by omega⟩]
    · intro h
      unfold encInt
      rw [if_neg (by omega), if_neg (by omega), if_pos (by constructor <;> omega)]
    · intro h
      unfold encInt
      rw [if_neg (by omega), if_neg (by omega), if_neg (by omega),
        if_pos (by constructor <;> omega)]
    · intro h
      unfold encInt
      rw [if_neg (by omega), if_neg (by omega), if_neg (by omega), if_neg (by omega),
        if_pos (by constructor <;> omega)]
    · intro i hi
      unfold decodeValue
      rw [decodeValueFull_encodeV (.integer n) i (by simp only [encodeV]; exact hi) rfl]
  · exact ⟨rfl, rfl, rfl, rfl, rfl, rfl, rfl, rfl, rfl, rfl, rfl, rfl⟩

theorem c3_integer_smallest_width_witness :
    encInt (-17) = some [0xC8, toU 1 (-17)] :=
  ((c3_integer_smallest_width.1 (-17) (by norm_num) (by norm_num)).2.1)
    ⟨by norm_num, by norm_num⟩

/-- C4: the framed output of a message with encoding B consists of the
chunks of B, each of at most CHUNK_SIZE = 16381 bytes, framed with a
big-endian u16 equal to the chunk length, followed by the 00 00 terminator;
the chunk payloads concatenate back to B and there are exactly
ceil(len B / 16381) of them (the numerator form below is ceiling division). -/
theorem c4_chunk_framing (m : Message) (B : List Nat) (he : encodeMessage m = some B) :
    messageChunks m =
      some ((chunksOf CHUNK_SIZE B).map (fun c => beBytes 2 c.length ++ c) ++ [[0, 0]]) ∧
    (chunksOf CHUNK_SIZE B).length = (B.length + (CHUNK_SIZE - 1)) / CHUNK_SIZE ∧
    CHUNK_SIZE = 16381 ∧
    (chunksOf CHUNK_SIZE B).flatten = B ∧
    (∀ c ∈ chunksOf CHUNK_SIZE B, 1 ≤ c.length ∧ c.length ≤ CHUNK_SIZE ∧
      c.length < 65536) := by
  refine ⟨?_, ?_, rfl, ?_, ?_⟩
  · unfold messageChunks
    rw [he]
  · unfold chunksOf
    rw [chunksOfAux_count CHUNK_SIZE (by norm_num [CHUNK_SIZE]) B.length B (le_refl _)]
    norm_num [CHUNK_SIZE]
  · exact chunksOfAux_join CHUNK_SIZE (by norm_num [CHUNK_SIZE]) B.length B (le_refl _)
  · intro c hc
    have := chunksOfAux_sizes CHUNK_SIZE (by norm_num [CHUNK_SIZE]) B.length B c hc
    refine ⟨this.1, this.2, ?_⟩
    have h2 := this.2
    norm_num [CHUNK_SIZE] at h2 ⊢
    omega

theorem c4_chunk_framing_witness :
    messageChunks .ackFailure =
      some ((chunksOf CHUNK_SIZE [0xB0, 0x0E]).map
        (fun c => beBytes 2 c.length ++ c) ++ [[0, 0]]) ∧
    messageChunks .ackFailure = some [[0x00, 0x02, 0xB0, 0x0E], [0x00, 0x00]] :=
  ⟨(c4_chunk_framing .ackFailure [0xB0, 0x0E] rfl).1, rfl⟩

theorem flatten_count_le (ls : List (List Nat)) (h : ∀ c ∈ ls, 1 ≤ c.length) :
    ls.length ≤ ls.flatten.length := by
  induction ls with
  | nil => simp
  | cons c t ih =>
    simp only [List.flatten_cons, List.length_append, List.length_cons]
    have h1 := h c (by simp)
    have h2 := ih (fun d hd => h d (by simp [hd]))
    omega

/-- C2: encoding a message into chunks and feeding the concatenated chunk
bytes to the framing decoder reassembles exactly the direct encoding of the
message, and decoding that body yields the message back. -/
theorem c2_framed_roundtrip (m : Message) (B : List Nat) (cs : List (List Nat))
    (he : encodeMessage m = some B) (hc : messageChunks m = some cs)
    (hk : msgOK m = true) :
    readMessageBody (cs.flatten.length + 1) [] cs.flatten = some (B, []) ∧
    decodeMessage B = .ok m ∧
    fromStream cs.flatten = some (.ok m) := by
  have hcs : cs = (chunksOf CHUNK_SIZE B).map (fun c => beBytes 2 c.length ++ c) ++
      [[0, 0]] := by
    unfold messageChunks at hc
    rw [he] at hc
    injection hc with hc
    exact hc.symm
  have hsz : ∀ c ∈ chunksOf CHUNK_SIZE B, 1 ≤ c.length ∧ c.length ≤ 65535 := by
    intro c hcmem
    have := chunksOfAux_sizes CHUNK_SIZE (by norm_num [CHUNK_SIZE]) B.length B c hcmem
    refine ⟨this.1, ?_⟩
    have := this.2
    norm_num [CHUNK_SIZE] at this
    omega
  have hflat : cs.flatten =
      ((chunksOf CHUNK_SIZE B).map (fun c => beBytes 2 c.length ++ c)).flatten ++
        ([0, 0] ++ []) := by
    rw [hcs]
    simp
  have hcount : (chunksOf CHUNK_SIZE B).length < cs.flatten.length + 1 := by
    have h1 : ((chunksOf CHUNK_SIZE B).map
        (fun c => beBytes 2 c.length ++ c)).length ≤
        ((chunksOf CHUNK_SIZE B).map (fun c => beBytes 2 c.length ++ c)).flatten.length := by
      apply flatten_count_le
      intro c hcmem
      simp only [List.mem_map] at hcmem
      obtain ⟨d, _, hd⟩ := hcmem
      subst hd
      simp only [List.length_append, beBytes_length]
      omega
    rw [hflat]
    simp only [List.length_append, List.length_map] at h1 ⊢
    omega
  have hbody := readMessageBody_frames (chunksOf CHUNK_SIZE B)
    (cs.flatten.length + 1) [] [] hsz hcount
  rw [← hflat] at hbody
  have hjoin : (chunksOf CHUNK_SIZE B).flatten = B :=
    chunksOfAux_join CHUNK_SIZE (by norm_num [CHUNK_SIZE]) B.length B (le_refl _)
  rw [hjoin] at hbody
  simp only [List.nil_append] at hbody
  have hdec : decodeMessage B = .ok m := decodeMessage_encodeMessage m B he hk
  refine ⟨hbody, hdec, ?_⟩
  unfold fromStream
  simp only [hbody, hdec]

theorem c2_framed_roundtrip_witness :
    readMessageBody ([[0x00, 0x02, 0xB0, 0x0E], [0x00, 0x00]].flatten.length + 1) []
      [[0x00, 0x02, 0xB0, 0x0E], [0x00, 0x00]].flatten = some ([0xB0, 0x0E], []) ∧
    decodeMessage [0xB0, 0x0E] = .ok .ackFailure ∧
    fromStream [[0x00, 0x02, 0xB0, 0x0E], [0x00, 0x00]].flatten =
      some (.ok .ackFailure) :=
  c2_framed_roundtrip .ackFailure [0xB0, 0x0E] [[0x00, 0x02, 0xB0, 0x0E], [0x00, 0x00]]
    rfl rfl rfl

/-- C5 (amended): a signature byte outside the recognized set fails with
InvalidSignatureByte; for the shared signatures only the marker equality
with the first variant is checked, so a field count outside the allowed set
is not rejected: signature 0x01 with zero fields runs the Hello parser and
surfaces the caught-panic error instead. -/
theorem c5_signature_dispatch :
    (∀ k sig r, k ≤ 15 →
      sig ≠ 0x01 → sig ≠ 0x10 → sig ≠ 0x2F → sig ≠ 0x3F → sig ≠ 0x0E → sig ≠ 0x0F →
      sig ≠ 0x71 → sig ≠ 0x70 → sig ≠ 0x7F → sig ≠ 0x7E → sig ≠ 0x02 → sig ≠ 0x11 →
      sig ≠ 0x12 → sig ≠ 0x13 →
      decodeMessage ((0xB0 + k) :: sig :: r) = .error (.invalidSignature sig)) ∧
    decodeMessage [0xB0, 0x01] = .error .panicked := by
  refine ⟨?_, rfl⟩
  intro k sig r hk h1 h2 h3 h4 h5 h6 h7 h8 h9 h10 h11 h12 h13 h14
  unfold decodeMessage
  simp only [getInfo_tiny (0xB0 + k) (by omega) sig r]
  rw [if_neg h1, if_neg h2, if_neg h3, if_neg h4, if_neg h5, if_neg h6, if_neg h7,
    if_neg h8, if_neg h9, if_neg h10, if_neg h11, if_neg h12, if_neg h13, if_neg h14]

theorem c5_signature_dispatch_witness :
    decodeMessage [0xB0, 0xFF] = .error (.invalidSignature 0xFF) :=
  c5_signature_dispatch.1 0 0xFF [] (by norm_num) (by norm_num) (by norm_num)
    (by norm_num) (by norm_num) (by norm_num) (by norm_num) (by norm_num)
    (by norm_num) (by norm_num) (by norm_num) (by norm_num) (by norm_num)
    (by norm_num) (by norm_num)

/-- C5 counterexample: a structure with signature 0x01 and field count 3
(marker 0xB3) is not rejected with InvalidSignature; since the marker is not
0xB2 the decoder runs the Hello parser, which succeeds on a map field and
produces a Hello message. -/
theorem c5_counterexample :
    decodeMessage [0xB3, 0x01, 0xA0] = .ok (.hello []) ∧
    ∀ e, decodeMessage [0xB3, 0x01, 0xA0] ≠ .error e := by
  exact ⟨rfl, fun e h => by cases h⟩

/-- C6: a first marker byte in the four structural ranges dispatches to the
structural branches (any successful decode is a string, list, map or value
structure respectively) while every marker byte in 0x00..=0x7F and
0xF0..=0xFF decodes as a tiny int (the signed interpretation of the byte)
regardless of what follows. -/
theorem c6_marker_dispatch :
    (∀ b r v rest, 0x80 ≤ b → b ≤ 0x8F →
      decodeValueFull (b :: r) = .ok (v, rest) → ∃ s, v = .string s) ∧
    (∀ b r v rest, 0x90 ≤ b → b ≤ 0x9F →
      decodeValueFull (b :: r) = .ok (v, rest) → ∃ vs, v = .list vs) ∧
    (∀ b r v rest, 0xA0 ≤ b → b ≤ 0xAF →
      decodeValueFull (b :: r) = .ok (v, rest) → ∃ es, v = .map es) ∧
    (∀ b r v rest, 0xB0 ≤ b → b ≤ 0xBF →
      decodeValueFull (b :: r) = .ok (v, rest) → structValue v = true) ∧
    (∀ b r v rest, 0x80 ≤ b → b ≤ 0xBF →
      decodeValueFull (b :: r) = .ok (v, rest) → ∀ n, v ≠ .integer n) ∧
    (∀ b r, b ≤ 0x7F ∨ (0xF0 ≤ b ∧ b ≤ 0xFF) →
      decodeValueFull (b :: r) = .ok (.integer (fromSigned 1 b), r)) := by
  have hstr : ∀ b r v rest, 0x80 ≤ b → b ≤ 0x8F →
      decodeValueFull (b :: r) = .ok (v, rest) → ∃ s, v = .string s := by
    intro b r v rest hb1 hb2 hok
    unfold decodeValueFull at hok
    rw [show (b :: r).length = r.length + 1 from rfl, decodeV_succ] at hok
    rw [show b = 0x80 + (b - 0x80) from by omega] at hok
    rw [decodeVStep_tinyStr _ _ (by omega)] at hok
    cases hr : readN (b - 0x80) r with
    | none => rw [hr] at hok; cases hok
    | some p =>
      obtain ⟨s, r'⟩ := p
      rw [hr] at hok
      cases hok
      exact ⟨s, rfl⟩
  have hlst : ∀ b r v rest, 0x90 ≤ b → b ≤ 0x9F →
      decodeValueFull (b :: r) = .ok (v, rest) → ∃ vs, v = .list vs := by
    intro b r v rest hb1 hb2 hok
    unfold decodeValueFull at hok
    rw [show (b :: r).length = r.length + 1 from rfl, decodeV_succ] at hok
    rw [show b = 0x90 + (b - 0x90) from by omega] at hok
    rw [decodeVStep_tinyList _ _ (by omega)] at hok
    cases hr : decSeq (decodeV (r.length + 1)) (b - 0x90) r with
    | error e => rw [hr] at hok; cases hok
    | ok p =>
      obtain ⟨vs, r'⟩ := p
      rw [hr] at hok
      cases hok
      exact ⟨vs, rfl⟩
  have hmap : ∀ b r v rest, 0xA0 ≤ b → b ≤ 0xAF →
      decodeValueFull (b :: r) = .ok (v, rest) → ∃ es, v = .map es := by
    intro b r v rest hb1 hb2 hok
    unfold decodeValueFull at hok
    rw [show (b :: r).length = r.length + 1 from rfl, decodeV_succ] at hok
    rw [show b = 0xA0 + (b - 0xA0) from by omega] at hok
    rw [decodeVStep_tinyMap _ _ (by omega)] at hok
    cases hr : decEntries (decodeV (r.length + 1)) (b - 0xA0) r with
    | error e => rw [hr] at hok; cases hok
    | ok p =>
      obtain ⟨es, r'⟩ := p
      rw [hr] at hok
      cases hok
      exact ⟨es, rfl⟩
  have hstru : ∀ b r v rest, 0xB0 ≤ b → b ≤ 0xBF →
      decodeValueFull (b :: r) = .ok (v, rest) → structValue v = true := by
    intro b r v rest hb1 hb2 hok
    unfold decodeValueFull at hok
    rw [show (b :: r).length = r.length + 1 from rfl, decodeV_succ] at hok
    rw [decodeVStep_tinyStruct _ b ⟨hb1, hb2⟩] at hok
    cases hr : readByte r with
    | none => rw [hr] at hok; cases hok
    | some p =>
      obtain ⟨sig, r'⟩ := p
      rw [hr] at hok
      exact decodeStructBody_classify _ sig r' v rest hok
  refine ⟨hstr, hlst, hmap, hstru, ?_, ?_⟩
  · intro b r v rest hb1 hb2 hok n hv
    subst hv
    rcases Nat.lt_or_ge b 0x90 with h | h
    · obtain ⟨s, hs⟩ := hstr b r _ rest hb1 (by omega) hok
      cases hs
    · rcases Nat.lt_or_ge b 0xA0 with h2 | h2
      · obtain ⟨vs, hs⟩ := hlst b r _ rest (by omega) (by omega) hok
        cases hs
      · rcases Nat.lt_or_ge b 0xB0 with h3 | h3
        · obtain ⟨es, hs⟩ := hmap b r _ rest (by omega) (by omega) hok
          cases hs
        · have := hstru b r _ rest (by omega) (by omega) hok
          cases this
  · intro b r hb
    unfold decodeValueFull
    rw [show (b :: r).length = r.length + 1 from rfl, decodeV_succ]
    exact decodeVStep_tinyInt _ b hb r

theorem c6_marker_dispatch_witness :
    decodeValueFull [0xF5] = .ok (.integer (fromSigned 1 0xF5), []) ∧
    (∃ s, Value.string [0x61] = .string s) :=
  ⟨c6_marker_dispatch.2.2.2.2.2 0xF5 [] (by norm_num),
    c6_marker_dispatch.1 0x81 [0x61] (.string [0x61]) [] (by norm_num) (by norm_num) rfl⟩

/-- C7 (amended): the handshake returns whatever four-byte big-endian value
the server replies, including zero; no HandshakeRejected error exists in the
client, and the bytes the client writes are the preamble followed by the
four version proposals. -/
theorem c7_handshake_returns_reply :
    (∀ b1 b2 b3 b4 r, handshake (b1 :: b2 :: b3 :: b4 :: r) =
      some (((b1 * 256 + b2) * 256 + b3) * 256 + b4)) ∧
    (∀ v, v < 2^32 → handshake (beBytes 4 v) = some v) ∧
    handshakeWritten = [0x60, 0x60, 0xB0, 0x17, 0, 0, 0, 1, 0, 0, 0, 0,
      0, 0, 0, 0, 0, 0, 0, 0] := by
  refine ⟨?_, ?_, rfl⟩
  · intro b1 b2 b3 b4 r
    unfold handshake
    have h4 : readBE 4 (b1 :: b2 :: b3 :: b4 :: r) =
        some (((b1 * 256 + b2) * 256 + b3) * 256 + b4, r) := by
      have hsplit : b1 :: b2 :: b3 :: b4 :: r = [b1, b2, b3, b4] ++ r := rfl
      rw [hsplit, readBE, readN_append 4 [b1, b2, b3, b4] r rfl]
      simp [beVal]
    rw [h4]
  · intro v hv
    unfold handshake
    rw [← List.append_nil (beBytes 4 v), readBE_append]
    have : v % 256 ^ 4 = v := Nat.mod_eq_of_lt (by norm_num; omega)
    rw [this]

theorem c7_handshake_returns_reply_witness :
    handshake (beBytes 4 1) = some 1 :=
  c7_handshake_returns_reply.2.1 1 (by norm_num)

/-- C7 counterexample: when the server replies with the four zero bytes,
Client::handshake returns Ok(0) as a successfully negotiated version; it
does not report any error. -/
theorem c7_counterexample :
    handshake [0, 0, 0, 0] = some 0 ∧ handshake [0, 0, 0, 0] ≠ none :=
  ⟨rfl, fun h => by cases h⟩

/-- C9: the Init message with client name MyClient/1.0 and the auth map
from scheme to basic encodes to exactly the 29 bytes of the specification
(tiny structure of two fields, signature 0x01, tiny string, tiny map). -/
theorem c9_init_encoding :
    encodeMessage (.init
      [0x4D, 0x79, 0x43, 0x6C, 0x69, 0x65, 0x6E, 0x74, 0x2F, 0x31, 0x2E, 0x30]
      [([0x73, 0x63, 0x68, 0x65, 0x6D, 0x65], .string [0x62, 0x61, 0x73, 0x69, 0x63])]) =
    some [0xB2, 0x01,
      0x8C, 0x4D, 0x79, 0x43, 0x6C, 0x69, 0x65, 0x6E, 0x74, 0x2F, 0x31, 0x2E, 0x30,
      0xA1, 0x86, 0x73, 0x63, 0x68, 0x65, 0x6D, 0x65,
      0x85, 0x62, 0x61, 0x73, 0x69, 0x63] := rfl

/-- C10 (amended): hashing panics exactly on Float, Bytes, Map, Node,
Relationship, UnboundRelationship and Path values; Boolean, Integer, Null,
String, Date and Time hash successfully; a List hashes its elements, so it
succeeds exactly when every element (recursively) does. -/
theorem c10_hash_panics :
    (∀ bits, hashable (.float bits) = false) ∧
    (∀ bs, hashable (.bytes bs) = false) ∧
    (∀ es, hashable (.map es) = false) ∧
    (∀ id ls ps, hashable (.node id ls ps) = false) ∧
    (∀ id s e t ps, hashable (.relationship id s e t ps) = false) ∧
    (∀ id t ps, hashable (.unboundRelationship id t ps) = false) ∧
    (∀ ns rs seq, hashable (.path ns rs seq) = false) ∧
    (∀ b, hashable (.boolean b) = true) ∧
    (∀ n, hashable (.integer n) = true) ∧
    hashable .null = true ∧
    (∀ s, hashable (.string s) = true) ∧
    (∀ d, hashable (.date d) = true) ∧
    (∀ a b, hashable (.time a b) = true) ∧
    (∀ vs, hashable (.list vs) = hashableL vs) ∧
    (∀ v t, hashableL (v :: t) = (hashable v && hashableL t)) ∧
    hashableL [] = true := by
  refine ⟨?_, ?_, ?_, ?_, ?_, ?_, ?_, ?_, ?_, rfl, ?_, ?_, ?_, ?_, ?_, rfl⟩ <;>
    intros <;> rfl

/-- C10 counterexample: hashing a List is not unconditionally successful; a
list containing a Float panics while hashing that element. -/
theorem c10_counterexample : hashable (.list [.float 0]) = false := rfl

theorem decodeV_nil (f : Nat) : decodeV f [] = .error .panicked := by
  cases f <;> rfl

theorem take_append_lt (b R : List Nat) (k : Nat) (h : k ≤ b.length) :
    (b ++ R).take k = b.take k := by
  rw [List.take_append_eq_append_take, Nat.sub_eq_zero_of_le h, List.take_zero,
    List.append_nil]

theorem take_append_ge (b R : List Nat) (k : Nat) (h : b.length ≤ k) :
    (b ++ R).take k = b ++ R.take (k - b.length) := by
  rw [List.take_append_eq_append_take, List.take_of_length_le h]

theorem dec_cut_lt (f : Nat)
    (hP : ∀ v bs k, encodeV v = some bs → k < bs.length → k < f →
      decodeV f (bs.take k) = .error .panicked)
    (v : Value) (b R : List Nat) (k : Nat) (he : encodeV v = some b)
    (hkf : k < f) (h : k < b.length) :
    decodeV f ((b ++ R).take k) = .error .panicked := by
  rw [take_append_lt b R k (le_of_lt h)]
  exact hP v b k he h hkf

theorem dec_cut_ge (f : Nat) (v : Value) (b R : List Nat) (k : Nat)
    (he : encodeV v = some b) (hkf : k < f) (h : b.length ≤ k) :
    decodeV f ((b ++ R).take k) =
      (if keysOK v then .ok (v, R.take (k - b.length)) else .error .panicked) := by
  rw [take_append_ge b R k h]
  exact rt_main f v b (R.take (k - b.length)) he (lt_of_le_of_lt h hkf)

theorem decSeq_pref (f : Nat)
    (hP : ∀ v bs k, encodeV v = some bs → k < bs.length → k < f →
      decodeV f (bs.take k) = .error .panicked) :
    ∀ vs parts k, encodeVL vs = some parts → k < parts.length → k < f →
      decSeq (decodeV f) vs.length (parts.take k) = .error .panicked := by
  intro vs
  induction vs with
  | nil =>
    intro parts k he hk _
    simp only [encodeVL, Option.some.injEq] at he
    subst he
    simp at hk
  | cons v t ih =>
    intro parts k he hk hkf
    simp only [encodeVL] at he
    cases h1 : encodeV v with
    | none => rw [h1] at he; cases he
    | some b =>
      cases h2 : encodeVL t with
      | none => rw [h1, h2] at he; cases he
      | some bt =>
        rw [h1, h2] at he
        injection he with he
        subst he
        show decSeq (decodeV f) (t.length + 1) ((b ++ bt).take k) = .error .panicked
        rcases Nat.lt_or_ge k b.length with hlt | hge
        · have hd := dec_cut_lt f hP v b bt k h1 hkf hlt
          simp [decSeq, hd]
        · have hd := dec_cut_ge f v b bt k h1 hkf hge
          have hk' : k - b.length < bt.length := by
            rw [List.length_append] at hk; omega
          have hih := ih bt (k - b.length) h2 hk' (by omega)
          cases hkv : keysOK v <;> simp [decSeq, hd, hkv, hih]

theorem decEntries_pref (f : Nat)
    (hP : ∀ v bs k, encodeV v = some bs → k < bs.length → k < f →
      decodeV f (bs.take k) = .error .panicked) :
    ∀ es parts k, encodeEs es = some parts → k < parts.length → k < f →
      decEntries (decodeV f) es.length (parts.take k) = .error .panicked := by
  intro es
  induction es with
  | nil =>
    intro parts k he hk _
    simp only [encodeEs, Option.some.injEq] at he
    subst he
    simp at hk
  | cons e t ih =>
    obtain ⟨kk, v⟩ := e
    intro parts k he hk hkf
    simp only [encodeEs] at he
    cases h1 : encodeV kk with
    | none => rw [h1] at he; cases he
    | some bk =>
      cases h2 : encodeV v with
      | none => rw [h1, h2] at he; cases he
      | some bv =>
        cases h3 : encodeEs t with
        | none => rw [h1, h2, h3] at he; cases he
        | some bt =>
          rw [h1, h2, h3] at he
          injection he with he
          subst he
          show decEntries (decodeV f) (t.length + 1) ((bk ++ bv ++ bt).take k) =
            .error .panicked
          rw [List.append_assoc]
          rcases Nat.lt_or_ge k bk.length with hlt | hge
          · have hd := dec_cut_lt f hP kk bk (bv ++ bt) k h1 hkf hlt
            simp [decEntries, hd]
          · have hd := dec_cut_ge f kk bk (bv ++ bt) k h1 hkf hge
            cases hkk : keysOK kk with
            | false => simp [decEntries, hd, hkk]
            | true =>
              rcases Nat.lt_or_ge (k - bk.length) bv.length with hlt2 | hge2
              · have hd2 := dec_cut_lt f hP v bv bt (k - bk.length) h2 (by omega) hlt2
                simp [decEntries, hd, hkk, hd2]
              · have hd2 := dec_cut_ge f v bv bt (k - bk.length) h2 (by omega) hge2
                have hk2 : k - bk.length - bv.length < bt.length := by
                  simp only [List.length_append] at hk; omega
                have hih := ih bt (k - bk.length - bv.length) h3 hk2 (by omega)
                cases hkv : keysOK v <;> cases hh : hashable kk <;>
                  simp [decEntries, hd, hkk, hd2, hkv, hh, hih]

/-- Master strict-prefix invariant: feeding any strict prefix of an encoder
output to the decoder (with enough fuel) reproduces the source behaviour of
a read past the end of the buffer: the panic is caught and surfaces as the
Panicked error, never as a success, a different error kind, or an abort. -/
theorem pref_main (f : Nat) :
    ∀ v bs k, encodeV v = some bs → k < bs.length → k < f →
      decodeV f (bs.take k) = .error .panicked := by
  induction f with
  | zero => intro v bs k _ _ h; omega
  | succ f ih =>
    intro v bs k he hk hkf
    by_cases hk0 : k = 0
    · subst hk0
      rw [List.take_zero]
      exact decodeV_nil _
    rw [decodeV_succ]
    cases v with
    | null =>
      simp only [encodeV, Option.some.injEq] at he
      subst he
      simp only [List.length_cons, List.length_nil] at hk
      omega
    | boolean b =>
      cases b <;> simp only [encodeV, Option.some.injEq] at he <;> subst he <;>
        simp only [List.length_cons, List.length_nil] at hk <;> omega
    | integer n =>
      simp only [encodeV] at he
      unfold encInt at he
      split_ifs at he with g1 g2 g3 g4 g5
      · injection he with he; subst he
        simp only [List.length_cons, List.length_nil] at hk
        omega
      · injection he with he; subst he
        obtain ⟨k', rfl⟩ : ∃ k', k = k' + 1 := ⟨k - 1, by omega⟩
        simp only [List.length_cons, List.length_nil] at hk
        have hz : k' = 0 := by omega
        subst hz
        rw [show (([0xC8, toU 1 n] : List Nat).take 1) = [0xC8] from rfl,
          decodeVStep_c8, readBE_short 1 [] (by simp)]
      · injection he with he; subst he
        obtain ⟨k', rfl⟩ : ∃ k', k = k' + 1 := ⟨k - 1, by omega⟩
        simp only [List.length_cons, beBytes_length] at hk
        rw [List.take_succ_cons, decodeVStep_c9,
          readBE_short 2 _ (by simp [List.length_take, beBytes_length]; omega)]
      · injection he with he; subst he
        obtain ⟨k', rfl⟩ : ∃ k', k = k' + 1 := ⟨k - 1, by omega⟩
        simp only [List.length_cons, beBytes_length] at hk
        rw [List.take_succ_cons, decodeVStep_ca,
          readBE_short 4 _ (by simp [List.length_take, beBytes_length]; omega)]
      · injection he with he; subst he
        obtain ⟨k', rfl⟩ : ∃ k', k = k' + 1 := ⟨k - 1, by omega⟩
        simp only [List.length_cons, beBytes_length] at hk
        rw [List.take_succ_cons, decodeVStep_cb,
          readBE_short 8 _ (by simp [List.length_take, beBytes_length]; omega)]
    | float bits =>
      simp only [encodeV] at he
      unfold encFloatV at he
      split_ifs at he with g
      · injection he with he; subst he
        obtain ⟨k', rfl⟩ : ∃ k', k = k' + 1 := ⟨k - 1, by omega⟩
        simp only [List.length_cons, beBytes_length] at hk
        rw [List.take_succ_cons, decodeVStep_c1,
          readBE_short 8 _ (by simp [List.length_take, beBytes_length]; omega)]
    | bytes l =>
      simp only [encodeV] at he
      unfold encBytesV at he
      split_ifs at he with g1 g2 g3
      · injection he with he; subst he
        obtain ⟨k', rfl⟩ : ∃ k', k = k' + 1 := ⟨k - 1, by omega⟩
        simp only [List.length_cons] at hk
        rw [List.take_succ_cons, decodeVStep_cc]
        cases k' with
        | zero => rw [List.take_zero, readBE_short 1 [] (by simp)]
        | succ k'' =>
          simp only [List.take_succ_cons, readBE_one]
          rw [readN_short l.length _ (by simp [List.length_take]; omega)]
      · injection he with he; subst he
        obtain ⟨k', rfl⟩ : ∃ k', k = k' + 1 := ⟨k - 1, by omega⟩
        simp only [List.length_append, List.length_cons, beBytes_length] at hk
        rw [List.cons_append, List.take_succ_cons, decodeVStep_cd]
        rcases Nat.lt_or_ge k' 2 with h2 | h2
        · rw [readBE_short 2 _ (by simp [List.length_take, beBytes_length]; omega)]
        · rw [take_append_ge _ _ _ (by simp [beBytes_length]; omega)]
          simp only [beBytes_length, readBE_append]
          rw [Nat.mod_eq_of_lt (by norm_num; omega),
            readN_short l.length _ (by simp [List.length_take]; omega)]
      · injection he with he; subst he
        obtain ⟨k', rfl⟩ : ∃ k', k = k' + 1 := ⟨k - 1, by omega⟩
        simp only [List.length_append, List.length_cons, beBytes_length] at hk
        rw [List.cons_append, List.take_succ_cons, decodeVStep_ce]
        rcases Nat.lt_or_ge k' 4 with h2 | h2
        · rw [readBE_short 4 _ (by simp [List.length_take, beBytes_length]; omega)]
        · rw [take_append_ge _ _ _ (by simp [beBytes_length]; omega)]
          simp only [beBytes_length, readBE_append]
          rw [Nat.mod_eq_of_lt (by norm_num; omega),
            readN_short l.length _ (by simp [List.length_take]; omega)]
    | string s =>
      simp only [encodeV] at he
      unfold encStr at he
      cases hh : strHeader s.length with
      | none => rw [hh] at he; cases he
      | some h =>
        rw [hh] at he
        injection he with he
        subst he
        unfold strHeader at hh
        split_ifs at hh with g1 g2 g3 g4
        · injection hh with hh; subst hh
          obtain ⟨k', rfl⟩ : ∃ k', k = k' + 1 := ⟨k - 1, by omega⟩
          simp only [List.length_append, List.length_cons, List.length_nil] at hk
          rw [List.singleton_append, List.take_succ_cons, decodeVStep_tinyStr _ _ g1,
            readN_short s.length _ (by simp [List.length_take]; omega)]
        · injection hh with hh; subst hh
          obtain ⟨k', rfl⟩ : ∃ k', k = k' + 1 := ⟨k - 1, by omega⟩
          simp only [List.length_append, List.length_cons, List.length_nil] at hk
          rw [show (([0xD0, s.length] ++ s : List Nat)) = 0xD0 :: s.length :: s from rfl,
            List.take_succ_cons, decodeVStep_d0]
          cases k' with
          | zero => rw [List.take_zero, readBE_short 1 [] (by simp)]
          | succ k'' =>
            simp only [List.take_succ_cons, readBE_one]
            rw [readN_short s.length _ (by simp [List.length_take]; omega)]
        · injection hh with hh; subst hh
          obtain ⟨k', rfl⟩ : ∃ k', k = k' + 1 := ⟨k - 1, by omega⟩
          simp only [List.length_append, List.length_cons, beBytes_length] at hk
          rw [List.cons_append, List.take_succ_cons, decodeVStep_d1]
          rcases Nat.lt_or_ge k' 2 with h2 | h2
          · rw [readBE_short 2 _ (by simp [List.length_take, beBytes_length]; omega)]
          · rw [take_append_ge _ _ _ (by simp [beBytes_length]; omega)]
            simp only [beBytes_length, readBE_append]
            rw [Nat.mod_eq_of_lt (by norm_num; omega),
              readN_short s.length _ (by simp [List.length_take]; omega)]
        · injection hh with hh; subst hh
          obtain ⟨k', rfl⟩ : ∃ k', k = k' + 1 := ⟨k - 1, by omega⟩
          simp only [List.length_append, List.length_cons, beBytes_length] at hk
          rw [List.cons_append, List.take_succ_cons, decodeVStep_d2]
          rcases Nat.lt_or_ge k' 4 with h2 | h2
          · rw [readBE_short 4 _ (by simp [List.length_take, beBytes_length]; omega)]
          · rw [take_append_ge _ _ _ (by simp [beBytes_length]; omega)]
            simp only [beBytes_length, readBE_append]
            rw [Nat.mod_eq_of_lt (by norm_num; omega),
              readN_short s.length _ (by simp [List.length_take]; omega)]
    | list vs =>
      simp only [encodeV] at he
      obtain ⟨hd, body, hh, hb, hbs⟩ :
          ∃ hd body, listHeader vs.length = some hd ∧ encodeVL vs = some body ∧
            bs = hd ++ body := by
        cases hh : listHeader vs.length <;> cases hb : encodeVL vs <;>
          rw [hh, hb] at he <;> cases he <;> exact ⟨_, _, rfl, rfl, rfl⟩
      subst hbs
      unfold listHeader at hh
      split_ifs at hh with g1 g2 g3 g4
      · injection hh with hh; subst hh
        obtain ⟨k', rfl⟩ : ∃ k', k = k' + 1 := ⟨k - 1, by omega⟩
        simp only [List.length_append, List.length_cons, List.length_nil] at hk
        rw [List.singleton_append, List.take_succ_cons, decodeVStep_tinyList _ _ g1]
        have hps := decSeq_pref f ih vs body k' hb (by omega) (by omega)
        simp [hps]
      · injection hh with hh; subst hh
        obtain ⟨k', rfl⟩ : ∃ k', k = k' + 1 := ⟨k - 1, by omega⟩
        simp only [List.length_append, List.length_cons, List.length_nil] at hk
        rw [show (([0xD4, vs.length] ++ body : List Nat)) = 0xD4 :: vs.length :: body
          from rfl, List.take_succ_cons, decodeVStep_d4]
        cases k' with
        | zero => rw [List.take_zero, readBE_short 1 [] (by simp)]
        | succ k'' =>
          simp only [List.take_succ_cons, readBE_one]
          have hps := decSeq_pref f ih vs body k'' hb (by omega) (by omega)
          simp [hps]
      · injection hh with hh; subst hh
        obtain ⟨k', rfl⟩ : ∃ k', k = k' + 1 := ⟨k - 1, by omega⟩
        simp only [List.length_append, List.length_cons, beBytes_length] at hk
        rw [List.cons_append, List.take_succ_cons, decodeVStep_d5]
        rcases Nat.lt_or_ge k' 2 with h2 | h2
        · rw [readBE_short 2 _ (by simp [List.length_take, beBytes_length]; omega)]
        · rw [take_append_ge _ _ _ (by simp [beBytes_length]; omega)]
          simp only [beBytes_length, readBE_append]
          rw [Nat.mod_eq_of_lt (by norm_num; omega)]
          have hps := decSeq_pref f ih vs body (k' - 2) hb (by omega) (by omega)
          simp [hps]
      · injection hh with hh; subst hh
        obtain ⟨k', rfl⟩ : ∃ k', k = k' + 1 := ⟨k - 1, by omega⟩
        simp only [List.length_append, List.length_cons, beBytes_length] at hk
        rw [List.cons_append, List.take_succ_cons, decodeVStep_d6]
        rcases Nat.lt_or_ge k' 4 with h2 | h2
        · rw [readBE_short 4 _ (by simp [List.length_take, beBytes_length]; omega)]
        · rw [take_append_ge _ _ _ (by simp [beBytes_length]; omega)]
          simp only [beBytes_length, readBE_append]
          rw [Nat.mod_eq_of_lt (by norm_num; omega)]
          have hps := decSeq_pref f ih vs body (k' - 4) hb (by omega) (by omega)
          simp [hps]
    | map es =>
      simp only [encodeV] at he
      obtain ⟨hd, body, hh, hb, hbs⟩ :
          ∃ hd body, mapHeader es.length = some hd ∧ encodeEs es = some body ∧
            bs = hd ++ body := by
        cases hh : mapHeader es.length <;> cases hb : encodeEs es <;>
          rw [hh, hb] at he <;> cases he <;> exact ⟨_, _, rfl, rfl, rfl⟩
      subst hbs
      unfold mapHeader at hh
      split_ifs at hh with g1 g2 g3 g4
      · injection hh with hh; subst hh
        obtain ⟨k', rfl⟩ : ∃ k', k = k' + 1 := ⟨k - 1, by omega⟩
        simp only [List.length_append, List.length_cons, List.length_nil] at hk
        rw [List.singleton_append, List.take_succ_cons, decodeVStep_tinyMap _ _ g1]
        have hps := decEntries_pref f ih es body k' hb (by omega) (by omega)
        simp [hps]
      · injection hh with hh; subst hh
        obtain ⟨k', rfl⟩ : ∃ k', k = k' + 1 := ⟨k - 1, by omega⟩
        simp only [List.length_append, List.length_cons, List.length_nil] at hk
        rw [show (([0xD8, es.length] ++ body : List Nat)) = 0xD8 :: es.length :: body
          from rfl, List.take_succ_cons, decodeVStep_d8]
        cases k' with
        | zero => rw [List.take_zero, readBE_short 1 [] (by simp)]
        | succ k'' =>
          simp only [List.take_succ_cons, readBE_one]
          have hps := decEntries_pref f ih es body k'' hb (by omega) (by omega)
          simp [hps]
      · injection hh with hh; subst hh
        obtain ⟨k', rfl⟩ : ∃ k', k = k' + 1 := ⟨k - 1, by omega⟩
        simp only [List.length_append, List.length_cons, beBytes_length] at hk
        rw [List.cons_append, List.take_succ_cons, decodeVStep_d9]
        rcases Nat.lt_or_ge k' 2 with h2 | h2
        · rw [readBE_short 2 _ (by simp [List.length_take, beBytes_length]; omega)]
        · rw [take_append_ge _ _ _ (by simp [beBytes_length]; omega)]
          simp only [beBytes_length, readBE_append]
          rw [Nat.mod_eq_of_lt (by norm_num; omega)]
          have hps := decEntries_pref f ih es body (k' - 2) hb (by omega) (by omega)
          simp [hps]
      · injection hh with hh; subst hh
        obtain ⟨k', rfl⟩ : ∃ k', k = k' + 1 := ⟨k - 1, by omega⟩
        simp only [List.length_append, List.length_cons, beBytes_length] at hk
        rw [List.cons_append, List.take_succ_cons, decodeVStep_da]
        rcases Nat.lt_or_ge k' 4 with h2 | h2
        · rw [readBE_short 4 _ (by simp [List.length_take, beBytes_length]; omega)]
        · rw [take_append_ge _ _ _ (by simp [beBytes_length]; omega)]
          simp only [beBytes_length, readBE_append]
          rw [Nat.mod_eq_of_lt (by norm_num; omega)]
          have hps := decEntries_pref f ih es body (k' - 4) hb (by omega) (by omega)
          simp [hps]
    | node id labels props =>
      simp only [encodeV] at he
      obtain ⟨i, l, mh, p, h1, h2, h3, h4, hbs⟩ :
          ∃ i l mh p, encInt id = some i ∧ encStrListV labels = some l ∧
            mapHeader props.length = some mh ∧ encProps props = some p ∧
            bs = [0xB3, 0x4E] ++ i ++ l ++ (mh ++ p) := by
        cases h1 : encInt id <;> cases h2 : encStrListV labels <;>
          cases h3 : mapHeader props.length <;> cases h4 : encProps props <;>
          rw [h1, h2, h3, h4] at he <;> cases he <;>
          exact ⟨_, _, _, _, rfl, rfl, rfl, rfl, rfl⟩
      subst hbs
      simp only [List.length_append, List.length_cons, List.length_nil] at hk
      obtain ⟨k', rfl⟩ : ∃ k', k = k' + 1 := ⟨k - 1, by omega⟩
      show decodeVStep (decodeV f)
        ((0xB3 :: 0x4E :: (i ++ l ++ (mh ++ p))).take (k' + 1)) = .error .panicked
      rw [List.take_succ_cons, decodeVStep_tinyStruct _ 0xB3 (by norm_num)]
      cases k' with
      | zero =>
        rw [List.take_zero]
        rfl
      | succ k2 =>
        rw [List.take_succ_cons]
        simp only [readByte, decodeStructBody_node, List.append_assoc]
        have he1 : encodeV (.integer id) = some i := by simp only [encodeV]; exact h1
        have he2 : encodeV (.list (labels.map Value.string)) = some l := by
          rw [encStrListV_bridge]; exact h2
        have he3 : encodeV (.map (props.map (fun q => (Value.string q.1, q.2)))) =
            some (mh ++ p) := by
          rw [encPropsV_bridge]; simp [encPropsV, h3, h4]
        rcases Nat.lt_or_ge k2 i.length with c1 | c1
        · have hd := dec_cut_lt f ih (.integer id) i (l ++ (mh ++ p)) k2 he1
            (by omega) c1
          simp [hd]
        · have hd := dec_cut_ge f (.integer id) i (l ++ (mh ++ p)) k2 he1 (by omega) c1
          have hd' : decodeV f ((i ++ (l ++ (mh ++ p))).take k2) =
              .ok (.integer id, (l ++ (mh ++ p)).take (k2 - i.length)) := by
            simpa [keysOK] using hd
          simp only [hd']
          rcases Nat.lt_or_ge (k2 - i.length) l.length with c2 | c2
          · have hd2 := dec_cut_lt f ih (.list (labels.map Value.string)) l (mh ++ p)
              (k2 - i.length) he2 (by omega) c2
            simp [hd2]
          · have hd2 := dec_cut_ge f (.list (labels.map Value.string)) l (mh ++ p)
              (k2 - i.length) he2 (by omega) c2
            have hd2' : decodeV f ((l ++ (mh ++ p)).take (k2 - i.length)) =
                .ok (.list (labels.map Value.string),
                  (mh ++ p).take (k2 - i.length - l.length)) := by
              simpa [keysOK, keysOKL_strings] using hd2
            simp only [hd2', valsToStrs_mapped]
            have hd3 := ih (.map (props.map (fun q => (Value.string q.1, q.2))))
              (mh ++ p) (k2 - i.length - l.length) he3
              (by simp only [List.length_append] at hk ⊢; omega) (by omega)
            simp [hd3]
    | relationship id sid eid ty props =>
      simp only [encodeV] at he
      obtain ⟨i, s, e, tb, mh, p, h1, h2, h3, h4, h5, h6, hbs⟩ :
          ∃ i s e tb mh p, encInt id = some i ∧ encInt sid = some s ∧
            encInt eid = some e ∧ encStr ty = some tb ∧
            mapHeader props.length = some mh ∧ encProps props = some p ∧
            bs = [0xB5, 0x52] ++ i ++ s ++ e ++ tb ++ (mh ++ p) := by
        cases h1 : encInt id <;> cases h2 : encInt sid <;> cases h3 : encInt eid <;>
          cases h4 : encStr ty <;> cases h5 : mapHeader props.length <;>
          cases h6 : encProps props <;>
          rw [h1, h2, h3, h4, h5, h6] at he <;> cases he <;>
          exact ⟨_, _, _, _, _, _, rfl, rfl, rfl, rfl, rfl, rfl, rfl⟩
      subst hbs
      simp only [List.length_append, List.length_cons, List.length_nil] at hk
      obtain ⟨k', rfl⟩ : ∃ k', k = k' + 1 := ⟨k - 1, by omega⟩
      show decodeVStep (decodeV f)
        ((0xB5 :: 0x52 :: (i ++ s ++ e ++ tb ++ (mh ++ p))).take (k' + 1)) =
          .error .panicked
      rw [List.take_succ_cons, decodeVStep_tinyStruct _ 0xB5 (by norm_num)]
      cases k' with
      | zero =>
        rw [List.take_zero]
        rfl
      | succ k2 =>
        rw [List.take_succ_cons]
        simp only [readByte, decodeStructBody_rel, List.append_assoc]
        have he1 : encodeV (.integer id) = some i := by simp only [encodeV]; exact h1
        have he2 : encodeV (.integer sid) = some s := by simp only [encodeV]; exact h2
        have he3 : encodeV (.integer eid) = some e := by simp only [encodeV]; exact h3
        have he4 : encodeV (.string ty) = some tb := by simp only [encodeV]; exact h4
        have he5 : encodeV (.map (props.map (fun q => (Value.string q.1, q.2)))) =
            some (mh ++ p) := by
          rw [encPropsV_bridge]; simp [encPropsV, h5, h6]
        rcases Nat.lt_or_ge k2 i.length with c1 | c1
        · have hd := dec_cut_lt f ih (.integer id) i
            (s ++ (e ++ (tb ++ (mh ++ p)))) k2 he1 (by omega) c1
          simp [hd]
        · have hd := dec_cut_ge f (.integer id) i
            (s ++ (e ++ (tb ++ (mh ++ p)))) k2 he1 (by omega) c1
          have hd' : decodeV f ((i ++ (s ++ (e ++ (tb ++ (mh ++ p))))).take k2) =
              .ok (.integer id, (s ++ (e ++ (tb ++ (mh ++ p)))).take (k2 - i.length)) := by
            simpa [keysOK] using hd
          simp only [hd']
          rcases Nat.lt_or_ge (k2 - i.length) s.length with c2 | c2
          · have hd2 := dec_cut_lt f ih (.integer sid) s (e ++ (tb ++ (mh ++ p)))
              (k2 - i.length) he2 (by omega) c2
            simp [hd2]
          · have hd2 := dec_cut_ge f (.integer sid) s (e ++ (tb ++ (mh ++ p)))
              (k2 - i.length) he2 (by omega) c2
            have hd2' : decodeV f ((s ++ (e ++ (tb ++ (mh ++ p)))).take (k2 - i.length)) =
                .ok (.integer sid,
                  (e ++ (tb ++ (mh ++ p))).take (k2 - i.length - s.length)) := by
              simpa [keysOK] using hd2
            simp only [hd2']
            rcases Nat.lt_or_ge (k2 - i.length - s.length) e.length with c3 | c3
            · have hd3 := dec_cut_lt f ih (.integer eid) e (tb ++ (mh ++ p))
                (k2 - i.length - s.length) he3 (by omega) c3
              simp [hd3]
            · have hd3 := dec_cut_ge f (.integer eid) e (tb ++ (mh ++ p))
                (k2 - i.length - s.length) he3 (by omega) c3
              have hd3' : decodeV f
                  ((e ++ (tb ++ (mh ++ p))).take (k2 - i.length - s.length)) =
                  .ok (.integer eid,
                    (tb ++ (mh ++ p)).take (k2 - i.length - s.length - e.length)) := by
                simpa [keysOK] using hd3
              simp only [hd3']
              rcases Nat.lt_or_ge (k2 - i.length - s.length - e.length) tb.length
                with c4 | c4
              · have hd4 := dec_cut_lt f ih (.string ty) tb (mh ++ p)
                  (k2 - i.length - s.length - e.length) he4 (by omega) c4
                simp [hd4]
              · have hd4 := dec_cut_ge f (.string ty) tb (mh ++ p)
                  (k2 - i.length - s.length - e.length) he4 (by omega) c4
                have hd4' : decodeV f
                    ((tb ++ (mh ++ p)).take (k2 - i.length - s.length - e.length)) =
                    .ok (.string ty,
                      (mh ++ p).take (k2 - i.length - s.length - e.length - tb.length)) := by
                  simpa [keysOK] using hd4
                simp only [hd4']
                have hd5 := ih (.map (props.map (fun q => (Value.string q.1, q.2))))
                  (mh ++ p) (k2 - i.length - s.length - e.length - tb.length) he5
                  (by simp only [List.length_append] at hk ⊢; omega) (by omega)
                simp [hd5]
    | unboundRelationship id ty props =>
      simp only [encodeV] at he
      obtain ⟨i, tb, mh, p, h1, h2, h3, h4, hbs⟩ :
          ∃ i tb mh p, encInt id = some i ∧ encStr ty = some tb ∧
            mapHeader props.length = some mh ∧ encProps props = some p ∧
            bs = [0xB3, 0x72] ++ i ++ tb ++ (mh ++ p) := by
        cases h1 : encInt id <;> cases h2 : encStr ty <;>
          cases h3 : mapHeader props.length <;> cases h4 : encProps props <;>
          rw [h1, h2, h3, h4] at he <;> cases he <;>
          exact ⟨_, _, _, _, rfl, rfl, rfl, rfl, rfl⟩
      subst hbs
      simp only [List.length_append, List.length_cons, List.length_nil] at hk
      obtain ⟨k', rfl⟩ : ∃ k', k = k' + 1 := ⟨k - 1, by omega⟩
      show decodeVStep (decodeV f)
        ((0xB3 :: 0x72 :: (i ++ tb ++ (mh ++ p))).take (k' + 1)) = .error .panicked
      rw [List.take_succ_cons, decodeVStep_tinyStruct _ 0xB3 (by norm_num)]
      cases k' with
      | zero =>
        rw [List.take_zero]
        rfl
      | succ k2 =>
        rw [List.take_succ_cons]
        simp only [readByte, decodeStructBody_urel, List.append_assoc]
        have he1 : encodeV (.integer id) = some i := by simp only [encodeV]; exact h1
        have he2 : encodeV (.string ty) = some tb := by simp only [encodeV]; exact h2
        have he3 : encodeV (.map (props.map (fun q => (Value.string q.1, q.2)))) =
            some (mh ++ p) := by
          rw [encPropsV_bridge]; simp [encPropsV, h3, h4]
        rcases Nat.lt_or_ge k2 i.length with c1 | c1
        · have hd := dec_cut_lt f ih (.integer id) i (tb ++ (mh ++ p)) k2 he1
            (by omega) c1
          simp [hd]
        · have hd := dec_cut_ge f (.integer id) i (tb ++ (mh ++ p)) k2 he1
            (by omega) c1
          have hd' : decodeV f ((i ++ (tb ++ (mh ++ p))).take k2) =
              .ok (.integer id, (tb ++ (mh ++ p)).take (k2 - i.length)) := by
            simpa [keysOK] using hd
          simp only [hd']
          rcases Nat.lt_or_ge (k2 - i.length) tb.length with c2 | c2
          · have hd2 := dec_cut_lt f ih (.string ty) tb (mh ++ p)
              (k2 - i.length) he2 (by omega) c2
            simp [hd2]
          · have hd2 := dec_cut_ge f (.string ty) tb (mh ++ p)
              (k2 - i.length) he2 (by omega) c2
            have hd2' : decodeV f ((tb ++ (mh ++ p)).take (k2 - i.length)) =
                .ok (.string ty, (mh ++ p).take (k2 - i.length - tb.length)) := by
              simpa [keysOK] using hd2
            simp only [hd2']
            have hd3 := ih (.map (props.map (fun q => (Value.string q.1, q.2))))
              (mh ++ p) (k2 - i.length - tb.length) he3
              (by simp only [List.length_append] at hk ⊢; omega) (by omega)
            simp [hd3]
    | path ns rs seq =>
      simp only [encodeV] at he
      obtain ⟨nh, a, rh, b, c, h1, h2, h3, h4, h5, hbs⟩ :
          ∃ nh a rh b c, listHeader ns.length = some nh ∧ encNodes ns = some a ∧
            listHeader rs.length = some rh ∧ encURels rs = some b ∧
            encIntListV seq = some c ∧
            bs = [0xB3, 0x50] ++ (nh ++ a) ++ (rh ++ b) ++ c := by
        cases h1 : listHeader ns.length <;> cases h2 : encNodes ns <;>
          cases h3 : listHeader rs.length <;> cases h4 : encURels rs <;>
          cases h5 : encIntListV seq <;>
          rw [h1, h2, h3, h4, h5] at he <;> cases he <;>
          exact ⟨_, _, _, _, _, rfl, rfl, rfl, rfl, rfl, rfl⟩
      subst hbs
      simp only [List.length_append, List.length_cons, List.length_nil] at hk
      obtain ⟨k', rfl⟩ : ∃ k', k = k' + 1 := ⟨k - 1, by omega⟩
      show decodeVStep (decodeV f)
        ((0xB3 :: 0x50 :: ((nh ++ a) ++ (rh ++ b) ++ c)).take (k' + 1)) =
          .error .panicked
      rw [List.take_succ_cons, decodeVStep_tinyStruct _ 0xB3 (by norm_num)]
      cases k' with
      | zero =>
        rw [List.take_zero]
        rfl
      | succ k2 =>
        rw [List.take_succ_cons]
        simp only [readByte, decodeStructBody_path, List.append_assoc]
        have heA : encodeV (.list (ns.map nodeify)) = some (nh ++ a) := by
          rw [encNodeListV_bridge]; simp [encNodeListV, h1, h2]
        have heB : encodeV (.list (rs.map urelify)) = some (rh ++ b) := by
          rw [encURelListV_bridge]; simp [encURelListV, h3, h4]
        have heC : encodeV (.list (seq.map Value.integer)) = some c := by
          rw [encIntListV_bridge]; exact h5
        have hlA : (nh ++ a).length = nh.length + a.length := List.length_append nh a
        have hlB : (rh ++ b).length = rh.length + b.length := List.length_append rh b
        rcases Nat.lt_or_ge k2 (nh.length + a.length) with c1 | c1
        · have hd := dec_cut_lt f ih (.list (ns.map nodeify)) (nh ++ a)
            ((rh ++ b) ++ c) k2 heA (by omega) (by rw [hlA]; omega)
          simp only [List.append_assoc] at hd
          simp [hd]
        · have hd := dec_cut_ge f (.list (ns.map nodeify)) (nh ++ a)
            ((rh ++ b) ++ c) k2 heA (by omega) (by rw [hlA]; omega)
          rw [keysOK, keysOKL_nodes] at hd
          simp only [List.append_assoc, hlA] at hd
          cases hn : keysOKNs ns with
          | false => simp [hd, hn]
          | true =>
            have hd' : decodeV f ((nh ++ (a ++ (rh ++ (b ++ c)))).take k2) =
                .ok (.list (ns.map nodeify),
                  (rh ++ (b ++ c)).take (k2 - (nh.length + a.length))) := by
              simpa [hn] using hd
            simp only [hd', valsToNodes_mapped]
            rcases Nat.lt_or_ge (k2 - (nh.length + a.length))
              (rh.length + b.length) with c2 | c2
            · have hd2 := dec_cut_lt f ih (.list (rs.map urelify)) (rh ++ b) c
                (k2 - (nh.length + a.length)) heB (by omega) (by rw [hlB]; omega)
              simp only [List.append_assoc] at hd2
              simp [hd2]
            · have hd2 := dec_cut_ge f (.list (rs.map urelify)) (rh ++ b) c
                (k2 - (nh.length + a.length)) heB (by omega) (by rw [hlB]; omega)
              rw [keysOK, keysOKL_urels] at hd2
              simp only [List.append_assoc, hlB] at hd2
              cases hr : keysOKRs rs with
              | false => simp [hd2, hr]
              | true =>
                have hd2' : decodeV f
                    ((rh ++ (b ++ c)).take (k2 - (nh.length + a.length))) =
                    .ok (.list (rs.map urelify),
                      c.take (k2 - (nh.length + a.length) - (rh.length + b.length))) := by
                  simpa [hr] using hd2
                simp only [hd2', valsToURels_mapped]
                have hd3 := ih (.list (seq.map Value.integer)) c
                  (k2 - (nh.length + a.length) - (rh.length + b.length)) heC
                  (by omega) (by omega)
                simp [hd3]
    | date days =>
      simp only [encodeV] at he
      obtain ⟨d, h1, hbs⟩ : ∃ d, encInt days = some d ∧ bs = [0xB1, 0x44] ++ d := by
        cases h1 : encInt days <;> rw [h1] at he <;> cases he <;> exact ⟨_, rfl, rfl⟩
      subst hbs
      simp only [List.length_append, List.length_cons, List.length_nil] at hk
      obtain ⟨k', rfl⟩ : ∃ k', k = k' + 1 := ⟨k - 1, by omega⟩
      show decodeVStep (decodeV f) ((0xB1 :: 0x44 :: d).take (k' + 1)) = .error .panicked
      rw [List.take_succ_cons, decodeVStep_tinyStruct _ 0xB1 (by norm_num)]
      cases k' with
      | zero =>
        rw [List.take_zero]
        rfl
      | succ k2 =>
        rw [List.take_succ_cons]
        simp only [readByte, decodeStructBody_date]
        have he1 : encodeV (.integer days) = some d := by simp only [encodeV]; exact h1
        have hd := ih (.integer days) d k2 he1 (by omega) (by omega)
        simp [hd]
    | time nanos offs =>
      simp only [encodeV] at he
      obtain ⟨a, b, h1, h2, hbs⟩ :
          ∃ a b, encInt nanos = some a ∧ encInt offs = some b ∧
            bs = [0xB2, 0x54] ++ a ++ b := by
        cases h1 : encInt nanos <;> cases h2 : encInt offs <;>
          rw [h1, h2] at he <;> cases he <;> exact ⟨_, _, rfl, rfl, rfl⟩
      subst hbs
      simp only [List.length_append, List.length_cons, List.length_nil] at hk
      obtain ⟨k', rfl⟩ : ∃ k', k = k' + 1 := ⟨k - 1, by omega⟩
      show decodeVStep (decodeV f) ((0xB2 :: 0x54 :: (a ++ b)).take (k' + 1)) =
        .error .panicked
      rw [List.take_succ_cons, decodeVStep_tinyStruct _ 0xB2 (by norm_num)]
      cases k' with
      | zero =>
        rw [List.take_zero]
        rfl
      | succ k2 =>
        rw [List.take_succ_cons]
        simp only [readByte, decodeStructBody_time]
        have he1 : encodeV (.integer nanos) = some a := by simp only [encodeV]; exact h1
        have he2 : encodeV (.integer offs) = some b := by simp only [encodeV]; exact h2
        rcases Nat.lt_or_ge k2 a.length with c1 | c1
        · have hd := dec_cut_lt f ih (.integer nanos) a b k2 he1 (by omega) c1
          simp [hd]
        · have hd := dec_cut_ge f (.integer nanos) a b k2 he1 (by omega) c1
          have hd' : decodeV f ((a ++ b).take k2) =
              .ok (.integer nanos, b.take (k2 - a.length)) := by
            simpa [keysOK] using hd
          simp only [hd']
          have hd2 := ih (.integer offs) b (k2 - a.length) he2 (by omega) (by omega)
          simp [hd2]

theorem decodeField_cut_lt (v : Value) (b R : List Nat) (k : Nat)
    (he : encodeV v = some b) (h : k < b.length) :
    decodeField ((b ++ R).take k) = .error .panicked := by
  rw [take_append_lt b R k (le_of_lt h)]
  unfold decodeField
  have hlen : (b.take k).length = k := by simp [List.length_take]; omega
  rw [hlen]
  exact pref_main (k + 1) v b k he h (by omega)

theorem decodeField_cut_ge (v : Value) (b R : List Nat) (k : Nat)
    (he : encodeV v = some b) (h : b.length ≤ k) :
    decodeField ((b ++ R).take k) =
      (if keysOK v then .ok (v, R.take (k - b.length)) else .error .panicked) := by
  rw [take_append_ge b R k h]
  unfold decodeField
  exact rt_main ((b ++ R.take (k - b.length)).length + 1) v b (R.take (k - b.length))
    he (by simp only [List.length_append]; omega)

/-- Message-level strict-prefix invariant: feeding any strict prefix of an
encoded message body to the message decoder surfaces the caught panic of the
short read as the Panicked error. -/
theorem msg_pref : ∀ m B k, encodeMessage m = some B → k < B.length →
    decodeMessage (B.take k) = .error .panicked := by
  intro m B k he hk
  cases m with
  | init name auth =>
    simp only [encodeMessage] at he
    obtain ⟨nb, ab, h1, h2, hbs⟩ :
        ∃ nb ab, encStr name = some nb ∧ encPropsV auth = some ab ∧
          B = [0xB2, 0x01] ++ nb ++ ab := by
      cases h1 : encStr name <;> cases h2 : encPropsV auth <;>
        rw [h1, h2] at he <;> cases he <;> exact ⟨_, _, rfl, rfl, rfl⟩
    subst hbs
    simp only [List.length_append, List.length_cons, List.length_nil] at hk
    rcases k with _ | k1
    · rfl
    rcases k1 with _ | k2
    · rw [show ([0xB2, 0x01] ++ nb ++ ab : List Nat) = 0xB2 :: 0x01 :: (nb ++ ab)
        from rfl, List.take_succ_cons, List.take_zero]
      rfl
    rw [show ([0xB2, 0x01] ++ nb ++ ab : List Nat) = 0xB2 :: 0x01 :: (nb ++ ab)
      from rfl, List.take_succ_cons, List.take_succ_cons]
    unfold decodeMessage
    simp only [getInfo_tiny 0xB2 (by norm_num) 0x01 ((nb ++ ab).take k2)]
    norm_num
    rcases Nat.lt_or_ge k2 nb.length with c1 | c1
    · have hd := decodeField_cut_lt (.string name) nb ab k2
        (by simp only [encodeV]; exact h1) c1
      simp [fieldString, hd]
    · have hd := decodeField_cut_ge (.string name) nb ab k2
        (by simp only [encodeV]; exact h1) c1
      have hd' : decodeField ((nb ++ ab).take k2) =
          .ok (.string name, ab.take (k2 - nb.length)) := by
        simpa [keysOK] using hd
      have hd2 : decodeField (ab.take (k2 - nb.length)) = .error .panicked := by
        have := decodeField_cut_lt (.map (auth.map (fun q => (Value.string q.1, q.2))))
          ab [] (k2 - nb.length) (by rw [encPropsV_bridge]; exact h2) (by omega)
        simpa using this
      simp [fieldString, hd', fieldMap, hd2]
  | run stmt params =>
    simp only [encodeMessage] at he
    obtain ⟨sb, pb, h1, h2, hbs⟩ :
        ∃ sb pb, encStr stmt = some sb ∧ encPropsV params = some pb ∧
          B = [0xB2, 0x10] ++ sb ++ pb := by
      cases h1 : encStr stmt <;> cases h2 : encPropsV params <;>
        rw [h1, h2] at he <;> cases he <;> exact ⟨_, _, rfl, rfl, rfl⟩
    subst hbs
    simp only [List.length_append, List.length_cons, List.length_nil] at hk
    rcases k with _ | k1
    · rfl
    rcases k1 with _ | k2
    · rw [show ([0xB2, 0x10] ++ sb ++ pb : List Nat) = 0xB2 :: 0x10 :: (sb ++ pb)
        from rfl, List.take_succ_cons, List.take_zero]
      rfl
    rw [show ([0xB2, 0x10] ++ sb ++ pb : List Nat) = 0xB2 :: 0x10 :: (sb ++ pb)
      from rfl, List.take_succ_cons, List.take_succ_cons]
    unfold decodeMessage
    simp only [getInfo_tiny 0xB2 (by norm_num) 0x10 ((sb ++ pb).take k2)]
    norm_num
    rcases Nat.lt_or_ge k2 sb.length with c1 | c1
    · have hd := decodeField_cut_lt (.string stmt) sb pb k2
        (by simp only [encodeV]; exact h1) c1
      simp [fieldString, hd]
    · have hd := decodeField_cut_ge (.string stmt) sb pb k2
        (by simp only [encodeV]; exact h1) c1
      have hd' : decodeField ((sb ++ pb).take k2) =
          .ok (.string stmt, pb.take (k2 - sb.length)) := by
        simpa [keysOK] using hd
      have hd2 : decodeField (pb.take (k2 - sb.length)) = .error .panicked := by
        have := decodeField_cut_lt (.map (params.map (fun q => (Value.string q.1, q.2))))
          pb [] (k2 - sb.length) (by rw [encPropsV_bridge]; exact h2) (by omega)
        simpa using this
      simp [fieldString, hd', fieldMap, hd2]
  | discardAll =>
    simp only [encodeMessage, Option.some.injEq] at he
    subst he
    rcases k with _ | k1
    · rfl
    rcases k1 with _ | k2
    · rfl
    simp only [List.length_cons, List.length_nil] at hk
    omega
  | pullAll =>
    simp only [encodeMessage, Option.some.injEq] at he
    subst he
    rcases k with _ | k1
    · rfl
    rcases k1 with _ | k2
    · rfl
    simp only [List.length_cons, List.length_nil] at hk
    omega
  | ackFailure =>
    simp only [encodeMessage, Option.some.injEq] at he
    subst he
    rcases k with _ | k1
    · rfl
    rcases k1 with _ | k2
    · rfl
    simp only [List.length_cons, List.length_nil] at hk
    omega
  | reset =>
    simp only [encodeMessage, Option.some.injEq] at he
    subst he
    rcases k with _ | k1
    · rfl
    rcases k1 with _ | k2
    · rfl
    simp only [List.length_cons, List.length_nil] at hk
    omega
  | record fields =>
    simp only [encodeMessage] at he
    obtain ⟨fb, h1, hbs⟩ :
        ∃ fb, encodeV (.list fields) = some fb ∧ B = [0xB1, 0x71] ++ fb := by
      cases h1 : encodeV (.list fields) <;> rw [h1] at he <;> cases he <;>
        exact ⟨_, rfl, rfl⟩
    subst hbs
    simp only [List.length_append, List.length_cons, List.length_nil] at hk
    rcases k with _ | k1
    · rfl
    rcases k1 with _ | k2
    · rw [show ([0xB1, 0x71] ++ fb : List Nat) = 0xB1 :: 0x71 :: fb from rfl,
        List.take_succ_cons, List.take_zero]
      rfl
    rw [show ([0xB1, 0x71] ++ fb : List Nat) = 0xB1 :: 0x71 :: fb from rfl,
      List.take_succ_cons, List.take_succ_cons]
    unfold decodeMessage
    simp only [getInfo_tiny 0xB1 (by norm_num) 0x71 (fb.take k2)]
    norm_num
    have hd : decodeField (fb.take k2) = .error .panicked := by
      have := decodeField_cut_lt (.list fields) fb [] k2 h1 (by omega)
      simpa using this
    simp [fieldList, hd]
  | success md =>
    simp only [encodeMessage] at he
    obtain ⟨mb, h1, hbs⟩ :
        ∃ mb, encPropsV md = some mb ∧ B = [0xB1, 0x70] ++ mb := by
      cases h1 : encPropsV md <;> rw [h1] at he <;> cases he <;> exact ⟨_, rfl, rfl⟩
    subst hbs
    simp only [List.length_append, List.length_cons, List.length_nil] at hk
    rcases k with _ | k1
    · rfl
    rcases k1 with _ | k2
    · rw [show ([0xB1, 0x70] ++ mb : List Nat) = 0xB1 :: 0x70 :: mb from rfl,
        List.take_succ_cons, List.take_zero]
      rfl
    rw [show ([0xB1, 0x70] ++ mb : List Nat) = 0xB1 :: 0x70 :: mb from rfl,
      List.take_succ_cons, List.take_succ_cons]
    unfold decodeMessage
    simp only [getInfo_tiny 0xB1 (by norm_num) 0x70 (mb.take k2)]
    norm_num
    have hd : decodeField (mb.take k2) = .error .panicked := by
      have := decodeField_cut_lt (.map (md.map (fun q => (Value.string q.1, q.2))))
        mb [] k2 (by rw [encPropsV_bridge]; exact h1) (by omega)
      simpa using this
    simp [fieldMap, hd]
  | failure md =>
    simp only [encodeMessage] at he
    obtain ⟨mb, h1, hbs⟩ :
        ∃ mb, encPropsV md = some mb ∧ B = [0xB1, 0x7F] ++ mb := by
      cases h1 : encPropsV md <;> rw [h1] at he <;> cases he <;> exact ⟨_, rfl, rfl⟩
    subst hbs
    simp only [List.length_append, List.length_cons, List.length_nil] at hk
    rcases k with _ | k1
    · rfl
    rcases k1 with _ | k2
    · rw [show ([0xB1, 0x7F] ++ mb : List Nat) = 0xB1 :: 0x7F :: mb from rfl,
        List.take_succ_cons, List.take_zero]
      rfl
    rw [show ([0xB1, 0x7F] ++ mb : List Nat) = 0xB1 :: 0x7F :: mb from rfl,
      List.take_succ_cons, List.take_succ_cons]
    unfold decodeMessage
    simp only [getInfo_tiny 0xB1 (by norm_num) 0x7F (mb.take k2)]
    norm_num
    have hd : decodeField (mb.take k2) = .error .panicked := by
      have := decodeField_cut_lt (.map (md.map (fun q => (Value.string q.1, q.2))))
        mb [] k2 (by rw [encPropsV_bridge]; exact h1) (by omega)
      simpa using this
    simp [fieldMap, hd]
  | ignored =>
    simp only [encodeMessage, Option.some.injEq] at he
    subst he
    rcases k with _ | k1
    · rfl
    rcases k1 with _ | k2
    · rfl
    simp only [List.length_cons, List.length_nil] at hk
    omega
  | hello md =>
    simp only [encodeMessage] at he
    obtain ⟨mb, h1, hbs⟩ :
        ∃ mb, encPropsV md = some mb ∧ B = [0xB1, 0x01] ++ mb := by
      cases h1 : encPropsV md <;> rw [h1] at he <;> cases he <;> exact ⟨_, rfl, rfl⟩
    subst hbs
    simp only [List.length_append, List.length_cons, List.length_nil] at hk
    rcases k with _ | k1
    · rfl
    rcases k1 with _ | k2
    · rw [show ([0xB1, 0x01] ++ mb : List Nat) = 0xB1 :: 0x01 :: mb from rfl,
        List.take_succ_cons, List.take_zero]
      rfl
    rw [show ([0xB1, 0x01] ++ mb : List Nat) = 0xB1 :: 0x01 :: mb from rfl,
      List.take_succ_cons, List.take_succ_cons]
    unfold decodeMessage
    simp only [getInfo_tiny 0xB1 (by norm_num) 0x01 (mb.take k2)]
    norm_num
    have hd : decodeField (mb.take k2) = .error .panicked := by
      have := decodeField_cut_lt (.map (md.map (fun q => (Value.string q.1, q.2))))
        mb [] k2 (by rw [encPropsV_bridge]; exact h1) (by omega)
      simpa using this
    simp [fieldMap, hd]
  | goodbye =>
    simp only [encodeMessage, Option.some.injEq] at he
    subst he
    rcases k with _ | k1
    · rfl
    rcases k1 with _ | k2
    · rfl
    simp only [List.length_cons, List.length_nil] at hk
    omega
  | runWithMetadata stmt params md =>
    simp only [encodeMessage] at he
    obtain ⟨sb, pb, mb, h1, h2, h3, hbs⟩ :
        ∃ sb pb mb, encStr stmt = some sb ∧ encPropsV params = some pb ∧
          encPropsV md = some mb ∧ B = [0xB3, 0x10] ++ sb ++ pb ++ mb := by
      cases h1 : encStr stmt <;> cases h2 : encPropsV params <;>
        cases h3 : encPropsV md <;> rw [h1, h2, h3] at he <;> cases he <;>
        exact ⟨_, _, _, rfl, rfl, rfl, rfl⟩
    subst hbs
    simp only [List.length_append, List.length_cons, List.length_nil] at hk
    rcases k with _ | k1
    · rfl
    rcases k1 with _ | k2
    · rw [show ([0xB3, 0x10] ++ sb ++ pb ++ mb : List Nat) =
        0xB3 :: 0x10 :: (sb ++ (pb ++ mb)) from by simp, List.take_succ_cons,
        List.take_zero]
      rfl
    rw [show ([0xB3, 0x10] ++ sb ++ pb ++ mb : List Nat) =
      0xB3 :: 0x10 :: (sb ++ (pb ++ mb)) from by simp, List.take_succ_cons,
      List.take_succ_cons]
    unfold decodeMessage
    simp only [getInfo_tiny 0xB3 (by norm_num) 0x10 ((sb ++ (pb ++ mb)).take k2)]
    norm_num
    rcases Nat.lt_or_ge k2 sb.length with c1 | c1
    · have hd := decodeField_cut_lt (.string stmt) sb (pb ++ mb) k2
        (by simp only [encodeV]; exact h1) c1
      simp [fieldString, hd]
    · have hd := decodeField_cut_ge (.string stmt) sb (pb ++ mb) k2
        (by simp only [encodeV]; exact h1) c1
      have hd' : decodeField ((sb ++ (pb ++ mb)).take k2) =
          .ok (.string stmt, (pb ++ mb).take (k2 - sb.length)) := by
        simpa [keysOK] using hd
      rcases Nat.lt_or_ge (k2 - sb.length) pb.length with c2 | c2
      · have hd2 := decodeField_cut_lt
          (.map (params.map (fun q => (Value.string q.1, q.2)))) pb mb
          (k2 - sb.length) (by rw [encPropsV_bridge]; exact h2) c2
        simp [fieldString, hd', fieldMap, hd2]
      · have hd2 := decodeField_cut_ge
          (.map (params.map (fun q => (Value.string q.1, q.2)))) pb mb
          (k2 - sb.length) (by rw [encPropsV_bridge]; exact h2) c2
        rw [keysOK, keysOKEs_mapped] at hd2
        cases hkp : keysOKPs params with
        | false => simp [fieldString, hd', fieldMap, hd2, hkp]
        | true =>
          have hd2' : decodeField ((pb ++ mb).take (k2 - sb.length)) =
              .ok (.map (params.map (fun q => (Value.string q.1, q.2))),
                mb.take (k2 - sb.length - pb.length)) := by
            simpa [hkp] using hd2
          have hd3 : decodeField (mb.take (k2 - sb.length - pb.length)) =
              .error .panicked := by
            have := decodeField_cut_lt
              (.map (md.map (fun q => (Value.string q.1, q.2)))) mb []
              (k2 - sb.length - pb.length) (by rw [encPropsV_bridge]; exact h3)
              (by omega)
            simpa using this
          simp [fieldString, hd', fieldMap, hd2', entriesToProps_mapped, hd3]
  | begin md =>
    simp only [encodeMessage] at he
    obtain ⟨mb, h1, hbs⟩ :
        ∃ mb, encPropsV md = some mb ∧ B = [0xB1, 0x11] ++ mb := by
      cases h1 : encPropsV md <;> rw [h1] at he <;> cases he <;> exact ⟨_, rfl, rfl⟩
    subst hbs
    simp only [List.length_append, List.length_cons, List.length_nil] at hk
    rcases k with _ | k1
    · rfl
    rcases k1 with _ | k2
    · rw [show ([0xB1, 0x11] ++ mb : List Nat) = 0xB1 :: 0x11 :: mb from rfl,
        List.take_succ_cons, List.take_zero]
      rfl
    rw [show ([0xB1, 0x11] ++ mb : List Nat) = 0xB1 :: 0x11 :: mb from rfl,
      List.take_succ_cons, List.take_succ_cons]
    unfold decodeMessage
    simp only [getInfo_tiny 0xB1 (by norm_num) 0x11 (mb.take k2)]
    norm_num
    have hd : decodeField (mb.take k2) = .error .panicked := by
      have := decodeField_cut_lt (.map (md.map (fun q => (Value.string q.1, q.2))))
        mb [] k2 (by rw [encPropsV_bridge]; exact h1) (by omega)
      simpa using this
    simp [fieldMap, hd]
  | commit =>
    simp only [encodeMessage, Option.some.injEq] at he
    subst he
    rcases k with _ | k1
    · rfl
    rcases k1 with _ | k2
    · rfl
    simp only [List.length_cons, List.length_nil] at hk
    omega
  | rollback =>
    simp only [encodeMessage, Option.some.injEq] at he
    subst he
    rcases k with _ | k1
    · rfl
    rcases k1 with _ | k2
    · rfl
    simp only [List.length_cons, List.length_nil] at hk
    omega
  | discard md =>
    simp only [encodeMessage] at he
    obtain ⟨mb, h1, hbs⟩ :
        ∃ mb, encPropsV md = some mb ∧ B = [0xB1, 0x2F] ++ mb := by
      cases h1 : encPropsV md <;> rw [h1] at he <;> cases he <;> exact ⟨_, rfl, rfl⟩
    subst hbs
    simp only [List.length_append, List.length_cons, List.length_nil] at hk
    rcases k with _ | k1
    · rfl
    rcases k1 with _ | k2
    · rw [show ([0xB1, 0x2F] ++ mb : List Nat) = 0xB1 :: 0x2F :: mb from rfl,
        List.take_succ_cons, List.take_zero]
      rfl
    rw [show ([0xB1, 0x2F] ++ mb : List Nat) = 0xB1 :: 0x2F :: mb from rfl,
      List.take_succ_cons, List.take_succ_cons]
    unfold decodeMessage
    simp only [getInfo_tiny 0xB1 (by norm_num) 0x2F (mb.take k2)]
    norm_num
    have hd : decodeField (mb.take k2) = .error .panicked := by
      have := decodeField_cut_lt (.map (md.map (fun q => (Value.string q.1, q.2))))
        mb [] k2 (by rw [encPropsV_bridge]; exact h1) (by omega)
      simpa using this
    simp [fieldMap, hd]
  | pull md =>
    simp only [encodeMessage] at he
    obtain ⟨mb, h1, hbs⟩ :
        ∃ mb, encPropsV md = some mb ∧ B = [0xB1, 0x3F] ++ mb := by
      cases h1 : encPropsV md <;> rw [h1] at he <;> cases he <;> exact ⟨_, rfl, rfl⟩
    subst hbs
    simp only [List.length_append, List.length_cons, List.length_nil] at hk
    rcases k with _ | k1
    · rfl
    rcases k1 with _ | k2
    · rw [show ([0xB1, 0x3F] ++ mb : List Nat) = 0xB1 :: 0x3F :: mb from rfl,
        List.take_succ_cons, List.take_zero]
      rfl
    rw [show ([0xB1, 0x3F] ++ mb : List Nat) = 0xB1 :: 0x3F :: mb from rfl,
      List.take_succ_cons, List.take_succ_cons]
    unfold decodeMessage
    simp only [getInfo_tiny 0xB1 (by norm_num) 0x3F (mb.take k2)]
    norm_num
    have hd : decodeField (mb.take k2) = .error .panicked := by
      have := decodeField_cut_lt (.map (md.map (fun q => (Value.string q.1, q.2))))
        mb [] k2 (by rw [encPropsV_bridge]; exact h1) (by omega)
      simpa using this
    simp [fieldMap, hd]

/-- C8 (amended): for every input buffer that is a strict prefix of a valid
Value or Message encoding, decoding returns the caught-panic error
(DeserializationError::Panicked): the read past the buffer end panics inside
the bytes crate, the catch_unwind wrapper converts it, and no UnexpectedEof
error kind is produced — the source error type's visible decode paths never
construct one. -/
theorem c8_short_input_panics :
    (∀ v bs k, encodeV v = some bs → k < bs.length →
      decodeValueFull (bs.take k) = .error .panicked) ∧
    (∀ m B k, encodeMessage m = some B → k < B.length →
      decodeMessage (B.take k) = .error .panicked) := by
  constructor
  · intro v bs k he hk
    unfold decodeValueFull
    have hlen : (bs.take k).length = k := by simp [List.length_take]; omega
    rw [hlen]
    exact pref_main (k + 1) v bs k he hk (by omega)
  · exact msg_pref

theorem c8_short_input_panics_witness :
    decodeValueFull (([0xC9, 0x01, 0x2C] : List Nat).take 1) = .error .panicked ∧
    decodeMessage (([0xB0, 0x0E] : List Nat).take 1) = .error .panicked :=
  ⟨c8_short_input_panics.1 (.integer 300) [0xC9, 0x01, 0x2C] 1 (by decide)
      (by norm_num),
    c8_short_input_panics.2 .ackFailure [0xB0, 0x0E] 1 rfl (by norm_num)⟩

/-- C8 counterexample: the single byte 0xC9 is a strict prefix of the
encoding of Integer 300 (C9 01 2C); decoding it yields the Panicked error,
which is a different error kind than the UnexpectedEof the specification
prescribes for short input.  Likewise the two-byte prefix B2 01 of an Init
message yields Panicked from the message decoder. -/
theorem c8_counterexample :
    encodeV (.integer 300) = some [0xC9, 0x01, 0x2C] ∧
    decodeValueFull [0xC9] = .error .panicked ∧
    DErr.panicked ≠ DErr.unexpectedEof ∧
    decodeMessage [0xB2, 0x01] = .error .panicked :=
  ⟨by decide, rfl, fun h => DErr.noConfusion h, rfl⟩
